import Mathlib

/-! RGB underglow controller (app/src/rgb_underglow.c).

A shallow embedding of the underglow controller and the properties proved
about it.

Conventions of the embedding

* C `int` values are modelled as `Int` and `int` arithmetic is exact: signed
  overflow is undefined behaviour in C, so no wrapped result is attributed to
  it.  C's `%` on `int` truncates toward zero and is `Int.tmod`.
* Unsigned fields (`uint8_t`, `uint16_t`) are `Nat`; every store of an `int`
  into such a field is written with its explicit reduction modulo `2^8` or
  `2^16`.
* The module's globals (`led_strip`, `pixels`, `state`) are the fields of
  `World`; a command takes the world and returns its `int` result together
  with the new world.
* Values that come from Kconfig or the devicetree are the fields of `Config`.
-/

namespace Underglow

/-! ## Constants -/

/-- Upper hue limit, `#define HUE_MAX 360`. -/
def HUE_MAX : Nat := 360

/-- Upper saturation limit, `#define SAT_MAX 100`. -/
def SAT_MAX : Nat := 100

/-- Upper brightness limit, `#define BRT_MAX 100`. -/
def BRT_MAX : Nat := 100

/-- Number of effects: the last enumerator of `enum rgb_underglow_effect`
(SOLID = 0, BREATHE, SPECTRUM, SWIRL, KINESIS, BATTERY, TEST = 6). -/
def UNDERGLOW_EFFECT_NUMBER : Nat := 7

/-- Zephyr errno value `ENODEV` (errno.h, outside this repository). -/
def ENODEV : Int := 19

/-- Zephyr errno value `EINVAL` (errno.h, outside this repository). -/
def EINVAL : Int := 22

/-- Zephyr errno value `ENOTSUP` (errno.h, outside this repository). -/
def ENOTSUP : Int := 134

/-! ## Data model -/

/-- Colour in hue / saturation / brightness form, `struct zmk_led_hsb`:
`h` is a `uint16_t`, `s` and `b` are `uint8_t`. -/
structure zmk_led_hsb where
  h : Nat
  s : Nat
  b : Nat
  deriving DecidableEq, Repr

/-- One pixel, `struct led_rgb` of the LED strip driver: three `uint8_t`
channels. -/
structure led_rgb where
  r : Nat
  g : Nat
  b : Nat
  deriving DecidableEq, Repr

/-- Animation state, `struct rgb_underglow_state`: `animation_speed` and
`current_effect` are `uint8_t`, `animation_step` is a `uint16_t`; `is_on` is the field `on`. -/
structure rgb_underglow_state where
  color : zmk_led_hsb
  animation_speed : Nat
  current_effect : Nat
  animation_step : Nat
  is_on : Bool
  deriving DecidableEq, Repr

/-- Build-time configuration: the Kconfig symbols
`CONFIG_ZMK_RGB_UNDERGLOW_*` and the devicetree chain length
(`STRIP_NUM_PIXELS`). -/
structure Config where
  HUE_STEP : Int
  SAT_STEP : Int
  BRT_STEP : Int
  BRT_MIN : Nat
  BRT_MAX : Nat
  STRIP_NUM_PIXELS : Nat
  deriving DecidableEq, Repr

/-- The module's globals.  `led_strip` is true when the device handle is
non-null; `timer_running` records `k_timer_start` / `k_timer_stop` on
`underglow_tick`; `flushed` lists the buffers handed to
`led_strip_update_rgb`, most recent first. -/
structure World where
  led_strip : Bool
  pixels : List led_rgb
  state : rgb_underglow_state
  timer_running : Bool
  flushed : List (List led_rgb)
  deriving DecidableEq, Repr

/-- Fields of a colour fit their C types. -/
def zmk_led_hsb.wf (c : zmk_led_hsb) : Prop :=
  c.h < 65536 ∧ c.s < 256 ∧ c.b < 256

instance (c : zmk_led_hsb) : Decidable c.wf := by
  unfold zmk_led_hsb.wf; infer_instance

/-! ## Single-precision arithmetic

`hsb_to_rgb` computes in C `float`.  A finite `float` is modelled by the
rational number it denotes, and every operation by the exact rational
operation followed by `f32_round`, the IEEE-754 binary32 rounding to nearest
with ties to even (24-bit significand, gradual underflow below `2^-126`).
Each operation is rounded on its own (no fused multiply-add, no wider
intermediate format).  Overflow to infinity is not modelled: no value here
exceeds 255.
-/

/-- Number of binary digits by strides of `s` bits: while `n ≥ 2^s`, drop `s`
bits and count them; the rest is measured by `next`.  `fuel` bounds the
number of strides. -/
def bit_length_by (s : Nat) (next : Nat → Nat) : Nat → Nat → Nat
  | 0, n => next n
  | fuel + 1, n => if n < 2 ^ s then next n else bit_length_by s next fuel (n / 2 ^ s) + s

/-- Number of binary digits of `n` (0 for 0): strides of 64 bits, then of 8
bits, then single bits. -/
def bit_length (n : Nat) : Nat :=
  bit_length_by 64 (bit_length_by 8 (bit_length_by 1 (fun n => if n = 0 then 0 else 1) 8) 8) n n

/-- Nearest integer to `num / den`, ties to the even neighbour. -/
def round_half_even (num den : Nat) : Nat :=
  let q := num / den
  let r := num % den
  if 2 * r < den then q else if den < 2 * r then q + 1 else if q % 2 = 0 then q else q + 1

/-- Rounding of a rational to binary32, nearest with ties to even.  With
`|x| = n / d` counted in units of `2^-149` (the smallest subnormal), the
spacing of binary32 numbers around `|x|` is `2^sh` units, where `sh` is the
number of digits of the integer part beyond 24. -/
def f32_round (x : ℚ) : ℚ :=
  let n : Nat := x.num.natAbs * 2 ^ 149
  let d : Nat := x.den
  let sh : Nat := bit_length (n / d) - 24
  let m : Nat := round_half_even n (d * 2 ^ sh)
  let y : ℚ := ((m * 2 ^ sh : Nat) : ℚ) / ((2 ^ 149 : Nat) : ℚ)
  if x < 0 then -y else y

/-- Single-precision subtraction. -/
def f32_sub (a b : ℚ) : ℚ := f32_round (a - b)

/-- Single-precision multiplication. -/
def f32_mul (a b : ℚ) : ℚ := f32_round (a * b)

/-- Single-precision division. -/
def f32_div (a b : ℚ) : ℚ := f32_round (a / b)

/-- C conversion of a `float` to `uint8_t`: the value is truncated toward
zero; the conversion is defined only if the truncated value is in `0..255`. -/
def f32_to_u8 (x : ℚ) : Option Nat :=
  let t : Int := Int.tdiv x.num (x.den : Int)
  if 0 ≤ t ∧ t ≤ 255 then some t.toNat else none

/-! ## Colour conversion -/

/-- The three products `r * 255`, `g * 255`, `b * 255` that `hsb_to_rgb`
forms, before they are narrowed to bytes. -/
def hsb_to_rgb_float (hsb : zmk_led_hsb) : ℚ × ℚ × ℚ :=
  let i : Nat := (hsb.h / 60) % 256
  let v : ℚ := f32_div (hsb.b : ℚ) (BRT_MAX : ℚ)
  let s : ℚ := f32_div (hsb.s : ℚ) (SAT_MAX : ℚ)
  let f : ℚ := f32_sub (f32_mul (f32_div (hsb.h : ℚ) (HUE_MAX : ℚ)) 6) (i : ℚ)
  let p : ℚ := f32_mul v (f32_sub 1 s)
  let q : ℚ := f32_mul v (f32_sub 1 (f32_mul f s))
  let t : ℚ := f32_mul v (f32_sub 1 (f32_mul (f32_sub 1 f) s))
  let rgb : ℚ × ℚ × ℚ :=
    match i % 6 with
    | 0 => (v, t, p)
    | 1 => (q, v, p)
    | 2 => (p, v, t)
    | 3 => (p, q, v)
    | 4 => (t, p, v)
    | _ => (v, p, q)
  (f32_mul rgb.1 255, f32_mul rgb.2.1 255, f32_mul rgb.2.2 255)

/-- `hsb_to_rgb`: the three products narrowed to the `uint8_t` channels of
`struct led_rgb`; `none` when a narrowing is undefined. -/
def hsb_to_rgb (hsb : zmk_led_hsb) : Option led_rgb :=
  let c := hsb_to_rgb_float hsb
  match f32_to_u8 c.1, f32_to_u8 c.2.1, f32_to_u8 c.2.2 with
  | some r, some g, some b => some ⟨r, g, b⟩
  | _, _, _ => none

/-- The documented six-case table in exact arithmetic, before truncation:
`i = floor(h/60) mod 6`, `v = b/100`, `s = s/100`, `f = h/60 - i`,
`p = v(1-s)`, `q = v(1-fs)`, `t = v(1-(1-f)s)`, and 255 times `(v,t,p)`,
`(q,v,p)`, `(p,v,t)`, `(p,q,v)`, `(t,p,v)`, `(v,p,q)` for `i = 0,...,5`. -/
def hsb_to_rgb_exact (hsb : zmk_led_hsb) : ℚ × ℚ × ℚ :=
  let i : Nat := (hsb.h / 60) % 6
  let v : ℚ := (hsb.b : ℚ) / 100
  let s : ℚ := (hsb.s : ℚ) / 100
  let f : ℚ := (hsb.h : ℚ) / 60 - (i : ℚ)
  let p : ℚ := v * (1 - s)
  let q : ℚ := v * (1 - f * s)
  let t : ℚ := v * (1 - (1 - f) * s)
  if i = 0 then (255 * v, 255 * t, 255 * p)
  else if i = 1 then (255 * q, 255 * v, 255 * p)
  else if i = 2 then (255 * p, 255 * v, 255 * t)
  else if i = 3 then (255 * p, 255 * q, 255 * v)
  else if i = 4 then (255 * t, 255 * p, 255 * v)
  else (255 * v, 255 * p, 255 * q)

/-- The documented table, truncated to bytes. -/
def hsb_to_rgb_table (hsb : zmk_led_hsb) : led_rgb :=
  let e := hsb_to_rgb_exact hsb
  ⟨⌊e.1⌋.toNat, ⌊e.2.1⌋.toNat, ⌊e.2.2⌋.toNat⟩

/-- A computed value `x` and its exact counterpart `y` both lie in `[0,1]`
and differ by at most `ε`. -/
def near (ε x y : ℚ) : Prop :=
  0 ≤ x ∧ x ≤ 1 ∧ 0 ≤ y ∧ y ≤ 1 ∧ |x - y| ≤ ε

instance (ε x y : ℚ) : Decidable (near ε x y) := by
  unfold near; infer_instance

/-- A computed channel product `c` and its exact counterpart `e` both lie in
`[0,255]` and differ by at most `2^-10`. -/
def chan_rel (c e : ℚ) : Prop :=
  0 ≤ c ∧ c ≤ 255 ∧ 0 ≤ e ∧ e ≤ 255 ∧ |c - e| ≤ 1 / 2 ^ 10

/-! ## Persistence request -/

/-- `zmk_rgb_underglow_save_state`: `MIN(ret, 0)` where `ret` is what
`k_work_reschedule` returned for the debounced save request. -/
def zmk_rgb_underglow_save_state (ret : Int) : Int :=
  min ret 0

/-! ## Power commands -/

/-- `zmk_rgb_underglow_on`.  The optional `ext_power_enable` call only logs
its result and touches none of the modelled globals. -/
def zmk_rgb_underglow_on (w : World) (ret : Int) : Int × World :=
  if !w.led_strip then (-ENODEV, w)
  else
    (zmk_rgb_underglow_save_state ret,
      { w with
        state := { w.state with is_on := true, animation_step := 0 }
        timer_running := true })

/-- The blanking loop of `zmk_rgb_underglow_off`:
`for (i = 0; i < STRIP_NUM_PIXELS; i++) pixels[i] = (0,0,0)`. -/
def blank_pixels (n : Nat) (pixels : List led_rgb) : List led_rgb :=
  (List.range n).foldl (fun px i => px.set i ⟨0, 0, 0⟩) pixels

/-- `zmk_rgb_underglow_off`. -/
def zmk_rgb_underglow_off (cfg : Config) (w : World) (ret : Int) : Int × World :=
  if !w.led_strip then (-ENODEV, w)
  else
    let px := blank_pixels cfg.STRIP_NUM_PIXELS w.pixels
    (zmk_rgb_underglow_save_state ret,
      { w with
        pixels := px
        flushed := px :: w.flushed
        timer_running := false
        state := { w.state with is_on := false } })

/-- `zmk_rgb_underglow_toggle`. -/
def zmk_rgb_underglow_toggle (cfg : Config) (w : World) (ret : Int) : Int × World :=
  if w.state.is_on then zmk_rgb_underglow_off cfg w ret else zmk_rgb_underglow_on w ret

/-! ## Effect selection -/

/-- `zmk_rgb_underglow_calc_effect`: `int` arithmetic, C remainder. -/
def zmk_rgb_underglow_calc_effect (st : rgb_underglow_state) (direction : Int) : Int :=
  Int.tmod ((st.current_effect : Int) + (UNDERGLOW_EFFECT_NUMBER : Int) + direction)
    (UNDERGLOW_EFFECT_NUMBER : Int)

/-- `zmk_rgb_underglow_select_effect`; the accepted value is stored in the
`uint8_t` field `current_effect`. -/
def zmk_rgb_underglow_select_effect (w : World) (effect : Int) (ret : Int) : Int × World :=
  if !w.led_strip then (-ENODEV, w)
  else if effect < 0 ∨ effect ≥ (UNDERGLOW_EFFECT_NUMBER : Int) then (-EINVAL, w)
  else
    (zmk_rgb_underglow_save_state ret,
      { w with
        state := { w.state with
          current_effect := (effect % 256).toNat
          animation_step := 0 } })

/-- `zmk_rgb_underglow_cycle_effect`. -/
def zmk_rgb_underglow_cycle_effect (w : World) (direction : Int) (ret : Int) : Int × World :=
  zmk_rgb_underglow_select_effect w (zmk_rgb_underglow_calc_effect w.state direction) ret

/-! ## Colour commands -/

/-- `zmk_rgb_underglow_set_hsb`. -/
def zmk_rgb_underglow_set_hsb (w : World) (color : zmk_led_hsb) : Int × World :=
  if color.h > HUE_MAX ∨ color.s > SAT_MAX ∨ color.b > BRT_MAX then (-ENOTSUP, w)
  else (0, { w with state := { w.state with color := color } })

/-- `zmk_rgb_underglow_calc_hue`: the sum is formed in `int`, stored into the
`uint16_t` field `h`, and the field is then reduced modulo `HUE_MAX`. -/
def zmk_rgb_underglow_calc_hue (cfg : Config) (st : rgb_underglow_state)
    (direction : Int) : zmk_led_hsb :=
  let color := st.color
  let h1 : Nat := (((color.h : Int) + ((HUE_MAX : Int) + direction * cfg.HUE_STEP)) % 65536).toNat
  { color with h := h1 % HUE_MAX }

/-- `zmk_rgb_underglow_calc_sat`; the clamped `int` is stored into the
`uint8_t` field `s`. -/
def zmk_rgb_underglow_calc_sat (cfg : Config) (st : rgb_underglow_state)
    (direction : Int) : zmk_led_hsb :=
  let color := st.color
  let s : Int := (color.s : Int) + direction * cfg.SAT_STEP
  let s : Int := if s < 0 then 0 else if s > (SAT_MAX : Int) then (SAT_MAX : Int) else s
  { color with s := (s % 256).toNat }

/-- Zephyr's `CLAMP(val, low, high)`:
`((val) <= (low)) ? (low) : MIN(val, high)`. -/
def CLAMP (val low high : Int) : Int :=
  if val ≤ low then low else min val high

/-- `zmk_rgb_underglow_calc_brt`; the clamped `int` is stored into the
`uint8_t` field `b`. -/
def zmk_rgb_underglow_calc_brt (cfg : Config) (st : rgb_underglow_state)
    (direction : Int) : zmk_led_hsb :=
  let color := st.color
  let b : Int := (color.b : Int) + direction * cfg.BRT_STEP
  { color with b := (CLAMP b 0 (BRT_MAX : Int) % 256).toNat }

/-- `zmk_rgb_underglow_change_hue`. -/
def zmk_rgb_underglow_change_hue (cfg : Config) (w : World) (direction : Int) (ret : Int) :
    Int × World :=
  if !w.led_strip then (-ENODEV, w)
  else
    (zmk_rgb_underglow_save_state ret,
      { w with state := { w.state with color := zmk_rgb_underglow_calc_hue cfg w.state direction } })

/-- `zmk_rgb_underglow_change_sat`. -/
def zmk_rgb_underglow_change_sat (cfg : Config) (w : World) (direction : Int) (ret : Int) :
    Int × World :=
  if !w.led_strip then (-ENODEV, w)
  else
    (zmk_rgb_underglow_save_state ret,
      { w with state := { w.state with color := zmk_rgb_underglow_calc_sat cfg w.state direction } })

/-- `zmk_rgb_underglow_change_brt`. -/
def zmk_rgb_underglow_change_brt (cfg : Config) (w : World) (direction : Int) (ret : Int) :
    Int × World :=
  if !w.led_strip then (-ENODEV, w)
  else
    (zmk_rgb_underglow_save_state ret,
      { w with state := { w.state with color := zmk_rgb_underglow_calc_brt cfg w.state direction } })

/-- `zmk_rgb_underglow_change_spd`; the sum is stored into the `uint8_t`
field `animation_speed` before the upper limit is applied. -/
def zmk_rgb_underglow_change_spd (w : World) (direction : Int) (ret : Int) : Int × World :=
  if !w.led_strip then (-ENODEV, w)
  else if w.state.animation_speed = 1 ∧ direction < 0 then (0, w)
  else
    let spd : Nat := (((w.state.animation_speed : Int) + direction) % 256).toNat
    let spd : Nat := if spd > 5 then 5 else spd
    (zmk_rgb_underglow_save_state ret,
      { w with state := { w.state with animation_speed := spd } })

/-! ## The command interface as a whole -/

/-- The commands of the public API that act on colour, power, effect and
speed, with their arguments. -/
inductive Command where
  | power_on
  | power_off
  | toggle
  | select_effect (effect : Int)
  | cycle_effect (direction : Int)
  | set_hsb (color : zmk_led_hsb)
  | change_hue (direction : Int)
  | change_sat (direction : Int)
  | change_brt (direction : Int)
  | change_spd (direction : Int)
  deriving DecidableEq, Repr

/-- Run one command; `ret` is the result of the save request it may issue. -/
def Command.run (cfg : Config) (w : World) (ret : Int) : Command → Int × World
  | .power_on => zmk_rgb_underglow_on w ret
  | .power_off => zmk_rgb_underglow_off cfg w ret
  | .toggle => zmk_rgb_underglow_toggle cfg w ret
  | .select_effect e => zmk_rgb_underglow_select_effect w e ret
  | .cycle_effect d => zmk_rgb_underglow_cycle_effect w d ret
  | .set_hsb c => zmk_rgb_underglow_set_hsb w c
  | .change_hue d => zmk_rgb_underglow_change_hue cfg w d ret
  | .change_sat d => zmk_rgb_underglow_change_sat cfg w d ret
  | .change_brt d => zmk_rgb_underglow_change_brt cfg w d ret
  | .change_spd d => zmk_rgb_underglow_change_spd w d ret

/-- Colour invariant of the data model: `hue < 360`, `saturation ≤ 100`,
`brightness ≤ 100`. -/
def color_inv (c : zmk_led_hsb) : Prop :=
  c.h < HUE_MAX ∧ c.s ≤ SAT_MAX ∧ c.b ≤ BRT_MAX

instance (c : zmk_led_hsb) : Decidable (color_inv c) := by
  unfold color_inv; infer_instance

/-- The range that `zmk_rgb_underglow_set_hsb` accepts: `hue ≤ 360`,
`saturation ≤ 100`, `brightness ≤ 100`. -/
def color_accepted (c : zmk_led_hsb) : Prop :=
  c.h ≤ HUE_MAX ∧ c.s ≤ SAT_MAX ∧ c.b ≤ BRT_MAX

instance (c : zmk_led_hsb) : Decidable (color_accepted c) := by
  unfold color_accepted; infer_instance

/-- Repeated `zmk_rgb_underglow_change_hue` with one direction; `rets` holds
the save result of each call, so the number of calls is `rets.length`. -/
def repeat_change_hue (cfg : Config) (direction : Int) (rets : List Int) (w : World) : World :=
  rets.foldl (fun w ret => (zmk_rgb_underglow_change_hue cfg w direction ret).2) w

/-- Mathematical clamp of an integer to `[lo, hi]`. -/
def clamp (x lo hi : Int) : Int :=
  max lo (min x hi)

/-- A world with a bound strip of three dark pixels, effect `eff`, hue `h`,
full saturation and brightness, speed 3, switched on. -/
def sample_world (eff h : Nat) : World :=
  { led_strip := true
    pixels := [⟨0, 0, 0⟩, ⟨0, 0, 0⟩, ⟨0, 0, 0⟩]
    state := { color := ⟨h, 100, 100⟩, animation_speed := 3, current_effect := eff,
               animation_step := 0, is_on := true }
    timer_running := true
    flushed := [] }

/-- A configuration with the default steps (hue 10, saturation 10,
brightness 10), brightness range 0..100 and three pixels. -/
def sample_config : Config :=
  { HUE_STEP := 10, SAT_STEP := 10, BRT_STEP := 10, BRT_MIN := 0, BRT_MAX := 100,
    STRIP_NUM_PIXELS := 3 }

/-! ## Brightness scaling -/

/-- `hsb_scale_min_max`: `int` arithmetic with C division, stored into the
`uint8_t` field `b`. -/
def hsb_scale_min_max (cfg : Config) (hsb : zmk_led_hsb) : zmk_led_hsb :=
  { hsb with
    b := (((cfg.BRT_MIN : Int) +
            Int.tdiv (((cfg.BRT_MAX : Int) - (cfg.BRT_MIN : Int)) * (hsb.b : Int)) (BRT_MAX : Int))
          % 256).toNat }

/-- `hsb_scale_zero_max`: `int` arithmetic with C division, stored into the
`uint8_t` field `b`. -/
def hsb_scale_zero_max (cfg : Config) (hsb : zmk_led_hsb) : zmk_led_hsb :=
  { hsb with
    b := (Int.tdiv ((hsb.b : Int) * (cfg.BRT_MAX : Int)) (BRT_MAX : Int) % 256).toNat }

/-! ## Power query -/

/-- `zmk_rgb_underglow_get_state`: the second component is what the call
writes through `on_off` (nothing when it fails). -/
def zmk_rgb_underglow_get_state (w : World) : Int × Option Bool :=
  if !w.led_strip then (-ENODEV, none) else (0, some w.state.is_on)

/-! ## Effects -/

/-- The loop `for (i = 0; i < STRIP_NUM_PIXELS; i++) pixels[i] = c`. -/
def fill_pixels (n : Nat) (c : led_rgb) (pixels : List led_rgb) : List led_rgb :=
  (List.range n).foldl (fun px i => px.set i c) pixels

/-- The colour that `zmk_rgb_underglow_effect_breathe` builds for a pixel
before scaling: the base colour with
`hsb.b = abs(state.animation_step - 1200) / 12`, stored into the `uint8_t`
field `b`. -/
def breathe_hsb (st : rgb_underglow_state) : zmk_led_hsb :=
  { st.color with b := (Int.tdiv |(st.animation_step : Int) - 1200| 12 % 256).toNat }

/-- The phase update of `zmk_rgb_underglow_effect_breathe`:
`animation_step += animation_speed * 10` in the `uint16_t` field, then reset
to 0 if the field exceeds 2400. -/
def breathe_next_step (st : rgb_underglow_state) : Nat :=
  let step : Nat := (st.animation_step + st.animation_speed * 10) % 65536
  if step > 2400 then 0 else step

/-- `zmk_rgb_underglow_effect_breathe`: every pixel is converted from the
scaled breathe colour, then the phase advances.  The result is `none` when a
conversion is undefined. -/
def zmk_rgb_underglow_effect_breathe (cfg : Config) (w : World) : Option World :=
  let pixels : Option (List led_rgb) :=
    (List.range cfg.STRIP_NUM_PIXELS).foldlM
      (fun px i =>
        (hsb_to_rgb (hsb_scale_zero_max cfg (breathe_hsb w.state))).map (fun c => px.set i c))
      w.pixels
  pixels.map (fun px =>
    { w with pixels := px, state := { w.state with animation_step := breathe_next_step w.state } })

/-- Colour chosen by `zmk_rgb_underglow_effect_battery` for a state of
charge `soc` (a `uint8_t`). -/
def battery_rgb (soc : Nat) : led_rgb :=
  if soc > 80 then ⟨0, 255, 0⟩
  else if soc > 50 ∧ soc < 80 then ⟨255, 255, 0⟩
  else if soc > 20 ∧ soc < 51 then ⟨255, 140, 0⟩
  else ⟨255, 0, 0⟩

/-- `zmk_rgb_underglow_effect_battery`; `soc` is what
`zmk_battery_state_of_charge()` returned. -/
def zmk_rgb_underglow_effect_battery (cfg : Config) (soc : Nat) (w : World) : World :=
  { w with pixels := fill_pixels cfg.STRIP_NUM_PIXELS (battery_rgb soc) w.pixels }

/-! ## Settings load -/

/-- Zephyr errno value `ENOENT` (errno.h, outside this repository). -/
def ENOENT : Int := 2

/-- Outcome of `rgb_settings_set`: its return value, the world afterwards and
the number of times it invoked the read callback. -/
structure SettingsResult where
  rc : Int
  world : World
  read_calls : Nat
  deriving DecidableEq, Repr

/-- `rgb_settings_set`.  `steq` is Zephyr's `settings_name_steq`, returning
its result and the `next` pointer it stores (`none` for null); `state_size`
is `sizeof(state)`; `read_cb` is the read callback, which receives the
destination `state` and the length and returns its result and what it left in
the destination. -/
def rgb_settings_set (steq : String → String → Bool × Option String) (state_size : Nat)
    (read_cb : rgb_underglow_state → Nat → Int × rgb_underglow_state)
    (w : World) (name : String) (len : Nat) : SettingsResult :=
  if (steq name "state").1 = true ∧ (steq name "state").2 = none then
    if len ≠ state_size then ⟨-EINVAL, w, 0⟩
    else
      let r := read_cb w.state state_size
      ⟨if r.1 ≥ 0 then 0 else r.1, { w with state := r.2 }, 1⟩
  else ⟨-ENOENT, w, 0⟩

/-- A stand-in for `settings_name_steq` on names without separators: the
name matches when it equals the key, and `next` is null. -/
def steq_plain (name key : String) : Bool × Option String :=
  (name == key, none)

/-- A read callback that fills the destination with a fixed record and
reports `len` bytes read. -/
def read_fixed (record : rgb_underglow_state) (_dest : rgb_underglow_state) (len : Nat) :
    Int × rgb_underglow_state :=
  ((len : Int), record)

/-- The flat colours of the Battery effect. -/
def battery_green : led_rgb := ⟨0, 255, 0⟩

/-- Yellow tier of the Battery effect. -/
def battery_yellow : led_rgb := ⟨255, 255, 0⟩

/-- Orange tier of the Battery effect. -/
def battery_orange : led_rgb := ⟨255, 140, 0⟩

/-- Red tier of the Battery effect. -/
def battery_red : led_rgb := ⟨255, 0, 0⟩

/-- A world like `sample_world` whose strip handle was never bound. -/
def unbound_world (eff h : Nat) : World :=
  { sample_world eff h with led_strip := false }

/-! ## Hue effects -/

/-- The colour `zmk_rgb_underglow_effect_spectrum` converts for every pixel:
the base colour with `hsb.h = state.animation_step`. -/
def spectrum_hsb (st : rgb_underglow_state) : zmk_led_hsb :=
  { st.color with h := st.animation_step }

/-- `zmk_rgb_underglow_effect_spectrum`; `none` when a conversion is
undefined. -/
def zmk_rgb_underglow_effect_spectrum (cfg : Config) (w : World) : Option World :=
  let pixels : Option (List led_rgb) :=
    (List.range cfg.STRIP_NUM_PIXELS).foldlM
      (fun px i =>
        (hsb_to_rgb (hsb_scale_min_max cfg (spectrum_hsb w.state))).map (fun c => px.set i c))
      w.pixels
  pixels.map (fun px =>
    { w with
      pixels := px
      state := { w.state with
        animation_step :=
          ((w.state.animation_step + w.state.animation_speed) % 65536) % HUE_MAX } })

/-- The colour `zmk_rgb_underglow_effect_swirl` converts for pixel `i`: the
base colour with
`hsb.h = (HUE_MAX / STRIP_NUM_PIXELS * i + state.animation_step) % HUE_MAX`. -/
def swirl_hsb (cfg : Config) (st : rgb_underglow_state) (i : Nat) : zmk_led_hsb :=
  { st.color with
    h := ((HUE_MAX / cfg.STRIP_NUM_PIXELS * i + st.animation_step) % HUE_MAX) % 65536 }

/-- `zmk_rgb_underglow_effect_swirl`; `none` when a conversion is undefined. -/
def zmk_rgb_underglow_effect_swirl (cfg : Config) (w : World) : Option World :=
  let pixels : Option (List led_rgb) :=
    (List.range cfg.STRIP_NUM_PIXELS).foldlM
      (fun px i =>
        (hsb_to_rgb (hsb_scale_min_max cfg (swirl_hsb cfg w.state i))).map (fun c => px.set i c))
      w.pixels
  pixels.map (fun px =>
    { w with
      pixels := px
      state := { w.state with
        animation_step :=
          ((w.state.animation_step + w.state.animation_speed * 2) % 65536) % HUE_MAX } })

/-- Repeated Breathe ticks. -/
def breathe_run (cfg : Config) : Nat → World → Option World
  | 0, w => some w
  | n + 1, w => (breathe_run cfg n w).bind (zmk_rgb_underglow_effect_breathe cfg)

/-! ## Test effect

The Test effect converts colours whose hue is far above 360: in its first
window the block guarded by `animation_step < HUE_MAX * 2` stores
`animation_step - HUE_MAX`, a number of at least 65176, into the `uint16_t`
hue, and once the step has passed 1080 the loop converts the step itself.
For such hues a product can leave the range of `uint8_t`.  The function then
still runs to its end, and the byte produced is overwritten later in the same
tick wherever the results below speak about it.  The model therefore lets the
narrowing produce a byte in every case: in range it is the truncated value of
`f32_to_u8`; out of range it is the byte `oob x % 256`, with `oob` a
parameter about which nothing is assumed. -/

/-- Narrowing of a `float` to `uint8_t` that always yields a byte:
`f32_to_u8` where that is defined, the byte `oob x % 256` elsewhere. -/
def f32_to_u8_any (oob : ℚ → Nat) (x : ℚ) : Nat :=
  match f32_to_u8 x with
  | some n => n
  | none => oob x % 256

/-- `hsb_to_rgb` with the narrowing `f32_to_u8_any`; it agrees with
`hsb_to_rgb` wherever that is defined. -/
def hsb_to_rgb_any (oob : ℚ → Nat) (hsb : zmk_led_hsb) : led_rgb :=
  let c := hsb_to_rgb_float hsb
  ⟨f32_to_u8_any oob c.1, f32_to_u8_any oob c.2.1, f32_to_u8_any oob c.2.2⟩

/-- The colour the Test effect hands to `hsb_to_rgb`: the base colour with
hue `h`, scaled into the configured brightness range. -/
def test_hsb (cfg : Config) (st : rgb_underglow_state) (h : Nat) : zmk_led_hsb :=
  hsb_scale_min_max cfg { st.color with h := h }

/-- The pixel value the Test effect computes for hue `h`. -/
def test_color (oob : ℚ → Nat) (cfg : Config) (st : rgb_underglow_state) (h : Nat) : led_rgb :=
  hsb_to_rgb_any oob (test_hsb cfg st h)

/-- `zmk_rgb_underglow_effect_test`.  The three `if` blocks run one after the
other, each on the buffer the previous one left; the second block stores
`animation_step - HUE_MAX` into the `uint16_t` hue.  The flag `triggered`,
which the function sets and no modelled function reads, is not part of
`World`. -/
def zmk_rgb_underglow_effect_test (oob : ℚ → Nat) (cfg : Config) (w : World) : World :=
  let step := w.state.animation_step
  let dark : led_rgb := ⟨0, 0, 0⟩
  let px0 : List led_rgb :=
    (List.range cfg.STRIP_NUM_PIXELS).foldl
      (fun px i => px.set i (test_color oob cfg w.state step)) w.pixels
  let px1 : List led_rgb :=
    if step < HUE_MAX * 3 then
      ((px0.set 0 dark).set 1 dark).set 2 (test_color oob cfg w.state step)
    else px0
  let px2 : List led_rgb :=
    if step < HUE_MAX * 2 then
      ((px1.set 0 dark).set 1
        (test_color oob cfg w.state (((step : Int) - (HUE_MAX : Int)) % 65536).toNat)).set 2 dark
    else px1
  let px3 : List led_rgb :=
    if step < HUE_MAX then
      ((px2.set 0 (test_color oob cfg w.state step)).set 1 dark).set 2 dark
    else px2
  let step1 : Nat := (step + 20) % 65536
  { w with
    pixels :=
      if step1 > HUE_MAX * 3 then fill_pixels cfg.STRIP_NUM_PIXELS ⟨255, 255, 255⟩ px3 else px3
    state := { w.state with animation_step := step1 } }

/-- Repeated Test ticks with no other command in between. -/
def test_run (oob : ℚ → Nat) (cfg : Config) : Nat → World → World
  | 0, w => w
  | n + 1, w => zmk_rgb_underglow_effect_test oob cfg (test_run oob cfg n w)

/-- Solid white. -/
def white : led_rgb := ⟨255, 255, 255⟩

/-- The dark pixel. -/
def dark : led_rgb := ⟨0, 0, 0⟩

/-- A bound three-pixel world in the Test effect at step 0 with the grey
base colour `(h, s, b) = (0, 0, 50)`. -/
def grey_test_world : World :=
  { sample_world 6 0 with state := { (sample_world 6 0).state with color := ⟨0, 0, 50⟩ } }

/-! ## Kinesis effect -/

/-- Snapshot exchanged between the halves, `struct zmk_periph_led`: a
`uint8_t` layer and the `zmk_leds_flags_t` indicator flags. -/
structure zmk_periph_led where
  layer : Nat
  indicators : Nat
  deriving DecidableEq, Repr

/-- The module's globals that only the Kinesis effect uses: `led_data`,
`old_led_data` (central role), the two entries of `last_ble_state`, and the
calls of `zmk_split_bt_update_led` made so far, each with the snapshot passed
and the result returned, most recent first. -/
structure SplitState where
  led_data : zmk_periph_led
  old_led_data : zmk_periph_led
  last_ble_state_0 : Bool
  last_ble_state_1 : Bool
  sent : List (zmk_periph_led × Int)
  deriving DecidableEq, Repr

/-- Constants of the Kinesis effect: `CONFIG_ZMK_RGB_UNDERGLOW_BRT_SCALE` and
the indicator bit masks of `zmk/led_indicators.h`. -/
structure KinesisConfig where
  BRT_SCALE : Int
  ZMK_LED_NUMLOCK_BIT : Nat
  ZMK_LED_CAPSLOCK_BIT : Nat
  ZMK_LED_SCROLLLOCK_BIT : Nat
  deriving DecidableEq, Repr

/-- What the providers return during one central tick:
`zmk_leds_get_current_flags`, `zmk_keymap_highest_layer_active`,
`zmk_ble_active_profile_index`, `zmk_ble_active_profile_is_open`,
`zmk_ble_active_profile_is_connected`, and the result of
`zmk_split_bt_update_led` should it be called. -/
structure CentralInputs where
  flags : Nat
  layer : Nat
  profile_index : Nat
  profile_is_open : Bool
  profile_is_connected : Bool
  send_err : Int
  deriving DecidableEq, Repr

/-- Store of an `int` into a `uint8_t` channel. -/
def to_u8 (x : Int) : Nat := (x % 256).toNat

/-- A `bool` used as an `int` factor. -/
def bool_factor (b : Bool) : Int := if b then 1 else 0

/-- The three channel assignments `pixels[i].c = pixels[i].c * flag`. -/
def scale_pixel (pixels : List led_rgb) (i : Nat) (flag : Bool) : List led_rgb :=
  match pixels[i]? with
  | some p =>
    pixels.set i
      ⟨to_u8 ((p.r : Int) * bool_factor flag), to_u8 ((p.g : Int) * bool_factor flag),
        to_u8 ((p.b : Int) * bool_factor flag)⟩
  | none => pixels

/-- The `switch (led_data.layer)` table, the same in both roles. -/
def layer_rgb (kcfg : KinesisConfig) (layer : Nat) : led_rgb :=
  let sc := to_u8 kcfg.BRT_SCALE
  match layer with
  | 0 => ⟨0, 0, 0⟩
  | 1 => ⟨sc, sc, sc⟩
  | 2 => ⟨0, 0, sc⟩
  | 3 => ⟨0, sc, 0⟩
  | 4 => ⟨sc, 0, 0⟩
  | 5 => ⟨sc, 0, sc⟩
  | 6 => ⟨0, sc, sc⟩
  | 7 => ⟨sc, sc, 0⟩
  | _ => ⟨0, 0, 0⟩

/-- The `switch (zmk_ble_active_profile_index())` of the central role; other
indices leave `pixels[1]` as it is. -/
def profile_pixels (kcfg : KinesisConfig) (index : Nat) (pixels : List led_rgb) :
    List led_rgb :=
  let sc := to_u8 kcfg.BRT_SCALE
  match index with
  | 0 => pixels.set 1 ⟨sc, sc, sc⟩
  | 1 => pixels.set 1 ⟨0, 0, sc⟩
  | 2 => pixels.set 1 ⟨sc, 0, 0⟩
  | 3 => pixels.set 1 ⟨0, sc, 0⟩
  | _ => pixels

/-- The blink counter shared by the blink branches:
`if (animation_step > limit) { flag = !flag; animation_step = 0; }
animation_step++;` on the `uint16_t` step. -/
def blink_step (limit : Nat) (step : Nat) (flag : Bool) : Nat × Bool :=
  if step > limit then ((0 + 1) % 65536, !flag) else ((step + 1) % 65536, flag)

/-- `zmk_rgb_underglow_effect_kinesis`, central role (`ZMK_BLE_IS_CENTRAL`). -/
def zmk_rgb_underglow_effect_kinesis_central (kcfg : KinesisConfig) (inp : CentralInputs)
    (ws : World × SplitState) : World × SplitState :=
  let w := ws.1
  let sp := ws.2
  let old : zmk_periph_led := { layer := sp.led_data.layer, indicators := sp.led_data.indicators }
  let led : zmk_periph_led := { layer := inp.layer, indicators := inp.flags }
  let caps : Nat :=
    to_u8 (((Nat.land led.indicators kcfg.ZMK_LED_CAPSLOCK_BIT : Nat) : Int) * kcfg.BRT_SCALE)
  let px := w.pixels.set 0 ⟨caps, caps, caps⟩
  let px := profile_pixels kcfg inp.profile_index px
  let blink : List led_rgb × Nat × Bool × Bool :=
    if inp.profile_is_open then
      let b := blink_step 3 w.state.animation_step sp.last_ble_state_0
      (scale_pixel px 1 sp.last_ble_state_0, b.1, b.2, sp.last_ble_state_1)
    else if !inp.profile_is_connected then
      let b := blink_step 14 w.state.animation_step sp.last_ble_state_1
      (scale_pixel px 1 sp.last_ble_state_1, b.1, sp.last_ble_state_0, b.2)
    else (px, w.state.animation_step, sp.last_ble_state_0, sp.last_ble_state_1)
  let px := blink.1.set 2 (layer_rgb kcfg led.layer)
  let sent :=
    if old.layer ≠ led.layer ∨ old.indicators ≠ led.indicators then (led, inp.send_err) :: sp.sent
    else sp.sent
  ({ w with pixels := px, state := { w.state with animation_step := blink.2.1 } },
    { led_data := led, old_led_data := old, last_ble_state_0 := blink.2.2.1,
      last_ble_state_1 := blink.2.2.2, sent := sent })

/-- `zmk_rgb_underglow_effect_kinesis`, peripheral role; `connected` is what
`zmk_split_bt_peripheral_is_connected()` returns. -/
def zmk_rgb_underglow_effect_kinesis_peripheral (kcfg : KinesisConfig) (connected : Bool)
    (ws : World × SplitState) : World × SplitState :=
  let w := ws.1
  let sp := ws.2
  if !connected then
    let red : Nat := to_u8 (kcfg.BRT_SCALE * bool_factor sp.last_ble_state_1)
    let px := ((w.pixels.set 0 ⟨red, 0, 0⟩).set 1 ⟨red, 0, 0⟩).set 2 ⟨red, 0, 0⟩
    let b := blink_step 14 w.state.animation_step sp.last_ble_state_1
    ({ w with pixels := px, state := { w.state with animation_step := b.1 } },
      { sp with last_ble_state_1 := b.2 })
  else
    let num : Nat :=
      to_u8 (((Nat.land sp.led_data.indicators kcfg.ZMK_LED_NUMLOCK_BIT : Nat) : Int)
        * kcfg.BRT_SCALE)
    let scroll : Nat :=
      to_u8 (((Nat.land sp.led_data.indicators kcfg.ZMK_LED_SCROLLLOCK_BIT : Nat) : Int)
        * kcfg.BRT_SCALE)
    let px := w.pixels.set 2 ⟨num, num, num⟩
    let px := px.set 1 ⟨scroll, scroll, scroll⟩
    let px := px.set 0 (layer_rgb kcfg sp.led_data.layer)
    ({ w with pixels := px }, sp)

/-- Consecutive peripheral Kinesis ticks while the link stays disconnected. -/
def kinesis_disconnected_run (kcfg : KinesisConfig) : Nat → World × SplitState → World × SplitState
  | 0, ws => ws
  | n + 1, ws =>
    zmk_rgb_underglow_effect_kinesis_peripheral kcfg false (kinesis_disconnected_run kcfg n ws)

/-- A Kinesis configuration with scale 40 and the HID indicator bits
(num lock 1, caps lock 2, scroll lock 4). -/
def sample_kinesis_config : KinesisConfig :=
  { BRT_SCALE := 40, ZMK_LED_NUMLOCK_BIT := 1, ZMK_LED_CAPSLOCK_BIT := 2,
    ZMK_LED_SCROLLLOCK_BIT := 4 }

/-- A split state with layer 0, no indicators, both blink flags as given and
nothing sent. -/
def sample_split (flag : Bool) : SplitState :=
  { led_data := ⟨0, 0⟩, old_led_data := ⟨0, 0⟩, last_ble_state_0 := flag,
    last_ble_state_1 := flag, sent := [] }

/-! ## Automatic power-off -/

/-- `rgb_underglow_auto_state`; the last component is `*prev_state` after the
call. -/
def rgb_underglow_auto_state (cfg : Config) (w : World) (prev_state new_state : Bool)
    (ret : Int) : Int × World × Bool :=
  if w.state.is_on = new_state then (0, w, prev_state)
  else
    let w1 : World := { w with state := { w.state with is_on := new_state && prev_state } }
    let prev : Bool := !new_state
    if w1.state.is_on then
      ((zmk_rgb_underglow_on w1 ret).1, (zmk_rgb_underglow_on w1 ret).2, prev)
    else
      ((zmk_rgb_underglow_off cfg w1 ret).1, (zmk_rgb_underglow_off cfg w1 ret).2, prev)

/-! ## Single-precision rounding -/

/-- A strided digit count never exceeds `k` on numbers below `2^k`, provided
the count it falls back on has that property. -/
theorem bit_length_by_le (s : Nat) (next : Nat → Nat)
    (hnext : ∀ n k, n < 2 ^ k → next n ≤ k) :
    ∀ fuel n k, n < 2 ^ k → bit_length_by s next fuel n ≤ k := by
  intro fuel
  induction fuel with
  | zero => intro n k h; exact hnext n k h
  | succ f ih =>
    intro n k h
    unfold bit_length_by
    split_ifs with hlt
    · exact hnext n k h
    · have hsk : s ≤ k := by
        by_contra hcon
        have : 2 ^ k ≤ 2 ^ s := Nat.pow_le_pow_right (by decide) (by omega)
        omega
      have hdiv : n / 2 ^ s < 2 ^ (k - s) := by
        rw [Nat.div_lt_iff_lt_mul (Nat.two_pow_pos s)]
        rw [← Nat.pow_add, Nat.sub_add_cancel hsk]
        exact h
      have := ih (n / 2 ^ s) (k - s) hdiv
      omega

/-- Numbers below `2^k` have at most `k` binary digits. -/
theorem bit_length_le (n k : Nat) (h : n < 2 ^ k) : bit_length n ≤ k := by
  unfold bit_length
  apply bit_length_by_le
  · apply bit_length_by_le
    · apply bit_length_by_le
      · intro n k h
        split_ifs with h0
        · exact Nat.zero_le _
        · cases k with
          | zero => simp at h; exact absurd h h0
          | succ k => omega
  · exact h

/-- A strided digit count is exact on numbers below `2^(s * (fuel + 1))`,
provided the count it falls back on is exact below `2^s`. -/
theorem bit_length_by_exact (s : Nat) (hs : 0 < s) (next : Nat → Nat)
    (hnext : ∀ n, n < 2 ^ s → n < 2 ^ next n ∧ (n ≠ 0 → 2 ^ (next n - 1) ≤ n)) :
    ∀ fuel n, n < 2 ^ (s * (fuel + 1)) →
      n < 2 ^ bit_length_by s next fuel n ∧
      (n ≠ 0 → 2 ^ (bit_length_by s next fuel n - 1) ≤ n) := by
  intro fuel
  induction fuel with
  | zero =>
    intro n h
    unfold bit_length_by
    exact hnext n (by simpa using h)
  | succ f ih =>
    intro n h
    unfold bit_length_by
    split_ifs with hlt
    · exact hnext n hlt
    · have hpos : 0 < 2 ^ s := Nat.two_pow_pos s
      have hge : 2 ^ s ≤ n := Nat.le_of_not_lt hlt
      have hdiv : n / 2 ^ s < 2 ^ (s * (f + 1)) := by
        rw [Nat.div_lt_iff_lt_mul hpos, ← Nat.pow_add]
        have : s * (f + 1) + s = s * (f + 1 + 1) := by ring
        rw [this]
        exact h
      obtain ⟨h1, h2⟩ := ih (n / 2 ^ s) hdiv
      have hq1 : 1 ≤ n / 2 ^ s := (Nat.le_div_iff_mul_le hpos).mpr (by simpa using hge)
      have hr1 : 1 ≤ bit_length_by s next f (n / 2 ^ s) := by
        by_contra hcon
        have h0 : bit_length_by s next f (n / 2 ^ s) = 0 := by omega
        rw [h0] at h1
        simp at h1
        omega
      constructor
      · rw [Nat.pow_add]
        exact (Nat.div_lt_iff_lt_mul hpos).mp h1
      · intro _
        have h3 := h2 (by omega)
        have hexp : bit_length_by s next f (n / 2 ^ s) + s - 1
            = (bit_length_by s next f (n / 2 ^ s) - 1) + s := by omega
        rw [hexp, Nat.pow_add]
        exact (Nat.le_div_iff_mul_le hpos).mp h3

/-- The digit count is exact: `n < 2^(bit_length n)`, and for `n ≠ 0` also
`2^(bit_length n - 1) ≤ n`. -/
theorem bit_length_exact (n : Nat) :
    n < 2 ^ bit_length n ∧ (n ≠ 0 → 2 ^ (bit_length n - 1) ≤ n) := by
  unfold bit_length
  apply bit_length_by_exact 64 (by decide)
  · intro m hm
    apply bit_length_by_exact 8 (by decide)
    · intro k hk
      apply bit_length_by_exact 1 (by decide)
      · intro j hj
        have hj2 : j < 2 := by simpa using hj
        interval_cases j <;> simp
      · calc k < 2 ^ 8 := hk
          _ ≤ 2 ^ (1 * (8 + 1)) := by decide
    · calc m < 2 ^ 64 := hm
        _ ≤ 2 ^ (8 * (8 + 1)) := by decide
  · calc n < 2 ^ n := Nat.lt_two_pow n
      _ ≤ 2 ^ (64 * (n + 1)) := Nat.pow_le_pow_right (by decide) (by omega)

/-- Rounding to nearest never passes an integer that bounds the quotient. -/
theorem round_half_even_le (N D A : Nat) (hD : 0 < D) (h : N ≤ A * D) :
    round_half_even N D ≤ A := by
  have hq : N / D ≤ A := by
    calc N / D ≤ A * D / D := Nat.div_le_div_right h
      _ = A := Nat.mul_div_cancel _ hD
  unfold round_half_even
  simp only
  have hmod := Nat.div_add_mod N D
  have hr := Nat.mod_lt N hD
  rcases Nat.lt_or_eq_of_le hq with hlt | heq
  · split_ifs <;> omega
  · have hr0 : N % D = 0 := by
      have : D * (N / D) = A * D := by rw [heq, Nat.mul_comm]
      omega
    rw [hr0]
    simp only [Nat.mul_zero, hD, if_true]
    exact hq

/-- Rounding to nearest moves the quotient by at most one half. -/
theorem round_half_even_err (N D : Nat) (hD : 0 < D) :
    |((round_half_even N D : Nat) : ℚ) - (N : ℚ) / (D : ℚ)| ≤ 1 / 2 := by
  have hmod := Nat.div_add_mod N D
  have hr := Nat.mod_lt N hD
  have hDq : (0 : ℚ) < (D : ℚ) := by exact_mod_cast hD
  have hN : (N : ℚ) = (D : ℚ) * ((N / D : Nat) : ℚ) + ((N % D : Nat) : ℚ) := by
    exact_mod_cast hmod.symm
  have hrq : ((N % D : Nat) : ℚ) < (D : ℚ) := by exact_mod_cast hr
  have hr0 : (0 : ℚ) ≤ ((N % D : Nat) : ℚ) := Nat.cast_nonneg _
  have hfrac : (N : ℚ) / (D : ℚ) = ((N / D : Nat) : ℚ) + ((N % D : Nat) : ℚ) / (D : ℚ) := by
    rw [hN]; field_simp; ring
  rw [hfrac, abs_le]
  unfold round_half_even
  simp only
  split_ifs with h1 h2 h3
  · have h1q : 2 * ((N % D : Nat) : ℚ) < (D : ℚ) := by exact_mod_cast h1
    constructor
    · rw [show ((N / D : Nat) : ℚ) - (((N / D : Nat) : ℚ) + ((N % D : Nat) : ℚ) / (D : ℚ))
        = -(((N % D : Nat) : ℚ) / (D : ℚ)) by ring]
      rw [neg_le_neg_iff, div_le_iff₀ hDq]; linarith
    · rw [show ((N / D : Nat) : ℚ) - (((N / D : Nat) : ℚ) + ((N % D : Nat) : ℚ) / (D : ℚ))
        = -(((N % D : Nat) : ℚ) / (D : ℚ)) by ring]
      have : 0 ≤ ((N % D : Nat) : ℚ) / (D : ℚ) := div_nonneg hr0 hDq.le
      linarith
  · have h2q : (D : ℚ) < 2 * ((N % D : Nat) : ℚ) := by exact_mod_cast h2
    push_cast
    rw [show ((N / D : Nat) : ℚ) + 1 - (((N / D : Nat) : ℚ) + ((N % D : Nat) : ℚ) / (D : ℚ))
        = 1 - (((N % D : Nat) : ℚ) / (D : ℚ)) by ring]
    have hle1 : ((N % D : Nat) : ℚ) / (D : ℚ) ≤ 1 := by rw [div_le_iff₀ hDq]; linarith
    have hge : 1 / 2 ≤ ((N % D : Nat) : ℚ) / (D : ℚ) := by rw [le_div_iff₀ hDq]; linarith
    constructor <;> linarith
  · have heq : 2 * (N % D) = D := by omega
    have heqq : 2 * ((N % D : Nat) : ℚ) = (D : ℚ) := by exact_mod_cast heq
    have hhalf : ((N % D : Nat) : ℚ) / (D : ℚ) = 1 / 2 := by
      rw [div_eq_iff hDq.ne']; linarith
    rw [hhalf]
    constructor <;> linarith
  · have heq : 2 * (N % D) = D := by omega
    have heqq : 2 * ((N % D : Nat) : ℚ) = (D : ℚ) := by exact_mod_cast heq
    have hhalf : ((N % D : Nat) : ℚ) / (D : ℚ) = 1 / 2 := by
      rw [div_eq_iff hDq.ne']; linarith
    rw [hhalf]
    push_cast
    constructor <;> linarith

/-- Unfolding of `f32_round` on a non-negative rational `a / d`. -/
theorem f32_round_of_nonneg (x : ℚ) (hx : 0 ≤ x) :
    ∃ a d : Nat, 0 < d ∧ x = (a : ℚ) / (d : ℚ) ∧
      f32_round x =
        ((round_half_even (a * 2 ^ 149) (d * 2 ^ (bit_length (a * 2 ^ 149 / d) - 24))
          * 2 ^ (bit_length (a * 2 ^ 149 / d) - 24) : Nat) : ℚ) / ((2 ^ 149 : Nat) : ℚ) := by
  refine ⟨x.num.natAbs, x.den, x.den_pos, ?_, ?_⟩
  · have hnum : (0 : Int) ≤ x.num := Rat.num_nonneg.mpr hx
    have hcast : ((x.num.natAbs : Nat) : ℚ) = (x.num : ℚ) := by
      rw [Nat.cast_natAbs, abs_of_nonneg hnum]
    rw [hcast]
    exact (Rat.num_div_den x).symm
  · unfold f32_round
    simp only [not_lt.mpr hx, if_false]

/-- The result of `f32_round` is a binary32 number: a significand of at most
24 bits (`m ≤ 2^24`) times the spacing `2^sh` of its binade, counted in units
of `2^-149`, and normalised (`2^23 ≤ m`) whenever the spacing exceeds the
subnormal one; it lies within half a spacing of the argument. -/
theorem f32_round_representable (x : ℚ) (hx : 0 ≤ x) :
    ∃ m sh : Nat, f32_round x = ((m * 2 ^ sh : Nat) : ℚ) / ((2 ^ 149 : Nat) : ℚ) ∧
      m ≤ 2 ^ 24 ∧ (0 < sh → 2 ^ 23 ≤ m) ∧
      |f32_round x - x| ≤ 2 ^ sh / 2 ^ 150 := by
  obtain ⟨a, d, hd, hxe, h⟩ := f32_round_of_nonneg x hx
  have hspec := bit_length_exact (a * 2 ^ 149 / d)
  generalize hq : a * 2 ^ 149 / d = q at h hspec
  generalize hL : bit_length q = L at h hspec
  have hdq : (0 : ℚ) < (d : ℚ) := by exact_mod_cast hd
  have hDpos : 0 < d * 2 ^ (L - 24) := Nat.mul_pos hd (Nat.two_pow_pos _)
  have hn : a * 2 ^ 149 < d * (q + 1) := by
    rw [← hq]
    exact Nat.lt_mul_div_succ _ hd
  have hqn : d * q ≤ a * 2 ^ 149 := by
    rw [← hq]
    exact Nat.mul_div_le _ _
  refine ⟨round_half_even (a * 2 ^ 149) (d * 2 ^ (L - 24)), L - 24, h, ?_, ?_, ?_⟩
  · apply round_half_even_le _ _ _ hDpos
    have hq24 : q + 1 ≤ 2 ^ 24 * 2 ^ (L - 24) := by
      rw [← Nat.pow_add]
      calc q + 1 ≤ 2 ^ L := hspec.1
        _ ≤ 2 ^ (24 + (L - 24)) := Nat.pow_le_pow_right (by decide) (by omega)
    calc a * 2 ^ 149 ≤ d * (q + 1) := Nat.le_of_lt hn
      _ ≤ d * (2 ^ 24 * 2 ^ (L - 24)) := Nat.mul_le_mul_left _ hq24
      _ = 2 ^ 24 * (d * 2 ^ (L - 24)) := by ring
  · intro hsh
    have hq0 : q ≠ 0 := by
      intro h0
      have hle : bit_length q ≤ 0 := bit_length_le q 0 (by rw [h0]; decide)
      rw [hL] at hle
      omega
    have hlow := hspec.2 hq0
    have hsplit : 2 ^ (L - 1) = 2 ^ 23 * 2 ^ (L - 24) := by
      rw [← Nat.pow_add]
      congr 1
      omega
    have hge : 2 ^ 23 * (d * 2 ^ (L - 24)) ≤ a * 2 ^ 149 := by
      calc 2 ^ 23 * (d * 2 ^ (L - 24)) = d * (2 ^ 23 * 2 ^ (L - 24)) := by ring
        _ = d * 2 ^ (L - 1) := by rw [hsplit]
        _ ≤ d * q := Nat.mul_le_mul_left _ hlow
        _ ≤ a * 2 ^ 149 := hqn
    have hdivge : 2 ^ 23 ≤ a * 2 ^ 149 / (d * 2 ^ (L - 24)) :=
      (Nat.le_div_iff_mul_le hDpos).mpr hge
    unfold round_half_even
    simp only
    split_ifs <;> omega
  · rw [h]
    have herr := round_half_even_err (a * 2 ^ 149) (d * 2 ^ (L - 24)) hDpos
    generalize round_half_even (a * 2 ^ 149) (d * 2 ^ (L - 24)) = m at herr ⊢
    have hrew : ((m * 2 ^ (L - 24) : Nat) : ℚ) / ((2 ^ 149 : Nat) : ℚ) - x
        = ((m : ℚ) - ((a * 2 ^ 149 : Nat) : ℚ) / ((d * 2 ^ (L - 24) : Nat) : ℚ))
            * (2 ^ (L - 24) / 2 ^ 149) := by
      rw [hxe]; push_cast; field_simp; ring
    rw [hrew, abs_mul, abs_of_pos (show (0 : ℚ) < 2 ^ (L - 24) / 2 ^ 149 by positivity)]
    calc |(m : ℚ) - ((a * 2 ^ 149 : Nat) : ℚ) / ((d * 2 ^ (L - 24) : Nat) : ℚ)|
            * (2 ^ (L - 24) / 2 ^ 149)
        ≤ 1 / 2 * (2 ^ (L - 24) / 2 ^ 149) :=
          mul_le_mul_of_nonneg_right herr (by positivity)
      _ = 2 ^ (L - 24) / 2 ^ 150 := by ring

/-- Rounding keeps non-negative values non-negative. -/
theorem f32_round_nonneg (x : ℚ) (hx : 0 ≤ x) : 0 ≤ f32_round x := by
  obtain ⟨a, d, _, _, h⟩ := f32_round_of_nonneg x hx
  rw [h]
  exact div_nonneg (Nat.cast_nonneg _) (Nat.cast_nonneg _)

/-- Rounding keeps negative values non-positive. -/
theorem f32_round_nonpos (x : ℚ) (hx : x < 0) : f32_round x ≤ 0 := by
  unfold f32_round
  simp only [hx, if_true]
  rw [neg_nonpos]
  exact div_nonneg (Nat.cast_nonneg _) (Nat.cast_nonneg _)

/-- Rounding never passes an integer below `2^24` (such an integer is itself
a binary32 number). -/
theorem f32_round_le_nat (B k : Nat) (hB : B < 2 ^ k) (hk : k ≤ 24) (x : ℚ) (hx : x ≤ (B : ℚ)) :
    f32_round x ≤ (B : ℚ) := by
  rcases lt_or_le x 0 with hneg | hpos
  · exact le_trans (f32_round_nonpos x hneg) (Nat.cast_nonneg _)
  · obtain ⟨a, d, hd, hxe, h⟩ := f32_round_of_nonneg x hpos
    rw [h]
    have hdq : (0 : ℚ) < (d : ℚ) := by exact_mod_cast hd
    have had : a ≤ B * d := by
      have : (a : ℚ) ≤ (B : ℚ) * (d : ℚ) := by
        rw [hxe, div_le_iff₀ hdq] at hx; exact hx
      exact_mod_cast this
    have hq : a * 2 ^ 149 / d ≤ B * 2 ^ 149 := by
      apply Nat.div_le_of_le_mul
      calc a * 2 ^ 149 ≤ B * d * 2 ^ 149 := Nat.mul_le_mul_right _ had
        _ = d * (B * 2 ^ 149) := by ring
    have hlt : a * 2 ^ 149 / d < 2 ^ (k + 149) := by
      calc a * 2 ^ 149 / d ≤ B * 2 ^ 149 := hq
        _ < 2 ^ k * 2 ^ 149 := Nat.mul_lt_mul_of_pos_right hB (Nat.two_pow_pos 149)
        _ = 2 ^ (k + 149) := (Nat.pow_add 2 k 149).symm
    have hbl := bit_length_le _ _ hlt
    generalize hsh : bit_length (a * 2 ^ 149 / d) - 24 = sh
    have hsh149 : sh ≤ 149 := by omega
    have hpow : 2 ^ (149 - sh) * 2 ^ sh = 2 ^ 149 := by
      rw [← Nat.pow_add, Nat.sub_add_cancel hsh149]
    have hm : round_half_even (a * 2 ^ 149) (d * 2 ^ sh) ≤ B * 2 ^ (149 - sh) := by
      apply round_half_even_le _ _ _ (Nat.mul_pos hd (Nat.two_pow_pos sh))
      calc a * 2 ^ 149 ≤ B * d * 2 ^ 149 := Nat.mul_le_mul_right _ had
        _ = B * d * (2 ^ (149 - sh) * 2 ^ sh) := by rw [hpow]
        _ = B * 2 ^ (149 - sh) * (d * 2 ^ sh) := by ring
    have hfin : round_half_even (a * 2 ^ 149) (d * 2 ^ sh) * 2 ^ sh ≤ B * 2 ^ 149 := by
      calc round_half_even (a * 2 ^ 149) (d * 2 ^ sh) * 2 ^ sh
          ≤ B * 2 ^ (149 - sh) * 2 ^ sh := Nat.mul_le_mul_right _ hm
        _ = B * (2 ^ (149 - sh) * 2 ^ sh) := by ring
        _ = B * 2 ^ 149 := by rw [hpow]
    have h149 : (0 : ℚ) < ((2 ^ 149 : Nat) : ℚ) := by exact_mod_cast Nat.two_pow_pos 149
    rw [div_le_iff₀ h149]
    exact_mod_cast hfin

/-- Rounding error: for `0 ≤ x < 2^(K-149)` the rounded value is within half
a spacing, at most `2^(K-24) / 2^150`, of `x`. -/
theorem f32_round_err (K : Nat) (hK : 24 ≤ K) (x : ℚ) (hx : 0 ≤ x)
    (hlt : x * 2 ^ 149 < 2 ^ K) :
    |f32_round x - x| ≤ 2 ^ (K - 24) / 2 ^ 150 := by
  obtain ⟨a, d, hd, hxe, h⟩ := f32_round_of_nonneg x hx
  rw [h]
  have hdq : (0 : ℚ) < (d : ℚ) := by exact_mod_cast hd
  have hq : a * 2 ^ 149 / d < 2 ^ K := by
    rw [Nat.div_lt_iff_lt_mul hd]
    have : (a : ℚ) * 2 ^ 149 < 2 ^ K * (d : ℚ) := by
      rw [hxe, div_mul_eq_mul_div, div_lt_iff₀ hdq] at hlt; exact hlt
    exact_mod_cast this
  have hbl := bit_length_le _ _ hq
  generalize hsh : bit_length (a * 2 ^ 149 / d) - 24 = sh
  have hshK : sh ≤ K - 24 := by omega
  have hpos : 0 < d * 2 ^ sh := Nat.mul_pos hd (Nat.two_pow_pos sh)
  have herr := round_half_even_err (a * 2 ^ 149) (d * 2 ^ sh) hpos
  generalize round_half_even (a * 2 ^ 149) (d * 2 ^ sh) = m at herr ⊢
  have h2sh : (0 : ℚ) < 2 ^ sh := by positivity
  have hrew : ((m * 2 ^ sh : Nat) : ℚ) / ((2 ^ 149 : Nat) : ℚ) - x
      = ((m : ℚ) - ((a * 2 ^ 149 : Nat) : ℚ) / ((d * 2 ^ sh : Nat) : ℚ)) * (2 ^ sh / 2 ^ 149) := by
    rw [hxe]; push_cast; field_simp; ring
  rw [hrew, abs_mul, abs_of_pos (show (0 : ℚ) < 2 ^ sh / 2 ^ 149 by positivity)]
  calc |(m : ℚ) - ((a * 2 ^ 149 : Nat) : ℚ) / ((d * 2 ^ sh : Nat) : ℚ)| * (2 ^ sh / 2 ^ 149)
      ≤ 1 / 2 * (2 ^ sh / 2 ^ 149) := by
        apply mul_le_mul_of_nonneg_right herr (by positivity)
    _ = 2 ^ sh / 2 ^ 150 := by ring
    _ ≤ 2 ^ (K - 24) / 2 ^ 150 := by
        apply div_le_div_of_nonneg_right _ (by positivity)
        exact pow_le_pow_right₀ (by norm_num) hshK

/-- On `[0,1]` the rounding error is at most `2^-24`. -/
theorem f32_round_err_unit (x : ℚ) (h0 : 0 ≤ x) (h1 : x ≤ 1) :
    |f32_round x - x| ≤ 1 / 2 ^ 24 := by
  have h := f32_round_err 150 (by decide) x h0
    (by
      have : x * 2 ^ 149 ≤ 1 * 2 ^ 149 := by
        apply mul_le_mul_of_nonneg_right h1 (by positivity)
      have h2 : (1 : ℚ) * 2 ^ 149 < 2 ^ 150 := by norm_num
      linarith)
  calc |f32_round x - x| ≤ 2 ^ (150 - 24) / 2 ^ 150 := h
    _ = 1 / 2 ^ 24 := by norm_num

/-- On `[0,255]` the rounding error is at most `2^-16`. -/
theorem f32_round_err_byte (x : ℚ) (h0 : 0 ≤ x) (h1 : x ≤ 255) :
    |f32_round x - x| ≤ 1 / 2 ^ 16 := by
  have h := f32_round_err 157 (by decide) x h0
    (by
      have : x * 2 ^ 149 ≤ 255 * 2 ^ 149 := by
        apply mul_le_mul_of_nonneg_right h1 (by positivity)
      have h2 : (255 : ℚ) * 2 ^ 149 < 2 ^ 157 := by norm_num
      linarith)
  calc |f32_round x - x| ≤ 2 ^ (157 - 24) / 2 ^ 150 := h
    _ ≤ 1 / 2 ^ 16 := by norm_num

/-- Rounding keeps values at most 1 at most 1. -/
theorem f32_round_le_one (x : ℚ) (hx : x ≤ 1) : f32_round x ≤ 1 := by
  have := f32_round_le_nat 1 1 (by decide) (by decide) x (by simpa using hx)
  simpa using this

/-- Rounding keeps values at most 255 at most 255. -/
theorem f32_round_le_byte (x : ℚ) (hx : x ≤ 255) : f32_round x ≤ 255 := by
  have := f32_round_le_nat 255 8 (by decide) (by decide) x (by simpa using hx)
  simpa using this

/-- Rounding a value of `[0,1]` adds at most `2^-24` to its distance from an
exact value of `[0,1]`. -/
theorem near_round (ε z y : ℚ) (hz0 : 0 ≤ z) (hz1 : z ≤ 1) (hy0 : 0 ≤ y) (hy1 : y ≤ 1)
    (h : |z - y| ≤ ε) : near (ε + 1 / 2 ^ 24) (f32_round z) y := by
  refine ⟨f32_round_nonneg z hz0, f32_round_le_one z hz1, hy0, hy1, ?_⟩
  have herr := f32_round_err_unit z hz0 hz1
  calc |f32_round z - y| = |(f32_round z - z) + (z - y)| := by ring_nf
    _ ≤ |f32_round z - z| + |z - y| := abs_add _ _
    _ ≤ 1 / 2 ^ 24 + ε := add_le_add herr h
    _ = ε + 1 / 2 ^ 24 := add_comm _ _

/-- The distance bound of `near` may be enlarged. -/
theorem near_mono (ε ε' x y : ℚ) (h : near ε x y) (hle : ε ≤ ε') : near ε' x y :=
  ⟨h.1, h.2.1, h.2.2.1, h.2.2.2.1, le_trans h.2.2.2.2 hle⟩

/-! ## Colour conversion -/

/-- The quotient `n / 100.0f` for a percentage `n ≤ 100`. -/
theorem near_percent (n : Nat) (hn : n ≤ 100) :
    near (1 / 2 ^ 24) (f32_div (n : ℚ) 100) ((n : ℚ) / 100) := by
  have h0 : (0 : ℚ) ≤ (n : ℚ) / 100 := by positivity
  have h1 : (n : ℚ) / 100 ≤ 1 := by
    rw [div_le_iff₀ (by norm_num)]
    have : (n : ℚ) ≤ 100 := by exact_mod_cast hn
    linarith
  have := near_round 0 ((n : ℚ) / 100) ((n : ℚ) / 100) h0 h1 h0 h1 (by simp)
  simpa [f32_div] using this

/-- The difference `1 - a` in single precision. -/
theorem near_one_sub (ε a a' : ℚ) (h : near ε a a') :
    near (ε + 1 / 2 ^ 24) (f32_sub 1 a) (1 - a') := by
  obtain ⟨h1, h2, h3, h4, h5⟩ := h
  apply near_round _ _ _ (by linarith) (by linarith) (by linarith) (by linarith)
  rw [show 1 - a - (1 - a') = -(a - a') by ring, abs_neg]
  exact h5

/-- The product of two values of `[0,1]` in single precision. -/
theorem near_mul (ε₁ ε₂ a a' b b' : ℚ) (ha : near ε₁ a a') (hb : near ε₂ b b') :
    near (ε₁ + ε₂ + 1 / 2 ^ 24) (f32_mul a b) (a' * b') := by
  obtain ⟨a1, a2, a3, a4, a5⟩ := ha
  obtain ⟨b1, b2, b3, b4, b5⟩ := hb
  apply near_round _ _ _ (mul_nonneg a1 b1) (by nlinarith) (mul_nonneg a3 b3) (by nlinarith)
  have hsplit : a * b - a' * b' = (a - a') * b + a' * (b - b') := by ring
  rw [hsplit]
  calc |(a - a') * b + a' * (b - b')| ≤ |(a - a') * b| + |a' * (b - b')| := abs_add _ _
    _ = |a - a'| * b + a' * |b - b'| := by
        rw [abs_mul, abs_mul, abs_of_nonneg b1, abs_of_nonneg a3]
    _ ≤ ε₁ * 1 + 1 * ε₂ := by
        have e1 : 0 ≤ ε₁ := le_trans (abs_nonneg _) a5
        have e2 : 0 ≤ ε₂ := le_trans (abs_nonneg _) b5
        apply add_le_add
        · exact mul_le_mul a5 b2 b1 e1
        · exact mul_le_mul a4 b5 (abs_nonneg _) (by norm_num)
    _ = ε₁ + ε₂ := by ring

set_option maxRecDepth 100000 in
/-- The fraction `f = h / 360.0f * 6 - i` computed in single precision lies in
`[0,1]` and within `2^-20` of `h/60 - floor(h/60)`, for each of the 360 hues
(by evaluation). -/
theorem hue_fraction_near : ∀ h : Nat, h < 360 →
    near (1 / 2 ^ 20)
      (f32_sub (f32_mul (f32_div (h : ℚ) (HUE_MAX : ℚ)) 6) (((h / 60 % 256 : Nat)) : ℚ))
      ((h : ℚ) / 60 - ((h / 60 % 6 : Nat) : ℚ)) := by
  decide!

/-- Scaling by 255 in single precision: a value within `22 * 2^-24` of its
exact counterpart gives a product within `2^-10` of the exact product. -/
theorem chan_rel_of_near (ε x y : ℚ) (h : near ε x y) (hε : ε ≤ 22 / 2 ^ 24) :
    chan_rel (f32_mul x 255) (255 * y) := by
  obtain ⟨h1, h2, h3, h4, h5⟩ := h
  have hx0 : 0 ≤ x * 255 := by positivity
  have hx1 : x * 255 ≤ 255 := by linarith
  refine ⟨f32_round_nonneg _ hx0, f32_round_le_byte _ hx1, by positivity, by linarith, ?_⟩
  have herr := f32_round_err_byte _ hx0 hx1
  unfold f32_mul
  calc |f32_round (x * 255) - 255 * y|
      = |(f32_round (x * 255) - x * 255) + 255 * (x - y)| := by ring_nf
    _ ≤ |f32_round (x * 255) - x * 255| + |255 * (x - y)| := abs_add _ _
    _ = |f32_round (x * 255) - x * 255| + 255 * |x - y| := by
        rw [abs_mul, abs_of_nonneg (show (0 : ℚ) ≤ 255 by norm_num)]
    _ ≤ 1 / 2 ^ 16 + 255 * (22 / 2 ^ 24) := by
        apply add_le_add herr
        apply mul_le_mul_of_nonneg_left (le_trans h5 hε) (by norm_num)
    _ ≤ 1 / 2 ^ 10 := by norm_num

/-- For a valid colour each product formed by `hsb_to_rgb` lies in `[0,255]`
and within `2^-10` of the corresponding entry of the exact table. -/
theorem hsb_float_near_exact (hsb : zmk_led_hsb)
    (hh : hsb.h < 360) (hs : hsb.s ≤ 100) (hb : hsb.b ≤ 100) :
    chan_rel (hsb_to_rgb_float hsb).1 (hsb_to_rgb_exact hsb).1 ∧
    chan_rel (hsb_to_rgb_float hsb).2.1 (hsb_to_rgb_exact hsb).2.1 ∧
    chan_rel (hsb_to_rgb_float hsb).2.2 (hsb_to_rgb_exact hsb).2.2 := by
  have nv := near_percent hsb.b hb
  have ns := near_percent hsb.s hs
  have nf := hue_fraction_near hsb.h hh
  have n1s := near_one_sub _ _ _ ns
  have np := near_mul _ _ _ _ _ _ nv n1s
  have nfs := near_mul _ _ _ _ _ _ nf ns
  have nq := near_mul _ _ _ _ _ _ nv (near_one_sub _ _ _ nfs)
  have n1f := near_one_sub _ _ _ nf
  have nt := near_mul _ _ _ _ _ _ nv (near_one_sub _ _ _ (near_mul _ _ _ _ _ _ n1f ns))
  have cv := chan_rel_of_near _ _ _ nv (by norm_num)
  have cp := chan_rel_of_near _ _ _ np (by norm_num)
  have cq := chan_rel_of_near _ _ _ nq (by norm_num)
  have ct := chan_rel_of_near _ _ _ nt (by norm_num)
  have hi : hsb.h / 60 < 6 := by omega
  unfold hsb_to_rgb_float hsb_to_rgb_exact
  simp only [BRT_MAX, SAT_MAX, Nat.cast_ofNat]
  simp only [BRT_MAX, SAT_MAX, Nat.cast_ofNat] at cv cp cq ct
  generalize hsb.h / 60 = j at *
  interval_cases j <;> simp only [Nat.reduceMod, Nat.cast_ofNat, Nat.cast_zero, Nat.cast_one,
    OfNat.ofNat_ne_zero, OfNat.ofNat_ne_one, one_ne_zero, if_true, if_false, Nat.reduceEqDiff,
    OfNat.zero_ne_ofNat, OfNat.one_ne_ofNat] at cv cp cq ct ⊢
  · exact ⟨cv, ct, cp⟩
  · exact ⟨cq, cv, cp⟩
  · exact ⟨cp, cv, ct⟩
  · exact ⟨cp, cq, cv⟩
  · exact ⟨ct, cp, cv⟩
  · exact ⟨cv, cp, cq⟩

/-- Narrowing a value of `[0,255]` is defined and yields its integer part. -/
theorem f32_to_u8_of_range (c : ℚ) (h0 : 0 ≤ c) (h1 : c ≤ 255) :
    f32_to_u8 c = some ⌊c⌋.toNat ∧ ⌊c⌋.toNat ≤ 255 := by
  have hnum : (0 : Int) ≤ c.num := Rat.num_nonneg.mpr h0
  have htd : Int.tdiv c.num (c.den : Int) = ⌊c⌋ := by
    rw [Int.tdiv_eq_ediv hnum (Int.ofNat_nonneg _), Rat.floor_def]
  have hf0 : 0 ≤ ⌊c⌋ := Int.floor_nonneg.mpr h0
  have hf1 : ⌊c⌋ ≤ 255 := by
    have : (⌊c⌋ : ℚ) ≤ 255 := le_trans (Int.floor_le c) h1
    exact_mod_cast this
  unfold f32_to_u8
  simp only [htd, hf0, hf1, and_self, if_true, true_and]
  omega

/-- Integer parts of two channel values within `2^-10` of each other differ
by at most 1. -/
theorem floor_toNat_close (c e : ℚ) (h : chan_rel c e) :
    |((⌊c⌋.toNat : Nat) : Int) - ((⌊e⌋.toNat : Nat) : Int)| ≤ 1 := by
  obtain ⟨c0, _, e0, _, hce⟩ := h
  have hc := Int.floor_nonneg.mpr c0
  have he := Int.floor_nonneg.mpr e0
  rw [Int.toNat_of_nonneg hc, Int.toNat_of_nonneg he]
  have h1 := Int.floor_le c
  have h2 := Int.lt_floor_add_one c
  have h3 := Int.floor_le e
  have h4 := Int.lt_floor_add_one e
  have h5 := abs_le.mp hce
  have hsmall : (1 : ℚ) / 2 ^ 10 < 1 := by norm_num
  rw [abs_le]
  constructor
  · have : (⌊e⌋ : ℚ) < (⌊c⌋ : ℚ) + 2 := by linarith [h5.1, h5.2]
    have : ⌊e⌋ < ⌊c⌋ + 2 := by exact_mod_cast this
    omega
  · have : (⌊c⌋ : ℚ) < (⌊e⌋ : ℚ) + 2 := by linarith [h5.1, h5.2]
    have : ⌊c⌋ < ⌊e⌋ + 2 := by exact_mod_cast this
    omega

/-- For a valid colour `hsb_to_rgb` is defined: each byte is the integer part
of the corresponding product. -/
theorem hsb_to_rgb_eq_floor (hsb : zmk_led_hsb)
    (hh : hsb.h < 360) (hs : hsb.s ≤ 100) (hb : hsb.b ≤ 100) :
    hsb_to_rgb hsb = some
      ⟨⌊(hsb_to_rgb_float hsb).1⌋.toNat, ⌊(hsb_to_rgb_float hsb).2.1⌋.toNat,
        ⌊(hsb_to_rgb_float hsb).2.2⌋.toNat⟩ := by
  obtain ⟨hr, hg, hbl⟩ := hsb_float_near_exact hsb hh hs hb
  unfold hsb_to_rgb
  simp only [(f32_to_u8_of_range _ hr.1 hr.2.1).1, (f32_to_u8_of_range _ hg.1 hg.2.1).1,
    (f32_to_u8_of_range _ hbl.1 hbl.2.1).1]

/-- C1, refutation: at `h = 0, s = 60, b = 100` the code yields
`(255, 101, 101)` while the exactly computed table yields `(255, 102, 102)`:
`1 - 0.6f` lies just below `0.4`, so `255 * p` lies just below 102. -/
theorem hsb_to_rgb_table_mismatch :
    hsb_to_rgb ⟨0, 60, 100⟩ = some ⟨255, 101, 101⟩ ∧
    hsb_to_rgb_table ⟨0, 60, 100⟩ = ⟨255, 102, 102⟩ := by
  decide!

/-- C1, amended: for every hue `h < 360`, saturation `s ≤ 100` and brightness
`b ≤ 100`, `hsb_to_rgb` (the six-case table evaluated in single precision,
each operation rounded, channels truncated) is defined, every product it
truncates is within `2^-10` of the exactly computed `255 * (v,t,p)`, ...,
and every resulting byte differs from the exactly computed and truncated
table value by at most 1. -/
theorem hsb_to_rgb_within_one (hsb : zmk_led_hsb)
    (hh : hsb.h < 360) (hs : hsb.s ≤ 100) (hb : hsb.b ≤ 100) :
    ∃ rgb : led_rgb, hsb_to_rgb hsb = some rgb ∧
      |(rgb.r : Int) - ((hsb_to_rgb_table hsb).r : Int)| ≤ 1 ∧
      |(rgb.g : Int) - ((hsb_to_rgb_table hsb).g : Int)| ≤ 1 ∧
      |(rgb.b : Int) - ((hsb_to_rgb_table hsb).b : Int)| ≤ 1 ∧
      |(hsb_to_rgb_float hsb).1 - (hsb_to_rgb_exact hsb).1| ≤ 1 / 2 ^ 10 ∧
      |(hsb_to_rgb_float hsb).2.1 - (hsb_to_rgb_exact hsb).2.1| ≤ 1 / 2 ^ 10 ∧
      |(hsb_to_rgb_float hsb).2.2 - (hsb_to_rgb_exact hsb).2.2| ≤ 1 / 2 ^ 10 := by
  obtain ⟨hr, hg, hbl⟩ := hsb_float_near_exact hsb hh hs hb
  exact ⟨_, hsb_to_rgb_eq_floor hsb hh hs hb, floor_toNat_close _ _ hr,
    floor_toNat_close _ _ hg, floor_toNat_close _ _ hbl, hr.2.2.2.2, hg.2.2.2.2, hbl.2.2.2.2⟩

/-- C1, instance: hue 359 at full saturation and brightness. -/
theorem hsb_to_rgb_within_one_witness :
    ∃ rgb : led_rgb, hsb_to_rgb ⟨359, 100, 100⟩ = some rgb ∧
      |(rgb.r : Int) - ((hsb_to_rgb_table ⟨359, 100, 100⟩).r : Int)| ≤ 1 ∧
      |(rgb.g : Int) - ((hsb_to_rgb_table ⟨359, 100, 100⟩).g : Int)| ≤ 1 ∧
      |(rgb.b : Int) - ((hsb_to_rgb_table ⟨359, 100, 100⟩).b : Int)| ≤ 1 ∧
      |(hsb_to_rgb_float ⟨359, 100, 100⟩).1 - (hsb_to_rgb_exact ⟨359, 100, 100⟩).1| ≤ 1 / 2 ^ 10 ∧
      |(hsb_to_rgb_float ⟨359, 100, 100⟩).2.1 - (hsb_to_rgb_exact ⟨359, 100, 100⟩).2.1| ≤ 1 / 2 ^ 10 ∧
      |(hsb_to_rgb_float ⟨359, 100, 100⟩).2.2 - (hsb_to_rgb_exact ⟨359, 100, 100⟩).2.2| ≤ 1 / 2 ^ 10 :=
  hsb_to_rgb_within_one ⟨359, 100, 100⟩ (by decide) (by decide) (by decide)

/-- C2: for every valid input (`h < 360`, `s ≤ 100`, `b ≤ 100`) each of the
three values `r*255`, `g*255`, `b*255` that `hsb_to_rgb` forms lies in
`[0,255]`, so the narrowing to a byte is defined and gives a byte in
`0..255`. -/
theorem hsb_to_rgb_channels_in_range (hsb : zmk_led_hsb)
    (hh : hsb.h < 360) (hs : hsb.s ≤ 100) (hb : hsb.b ≤ 100) :
    (0 ≤ (hsb_to_rgb_float hsb).1 ∧ (hsb_to_rgb_float hsb).1 ≤ 255) ∧
    (0 ≤ (hsb_to_rgb_float hsb).2.1 ∧ (hsb_to_rgb_float hsb).2.1 ≤ 255) ∧
    (0 ≤ (hsb_to_rgb_float hsb).2.2 ∧ (hsb_to_rgb_float hsb).2.2 ≤ 255) ∧
    ∃ rgb : led_rgb, hsb_to_rgb hsb = some rgb ∧ rgb.r ≤ 255 ∧ rgb.g ≤ 255 ∧ rgb.b ≤ 255 := by
  obtain ⟨hr, hg, hbl⟩ := hsb_float_near_exact hsb hh hs hb
  exact ⟨⟨hr.1, hr.2.1⟩, ⟨hg.1, hg.2.1⟩, ⟨hbl.1, hbl.2.1⟩, _, hsb_to_rgb_eq_floor hsb hh hs hb,
    (f32_to_u8_of_range _ hr.1 hr.2.1).2, (f32_to_u8_of_range _ hg.1 hg.2.1).2,
    (f32_to_u8_of_range _ hbl.1 hbl.2.1).2⟩

/-- C2, instance: hue 120 at full saturation and brightness. -/
theorem hsb_to_rgb_channels_in_range_witness :
    (0 ≤ (hsb_to_rgb_float ⟨120, 100, 100⟩).1 ∧ (hsb_to_rgb_float ⟨120, 100, 100⟩).1 ≤ 255) ∧
    (0 ≤ (hsb_to_rgb_float ⟨120, 100, 100⟩).2.1 ∧ (hsb_to_rgb_float ⟨120, 100, 100⟩).2.1 ≤ 255) ∧
    (0 ≤ (hsb_to_rgb_float ⟨120, 100, 100⟩).2.2 ∧ (hsb_to_rgb_float ⟨120, 100, 100⟩).2.2 ≤ 255) ∧
    ∃ rgb : led_rgb, hsb_to_rgb ⟨120, 100, 100⟩ = some rgb ∧
      rgb.r ≤ 255 ∧ rgb.g ≤ 255 ∧ rgb.b ≤ 255 :=
  hsb_to_rgb_channels_in_range ⟨120, 100, 100⟩ (by decide) (by decide) (by decide)

/-! ## Auxiliary facts -/

/-- The save request leaves a result that is never positive. -/
theorem save_state_nonpos (ret : Int) : zmk_rgb_underglow_save_state ret ≤ 0 := by
  unfold zmk_rgb_underglow_save_state
  exact min_le_right _ _

/-! ## Effect cycling -/

/-- C4: with the strip bound and the current effect in `{0,...,6}`,
`cycle_effect(+1)` followed by `cycle_effect(-1)` restores `current_effect`,
and so does `cycle_effect(-1)` followed by `cycle_effect(+1)`; neither call is
rejected. -/
theorem cycle_effect_round_trip (w : World) (ret1 ret2 : Int)
    (hstrip : w.led_strip = true) (hcur : w.state.current_effect < UNDERGLOW_EFFECT_NUMBER) :
    let up := zmk_rgb_underglow_cycle_effect w 1 ret1
    let up_down := zmk_rgb_underglow_cycle_effect up.2 (-1) ret2
    let down := zmk_rgb_underglow_cycle_effect w (-1) ret1
    let down_up := zmk_rgb_underglow_cycle_effect down.2 1 ret2
    (up_down.2.state.current_effect = w.state.current_effect ∧
      up.1 = zmk_rgb_underglow_save_state ret1 ∧
      up_down.1 = zmk_rgb_underglow_save_state ret2) ∧
    (down_up.2.state.current_effect = w.state.current_effect ∧
      down.1 = zmk_rgb_underglow_save_state ret1 ∧
      down_up.1 = zmk_rgb_underglow_save_state ret2) := by
  obtain ⟨strip, px, ⟨col, spd, cur, stp, o⟩, tmr, fl⟩ := w
  simp only at hstrip hcur
  subst hstrip
  unfold UNDERGLOW_EFFECT_NUMBER at hcur
  interval_cases cur <;>
    simp [zmk_rgb_underglow_cycle_effect, zmk_rgb_underglow_select_effect,
      zmk_rgb_underglow_calc_effect, UNDERGLOW_EFFECT_NUMBER, Int.tmod]

/-- C4, instance: Swirl (3), forward to Kinesis (4) and back. -/
theorem cycle_effect_round_trip_witness :
    (zmk_rgb_underglow_cycle_effect (zmk_rgb_underglow_cycle_effect (sample_world 3 0) 1 0).2
        (-1) 0).2.state.current_effect = 3 :=
  (cycle_effect_round_trip (sample_world 3 0) 0 0 rfl (by decide)).1.1

/-! ## Hue stepping -/

/-- One `calc_hue` step whose `int` sum stays inside the `uint16_t` range
yields the non-negative remainder of `h + direction * STEP` modulo 360. -/
theorem calc_hue_exact (cfg : Config) (st : rgb_underglow_state) (direction : Int)
    (hlo : 0 ≤ (st.color.h : Int) + 360 + direction * cfg.HUE_STEP)
    (hhi : (st.color.h : Int) + 360 + direction * cfg.HUE_STEP < 65536) :
    ((zmk_rgb_underglow_calc_hue cfg st direction).h : Int)
      = ((st.color.h : Int) + direction * cfg.HUE_STEP) % 360 := by
  unfold zmk_rgb_underglow_calc_hue HUE_MAX
  simp only
  push_cast
  omega

/-- C6, refutation: with the default step 10 and hue 0, `calc_hue(-37)` gives
hue 6, whereas `(0 - 370) mod 360` is 350. -/
theorem calc_hue_wrong_at_minus_37 :
    (zmk_rgb_underglow_calc_hue sample_config (sample_world 0 0).state (-37)).h = 6 ∧
    (((sample_world 0 0).state.color.h : Int) + (-37) * sample_config.HUE_STEP) % 360 = 350 := by
  decide

/-- `calc_hue` always returns a hue in `[0,360)` and leaves saturation and
brightness alone. -/
theorem calc_hue_range (cfg : Config) (st : rgb_underglow_state) (direction : Int) :
    (zmk_rgb_underglow_calc_hue cfg st direction).h < 360 ∧
    (zmk_rgb_underglow_calc_hue cfg st direction).s = st.color.s ∧
    (zmk_rgb_underglow_calc_hue cfg st direction).b = st.color.b := by
  refine ⟨?_, rfl, rfl⟩
  unfold zmk_rgb_underglow_calc_hue HUE_MAX
  simp only
  omega

/-- C6, amended: `calc_hue` always returns a hue in `[0,360)` and leaves
saturation and brightness alone; the hue equals `(h + direction*STEP) mod 360`
(non-negative remainder) whenever the `int` sum `h + 360 + direction*STEP`
lies in the `uint16_t` range `[0, 65536)`. -/
theorem calc_hue_spec (cfg : Config) (st : rgb_underglow_state) (direction : Int) :
    (zmk_rgb_underglow_calc_hue cfg st direction).h < 360 ∧
    (zmk_rgb_underglow_calc_hue cfg st direction).s = st.color.s ∧
    (zmk_rgb_underglow_calc_hue cfg st direction).b = st.color.b ∧
    (0 ≤ (st.color.h : Int) + 360 + direction * cfg.HUE_STEP →
      (st.color.h : Int) + 360 + direction * cfg.HUE_STEP < 65536 →
      ((zmk_rgb_underglow_calc_hue cfg st direction).h : Int)
        = ((st.color.h : Int) + direction * cfg.HUE_STEP) % 360) :=
  ⟨(calc_hue_range cfg st direction).1, (calc_hue_range cfg st direction).2.1,
    (calc_hue_range cfg st direction).2.2, calc_hue_exact cfg st direction⟩

/-- C6, instance: hue 5 stepped back once by 10 gives 355. -/
theorem calc_hue_spec_witness :
    ((zmk_rgb_underglow_calc_hue sample_config (sample_world 0 5).state (-1)).h : Int) = 355 :=
  (calc_hue_spec sample_config (sample_world 0 5).state (-1)).2.2.2 (by decide) (by decide)

/-- State of the world after `rets.length` calls of `change_hue` with a unit
direction and a step between 1 and 360: only the hue moves, by the total
displacement modulo 360. -/
theorem repeat_change_hue_color (cfg : Config) (d : Int) (hd : d = 1 ∨ d = -1)
    (hpos : 0 < cfg.HUE_STEP) (hle : cfg.HUE_STEP ≤ 360) (rets : List Int) :
    ∀ w : World, w.led_strip = true → w.state.color.h < 360 →
      (repeat_change_hue cfg d rets w).state.color =
        { w.state.color with
          h := (((w.state.color.h : Int) + (rets.length : Int) * (d * cfg.HUE_STEP)) % 360).toNat } := by
  induction rets with
  | nil =>
    intro w _ hh
    simp only [repeat_change_hue, List.foldl_nil, List.length_nil, Nat.cast_zero, zero_mul,
      add_zero]
    have : ((w.state.color.h : Int) % 360).toNat = w.state.color.h := by omega
    rw [this]
  | cons r rs ih =>
    intro w hstrip hh
    have hstep : (zmk_rgb_underglow_change_hue cfg w d r).2 =
        { w with state := { w.state with color := zmk_rgb_underglow_calc_hue cfg w.state d } } := by
      simp [zmk_rgb_underglow_change_hue, hstrip]
    have hlo : 0 ≤ (w.state.color.h : Int) + 360 + d * cfg.HUE_STEP := by
      rcases hd with rfl | rfl <;> omega
    have hhi : (w.state.color.h : Int) + 360 + d * cfg.HUE_STEP < 65536 := by
      rcases hd with rfl | rfl <;> omega
    have hspec := calc_hue_range cfg w.state d
    have hex := calc_hue_exact cfg w.state d hlo hhi
    have ih1 := ih (zmk_rgb_underglow_change_hue cfg w d r).2
      (by rw [hstep]; exact hstrip) (by rw [hstep]; exact hspec.1)
    have hfold : repeat_change_hue cfg d (r :: rs) w
        = repeat_change_hue cfg d rs (zmk_rgb_underglow_change_hue cfg w d r).2 := rfl
    rw [hfold, ih1, hstep]
    simp only
    have hs := hspec.2.1
    have hb := hspec.2.2
    have key : (((zmk_rgb_underglow_calc_hue cfg w.state d).h : Int)
          + (rs.length : Int) * (d * cfg.HUE_STEP)) % 360
        = ((w.state.color.h : Int) + ((r :: rs).length : Int) * (d * cfg.HUE_STEP)) % 360 := by
      rw [hex]
      have : (((r :: rs).length : Nat) : Int) * (d * cfg.HUE_STEP)
          = (rs.length : Int) * (d * cfg.HUE_STEP) + d * cfg.HUE_STEP := by
        simp only [List.length_cons]; push_cast; ring
      rw [this]
      omega
    rw [key]
    cases hc : zmk_rgb_underglow_calc_hue cfg w.state d with
    | mk h' s' b' =>
      rw [hc] at hs hb
      simp only at hs hb
      subst hs hb
      rfl

set_option maxRecDepth 8192 in
/-- C5, refutation: with hue step 7 (so `360/7 = 51` calls) and starting hue
0, fifty-one calls of `change_hue(+1)` leave the hue at 357, not 0. -/
theorem change_hue_no_closure_step_7 :
    (repeat_change_hue { sample_config with HUE_STEP := 7 } 1 (List.replicate (360 / 7) 0)
        (sample_world 0 0)).state.color.h = 357 := by
  decide

/-- C5, amended: if the positive hue step divides 360, then with the strip
bound and a starting hue below 360, `360/STEP` calls of `change_hue(d)` with a
constant `d` in `{+1,-1}` restore the colour: hue, saturation and brightness
are what they were. -/
theorem change_hue_closure (cfg : Config) (w : World) (d : Int) (rets : List Int)
    (hstrip : w.led_strip = true) (hh : w.state.color.h < 360)
    (hpos : 0 < cfg.HUE_STEP) (hdvd : cfg.HUE_STEP ∣ 360)
    (hd : d = 1 ∨ d = -1) (hlen : (rets.length : Int) = 360 / cfg.HUE_STEP) :
    (repeat_change_hue cfg d rets w).state.color = w.state.color := by
  have hle : cfg.HUE_STEP ≤ 360 := Int.le_of_dvd (by decide) hdvd
  rw [repeat_change_hue_color cfg d hd hpos hle rets w hstrip hh]
  have hmul : (rets.length : Int) * cfg.HUE_STEP = 360 := by
    rw [hlen]; exact Int.ediv_mul_cancel hdvd
  have hback : (((w.state.color.h : Int) + (rets.length : Int) * (d * cfg.HUE_STEP)) % 360).toNat
      = w.state.color.h := by
    have : (rets.length : Int) * (d * cfg.HUE_STEP) = d * 360 := by
      rw [← hmul]; ring
    rw [this]
    rcases hd with rfl | rfl <;> omega
  rw [hback]

/-- C5, instance: step 10, hue 40, thirty-six calls forward. -/
theorem change_hue_closure_witness :
    (repeat_change_hue sample_config 1 (List.replicate 36 0) (sample_world 0 40)).state.color
      = (sample_world 0 40).state.color :=
  change_hue_closure sample_config (sample_world 0 40) 1 (List.replicate 36 0)
    rfl (by decide) (by decide) (by decide) (Or.inl rfl) (by decide)

/-! ## Saturation and brightness stepping -/

/-- `calc_sat` stores the clamp of `s + direction * STEP` to `[0,100]`. -/
theorem calc_sat_eq (cfg : Config) (st : rgb_underglow_state) (direction : Int) :
    zmk_rgb_underglow_calc_sat cfg st direction =
      { st.color with s := (clamp ((st.color.s : Int) + direction * cfg.SAT_STEP) 0 100).toNat } := by
  unfold zmk_rgb_underglow_calc_sat clamp SAT_MAX
  simp only [Nat.cast_ofNat]
  congr 1
  split_ifs <;> omega

/-- `calc_brt` stores the clamp of `b + direction * STEP` to `[0,100]`. -/
theorem calc_brt_eq (cfg : Config) (st : rgb_underglow_state) (direction : Int) :
    zmk_rgb_underglow_calc_brt cfg st direction =
      { st.color with b := (clamp ((st.color.b : Int) + direction * cfg.BRT_STEP) 0 100).toNat } := by
  unfold zmk_rgb_underglow_calc_brt clamp CLAMP BRT_MAX
  simp only [Nat.cast_ofNat]
  congr 1
  split_ifs <;> omega

/-- A clamp to `[0,100]`, read as a natural number, is at most 100. -/
theorem clamp_toNat_le (x : Int) : (clamp x 0 100).toNat ≤ 100 := by
  unfold clamp
  omega

/-- C8: with the strip bound, an effect index outside `{0,...,6}` makes
`select_effect` return `-EINVAL` with the world (colour, speed, effect, step,
power flag) unchanged; an index inside the set makes it return the result of
the save request.  Hence, the save request not itself reporting `-EINVAL`,
the return value is `-EINVAL` exactly when `effect < 0` or `effect ≥ 7`. -/
theorem select_effect_einval (w : World) (effect ret : Int) (hstrip : w.led_strip = true) :
    ((effect < 0 ∨ effect ≥ 7) → zmk_rgb_underglow_select_effect w effect ret = (-EINVAL, w)) ∧
    (¬ (effect < 0 ∨ effect ≥ 7) →
      (zmk_rgb_underglow_select_effect w effect ret).1 = zmk_rgb_underglow_save_state ret) ∧
    (zmk_rgb_underglow_save_state ret ≠ -EINVAL →
      ((zmk_rgb_underglow_select_effect w effect ret).1 = -EINVAL ↔ (effect < 0 ∨ effect ≥ 7))) := by
  have hbad : (effect < 0 ∨ effect ≥ 7) →
      zmk_rgb_underglow_select_effect w effect ret = (-EINVAL, w) := by
    intro h
    have h' : effect < 0 ∨ effect ≥ (UNDERGLOW_EFFECT_NUMBER : Int) := by
      unfold UNDERGLOW_EFFECT_NUMBER; exact_mod_cast h
    simp only [zmk_rgb_underglow_select_effect, hstrip, h', Bool.not_true, Bool.false_eq_true,
      if_false, if_true]
  have hgood : ¬ (effect < 0 ∨ effect ≥ 7) →
      (zmk_rgb_underglow_select_effect w effect ret).1 = zmk_rgb_underglow_save_state ret := by
    intro h
    have h' : ¬ (effect < 0 ∨ effect ≥ (UNDERGLOW_EFFECT_NUMBER : Int)) := by
      unfold UNDERGLOW_EFFECT_NUMBER; exact_mod_cast h
    simp only [zmk_rgb_underglow_select_effect, hstrip, h', Bool.not_true, Bool.false_eq_true,
      if_false]
  refine ⟨hbad, hgood, fun hsave => ⟨fun hret => ?_, fun h => by rw [hbad h]⟩⟩
  by_contra hin
  exact hsave ((hgood hin).symm.trans hret)

/-- C8, instance: `select_effect(7)` on a bound strip returns `-EINVAL` and
changes nothing. -/
theorem select_effect_einval_witness :
    zmk_rgb_underglow_select_effect (sample_world 2 0) 7 0 = (-EINVAL, sample_world 2 0) :=
  (select_effect_einval (sample_world 2 0) 7 0 rfl).1 (by decide)

/-- C9, refutation: `set_hsb` with hue 361 returns `-ENOTSUP` (-134), which
is not the `-EINVAL` (-22) of `select_effect`. -/
theorem set_hsb_361_not_einval :
    (zmk_rgb_underglow_set_hsb (sample_world 0 0) ⟨361, 100, 100⟩).1 = -ENOTSUP ∧
    (zmk_rgb_underglow_set_hsb (sample_world 0 0) ⟨361, 100, 100⟩).1 ≠ -EINVAL ∧
    (zmk_rgb_underglow_select_effect (sample_world 0 0) 7 0).1 = -EINVAL := by
  decide

/-- C9, amended: whenever a channel exceeds its maximum (`h > 360`, `s > 100`
or `b > 100`) `set_hsb` fails with `-ENOTSUP`, an error code different from
the `-EINVAL` of `select_effect`, and the world after the call is the world
before it. -/
theorem set_hsb_rejects (w : World) (color : zmk_led_hsb)
    (hbad : color.h > 360 ∨ color.s > 100 ∨ color.b > 100) :
    zmk_rgb_underglow_set_hsb w color = (-ENOTSUP, w) ∧ -ENOTSUP ≠ -EINVAL := by
  refine ⟨?_, by decide⟩
  have h' : color.h > HUE_MAX ∨ color.s > SAT_MAX ∨ color.b > BRT_MAX := hbad
  simp only [zmk_rgb_underglow_set_hsb, h', if_true]

/-- C9, instance: hue 361 is rejected and the world is unchanged. -/
theorem set_hsb_rejects_witness :
    zmk_rgb_underglow_set_hsb (sample_world 0 0) ⟨361, 100, 100⟩ = (-ENOTSUP, sample_world 0 0) :=
  (set_hsb_rejects (sample_world 0 0) ⟨361, 100, 100⟩ (Or.inl (by decide))).1

/-! ## Colour invariant -/

/-- C10, refutation: `set_hsb` with hue 360 succeeds on a world whose colour
satisfies `hue < 360, s ≤ 100, b ≤ 100`, and the colour afterwards has hue 360. -/
theorem set_hsb_360_breaks_invariant :
    color_inv (sample_world 0 0).state.color ∧
    (Command.run sample_config (sample_world 0 0) 0 (.set_hsb ⟨360, 100, 100⟩)).1 = 0 ∧
    ¬ color_inv
      (Command.run sample_config (sample_world 0 0) 0 (.set_hsb ⟨360, 100, 100⟩)).2.state.color := by
  decide

/-- C10, amended: every command, with any argument and whether it succeeds or
fails, preserves `hue ≤ 360, s ≤ 100, b ≤ 100`; and it preserves the stricter
`hue < 360, s ≤ 100, b ≤ 100` unless it is a `set_hsb` whose colour has hue
exactly 360. -/
theorem command_preserves_color_range (cfg : Config) (w : World) (ret : Int) (cmd : Command) :
    (color_accepted w.state.color → color_accepted (cmd.run cfg w ret).2.state.color) ∧
    (color_inv w.state.color → (∀ c, cmd = .set_hsb c → c.h ≠ 360) →
      color_inv (cmd.run cfg w ret).2.state.color) := by
  have hsub : ∀ c : zmk_led_hsb, color_inv c → color_accepted c := by
    intro c h
    exact ⟨Nat.le_of_lt h.1, h.2.1, h.2.2⟩
  have main : ∀ P : zmk_led_hsb → Prop, (∀ c, color_inv c → P c) →
      (∀ c : zmk_led_hsb, P c → c.s ≤ 100 ∧ c.b ≤ 100) →
      (∀ c : zmk_led_hsb, P c → ∀ s b, s ≤ 100 → b ≤ 100 → P ⟨c.h, s, b⟩) →
      P w.state.color →
      (∀ c, cmd = .set_hsb c → color_accepted c → P c) →
      P (cmd.run cfg w ret).2.state.color := by
    intro P hinv hsb hupd hw hset
    cases cmd with
    | power_on =>
      simp only [Command.run, zmk_rgb_underglow_on]
      split_ifs <;> exact hw
    | power_off =>
      simp only [Command.run, zmk_rgb_underglow_off]
      split_ifs <;> exact hw
    | toggle =>
      simp only [Command.run, zmk_rgb_underglow_toggle, zmk_rgb_underglow_on,
        zmk_rgb_underglow_off]
      split_ifs <;> exact hw
    | select_effect e =>
      simp only [Command.run, zmk_rgb_underglow_select_effect]
      split_ifs <;> exact hw
    | cycle_effect d =>
      simp only [Command.run, zmk_rgb_underglow_cycle_effect, zmk_rgb_underglow_select_effect]
      split_ifs <;> exact hw
    | set_hsb c =>
      simp only [Command.run, zmk_rgb_underglow_set_hsb]
      split_ifs with hc
      · exact hw
      · apply hset c rfl
        unfold color_accepted
        omega
    | change_hue d =>
      simp only [Command.run, zmk_rgb_underglow_change_hue]
      split_ifs
      · exact hw
      · have h := calc_hue_range cfg w.state d
        apply hinv
        refine ⟨h.1, ?_, ?_⟩
        · rw [h.2.1]; exact (hsb _ hw).1
        · rw [h.2.2]; exact (hsb _ hw).2
    | change_sat d =>
      simp only [Command.run, zmk_rgb_underglow_change_sat]
      split_ifs
      · exact hw
      · simp only [calc_sat_eq]
        exact hupd _ hw _ _ (clamp_toNat_le _) (hsb _ hw).2
    | change_brt d =>
      simp only [Command.run, zmk_rgb_underglow_change_brt]
      split_ifs
      · exact hw
      · simp only [calc_brt_eq]
        exact hupd _ hw _ _ (hsb _ hw).1 (clamp_toNat_le _)
    | change_spd d =>
      simp only [Command.run, zmk_rgb_underglow_change_spd]
      split_ifs <;> exact hw
  constructor
  · intro hw
    exact main color_accepted hsub (fun c h => ⟨h.2.1, h.2.2⟩)
      (fun c h s b hs hb => ⟨h.1, hs, hb⟩) hw (fun c _ hc => hc)
  · intro hw hne
    refine main color_inv (fun c h => h) (fun c h => ⟨h.2.1, h.2.2⟩)
      (fun c h s b hs hb => ⟨h.1, hs, hb⟩) hw (fun c hcmd hc => ?_)
    have h360 := hne c hcmd
    refine ⟨?_, hc.2.1, hc.2.2⟩
    have := hc.1
    unfold HUE_MAX at this ⊢
    omega

/-- C10, instance: `set_hsb` with hue 359 and `change_brt(-200)` both keep
`hue < 360, s ≤ 100, b ≤ 100`. -/
theorem command_preserves_color_range_witness :
    color_inv (Command.run sample_config (sample_world 0 0) 0
      (.set_hsb ⟨359, 100, 100⟩)).2.state.color ∧
    color_accepted (Command.run sample_config (sample_world 0 0) 0
      (.change_brt (-200))).2.state.color :=
  ⟨(command_preserves_color_range sample_config (sample_world 0 0) 0
      (.set_hsb ⟨359, 100, 100⟩)).2 (by decide)
      (fun c hc => by
        have : c = ⟨359, 100, 100⟩ := by injection hc with h; exact h.symm
        rw [this]; decide),
    (command_preserves_color_range sample_config (sample_world 0 0) 0
      (.change_brt (-200))).1 (by decide)⟩

/-! ## Speed stepping -/

/-- C11, refutation: from speed 3, `change_spd(-3)` stores speed 0, outside
`[1,5]`; the clamp of `3 - 3` to `[1,5]` is 1.  And from speed 3,
`change_spd(-5)` stores 5. -/
theorem change_spd_minus_three_gives_zero :
    (sample_world 0 0).state.animation_speed = 3 ∧
    (zmk_rgb_underglow_change_spd (sample_world 0 0) (-3) 0).2.state.animation_speed = 0 ∧
    clamp (3 + (-3)) 1 5 = 1 ∧
    (zmk_rgb_underglow_change_spd (sample_world 0 0) (-5) 0).2.state.animation_speed = 5 ∧
    clamp (3 + (-5)) 1 5 = 1 := by
  decide

/-- C11, amended: with the strip bound and the speed in `[1,5]`, for every
direction such that either the speed is 1 and the direction negative, or
`1 ≤ speed + direction ≤ 255` (this holds for every direction from -1 to
250), `change_spd` leaves the speed equal to `clamp(old + direction, 1, 5)`,
inside `[1,5]`, changes nothing else, and returns 0 or the result of the save
request, never an out-of-range error. -/
theorem change_spd_clamp (w : World) (direction ret : Int)
    (hstrip : w.led_strip = true)
    (h1 : 1 ≤ w.state.animation_speed) (h5 : w.state.animation_speed ≤ 5)
    (hd : (w.state.animation_speed = 1 ∧ direction < 0) ∨
      (1 ≤ (w.state.animation_speed : Int) + direction ∧
        (w.state.animation_speed : Int) + direction ≤ 255)) :
    (zmk_rgb_underglow_change_spd w direction ret).2 =
      { w with state := { w.state with
          animation_speed := (clamp ((w.state.animation_speed : Int) + direction) 1 5).toNat } } ∧
    1 ≤ (zmk_rgb_underglow_change_spd w direction ret).2.state.animation_speed ∧
    (zmk_rgb_underglow_change_spd w direction ret).2.state.animation_speed ≤ 5 ∧
    ((zmk_rgb_underglow_change_spd w direction ret).1 = 0 ∨
      (zmk_rgb_underglow_change_spd w direction ret).1 = zmk_rgb_underglow_save_state ret) := by
  obtain ⟨strip, px, ⟨col, spd, cur, stp, o⟩, tmr, fl⟩ := w
  simp only at hstrip h1 h5 hd
  subst hstrip
  by_cases hguard : spd = 1 ∧ direction < 0
  · obtain ⟨rfl, hneg⟩ := hguard
    have hc : (clamp (((1 : Nat) : Int) + direction) 1 5).toNat = 1 := by
      unfold clamp; omega
    simp only [zmk_rgb_underglow_change_spd, Bool.not_true, Bool.false_eq_true, if_false,
      hneg, and_self, if_true, hc, le_refl, true_or, and_true]
    decide
  · have hrange : 1 ≤ (spd : Int) + direction ∧ (spd : Int) + direction ≤ 255 := by
      rcases hd with h | h
      · exact absurd h hguard
      · exact h
    have hmod : (((spd : Int) + direction) % 256).toNat = ((spd : Int) + direction).toNat := by
      omega
    have hc : (clamp ((spd : Int) + direction) 1 5).toNat
        = if ((spd : Int) + direction).toNat > 5 then 5 else ((spd : Int) + direction).toNat := by
      unfold clamp
      split_ifs <;> omega
    simp only [zmk_rgb_underglow_change_spd, Bool.not_true, Bool.false_eq_true, if_false,
      hguard, hmod, hc, or_true, and_true, true_and]
    split_ifs <;> omega

/-- C11, instance: speed 5 stepped up stays 5; speed 3 stepped down gives 2. -/
theorem change_spd_clamp_witness :
    (zmk_rgb_underglow_change_spd
        { sample_world 0 0 with state := { (sample_world 0 0).state with animation_speed := 5 } }
        1 0).2.state.animation_speed = 5 ∧
    (zmk_rgb_underglow_change_spd (sample_world 0 0) (-1) 0).2.state.animation_speed = 2 := by
  have h := change_spd_clamp
    { sample_world 0 0 with state := { (sample_world 0 0).state with animation_speed := 5 } }
    1 0 rfl (by decide) (by decide) (Or.inr (by decide))
  have h2 := change_spd_clamp (sample_world 0 0) (-1) 0 rfl (by decide) (by decide)
    (Or.inr (by decide))
  rw [h.1, h2.1]
  decide

/-! ## Commands without a strip -/

/-- C12, evaluation at the failing input: on a world whose strip handle is
unbound, `set_hsb` with the valid colour `(10, 20, 30)` returns 0, not
`-ENODEV`, and replaces the colour; with the colour `(361, 0, 0)` it returns
`-ENOTSUP`. -/
theorem set_hsb_ignores_unbound_strip :
    (unbound_world 0 0).led_strip = false ∧
    zmk_rgb_underglow_set_hsb (unbound_world 0 0) ⟨10, 20, 30⟩ =
      (0, { unbound_world 0 0 with
              state := { (unbound_world 0 0).state with color := ⟨10, 20, 30⟩ } }) ∧
    (zmk_rgb_underglow_set_hsb (unbound_world 0 0) ⟨10, 20, 30⟩).2 ≠ unbound_world 0 0 ∧
    (zmk_rgb_underglow_set_hsb (unbound_world 0 0) ⟨361, 0, 0⟩).1 = -ENOTSUP ∧
    -ENOTSUP ≠ -ENODEV := by
  decide

/-- While the strip handle is unbound, `get_state` and every command other
than `set_hsb` return `-ENODEV` and leave the world (animation state and
pixel buffer included) unchanged. -/
theorem unbound_strip_enodev (cfg : Config) (w : World) (ret : Int) (cmd : Command)
    (hstrip : w.led_strip = false) (hcmd : ∀ c, cmd ≠ .set_hsb c) :
    cmd.run cfg w ret = (-ENODEV, w) ∧ zmk_rgb_underglow_get_state w = (-ENODEV, none) := by
  refine ⟨?_, by simp [zmk_rgb_underglow_get_state, hstrip]⟩
  cases cmd with
  | set_hsb c => exact absurd rfl (hcmd c)
  | toggle =>
    simp only [Command.run, zmk_rgb_underglow_toggle]
    split_ifs <;> simp [zmk_rgb_underglow_on, zmk_rgb_underglow_off, hstrip]
  | _ =>
    simp [Command.run, zmk_rgb_underglow_on, zmk_rgb_underglow_off,
      zmk_rgb_underglow_select_effect, zmk_rgb_underglow_cycle_effect,
      zmk_rgb_underglow_change_hue, zmk_rgb_underglow_change_sat,
      zmk_rgb_underglow_change_brt, zmk_rgb_underglow_change_spd, hstrip]

/-! ## Pixel buffer loops -/

/-- One more iteration of the fill loop writes one more entry. -/
theorem fill_pixels_succ (n : Nat) (c : led_rgb) (px : List led_rgb) :
    fill_pixels (n + 1) c px = (fill_pixels n c px).set n c := by
  simp [fill_pixels, List.range_succ, List.foldl_append]

/-- The fill loop keeps the length of the buffer. -/
theorem fill_pixels_length (n : Nat) (c : led_rgb) (px : List led_rgb) :
    (fill_pixels n c px).length = px.length := by
  induction n with
  | zero => rfl
  | succ n ih => rw [fill_pixels_succ, List.length_set, ih]

/-- Entry `i` after the fill loop: the colour `c` for `i < n` inside the
buffer, the old entry otherwise. -/
theorem fill_pixels_getElem? (n : Nat) (c : led_rgb) (px : List led_rgb) (i : Nat) :
    (fill_pixels n c px)[i]? = if i < n then px[i]?.map (fun _ => c) else px[i]? := by
  induction n with
  | zero => simp [fill_pixels]
  | succ n ih =>
    rw [fill_pixels_succ, List.getElem?_set, fill_pixels_length, ih]
    by_cases hin : n = i
    · subst hin
      by_cases hlen : n < px.length
      · simp [hlen, List.getElem?_eq_getElem hlen]
      · have : px[n]? = none := List.getElem?_eq_none (Nat.le_of_not_lt hlen)
        simp [hlen, this]
    · have hne : ¬ n = i := hin
      simp only [hne, if_false]
      by_cases h1 : i < n
      · simp [h1, Nat.lt_succ_of_lt h1]
      · have h2 : ¬ i < n + 1 := by omega
        simp [h1, h2]

/-- On a buffer of exactly `n` pixels the fill loop leaves `n` copies of `c`. -/
theorem fill_pixels_full (n : Nat) (c : led_rgb) (px : List led_rgb) (hlen : px.length = n) :
    fill_pixels n c px = List.replicate n c := by
  apply List.ext_getElem?
  intro i
  rw [fill_pixels_getElem?]
  by_cases h : i < n
  · have hi : i < px.length := by omega
    simp [h, List.getElem?_eq_getElem hi, List.getElem?_replicate]
  · have hnone : px[i]? = none := List.getElem?_eq_none (by omega)
    simp [h, hnone, List.getElem?_replicate]

/-- Running the fill loop twice is the same as running it once. -/
theorem fill_pixels_idem (n : Nat) (c : led_rgb) (px : List led_rgb) :
    fill_pixels n c (fill_pixels n c px) = fill_pixels n c px := by
  apply List.ext_getElem?
  intro i
  rw [fill_pixels_getElem?, fill_pixels_getElem?]
  by_cases h : i < n
  · simp only [h, if_true]
    cases px[i]? <;> rfl
  · simp [h]

/-- The blanking loop is the fill loop with the dark pixel. -/
theorem blank_pixels_eq_fill (n : Nat) (px : List led_rgb) :
    blank_pixels n px = fill_pixels n ⟨0, 0, 0⟩ px := rfl

/-! ## Power -/

/-- C13: with the strip bound and a pixel buffer of `STRIP_NUM_PIXELS`
entries, whatever its content and whatever the current effect,
`zmk_rgb_underglow_off` leaves every entry equal to `(0,0,0)`, hands that
all-zero buffer to the single flush it performs, stops the timer and clears
the power flag; colour, speed, effect and step are unchanged. -/
theorem off_blanks_pixels (cfg : Config) (w : World) (ret : Int)
    (hstrip : w.led_strip = true) (hlen : w.pixels.length = cfg.STRIP_NUM_PIXELS) :
    zmk_rgb_underglow_off cfg w ret =
      (zmk_rgb_underglow_save_state ret,
        { w with
          pixels := List.replicate cfg.STRIP_NUM_PIXELS ⟨0, 0, 0⟩
          flushed := List.replicate cfg.STRIP_NUM_PIXELS ⟨0, 0, 0⟩ :: w.flushed
          timer_running := false
          state := { w.state with is_on := false } }) := by
  simp only [zmk_rgb_underglow_off, hstrip, Bool.not_true, Bool.false_eq_true, if_false,
    blank_pixels_eq_fill, fill_pixels_full _ _ _ hlen]

/-- C13, instance: a strip of three lit pixels in the Swirl effect. -/
theorem off_blanks_pixels_witness :
    (zmk_rgb_underglow_off sample_config
        { sample_world 3 0 with pixels := [⟨1, 2, 3⟩, ⟨255, 255, 255⟩, ⟨0, 9, 0⟩] } 0).2.pixels
      = [⟨0, 0, 0⟩, ⟨0, 0, 0⟩, ⟨0, 0, 0⟩] := by
  rw [off_blanks_pixels sample_config
    { sample_world 3 0 with pixels := [⟨1, 2, 3⟩, ⟨255, 255, 255⟩, ⟨0, 9, 0⟩] } 0 rfl rfl]
  rfl

/-- C14: with the strip bound, a second `on` leaves the animation state and
the pixel buffer as the first `on` left them, and likewise a second `off`;
and every `on` leaves the power flag set and `animation_step = 0`. -/
theorem on_off_idempotent (cfg : Config) (w : World) (ret1 ret2 : Int)
    (hstrip : w.led_strip = true) :
    ((zmk_rgb_underglow_on (zmk_rgb_underglow_on w ret1).2 ret2).2.state
        = (zmk_rgb_underglow_on w ret1).2.state ∧
      (zmk_rgb_underglow_on (zmk_rgb_underglow_on w ret1).2 ret2).2.pixels
        = (zmk_rgb_underglow_on w ret1).2.pixels) ∧
    ((zmk_rgb_underglow_off cfg (zmk_rgb_underglow_off cfg w ret1).2 ret2).2.state
        = (zmk_rgb_underglow_off cfg w ret1).2.state ∧
      (zmk_rgb_underglow_off cfg (zmk_rgb_underglow_off cfg w ret1).2 ret2).2.pixels
        = (zmk_rgb_underglow_off cfg w ret1).2.pixels) ∧
    (zmk_rgb_underglow_on w ret1).2.state.is_on = true ∧
    (zmk_rgb_underglow_on w ret1).2.state.animation_step = 0 := by
  simp only [zmk_rgb_underglow_on, zmk_rgb_underglow_off, hstrip, Bool.not_true,
    Bool.false_eq_true, if_false, blank_pixels_eq_fill, fill_pixels_idem, and_self]

/-- C14, instance: a dark world at step 7 switched on. -/
theorem on_off_idempotent_witness :
    (zmk_rgb_underglow_on
        { sample_world 1 0 with
          state := { (sample_world 1 0).state with animation_step := 7, is_on := false } }
        0).2.state.animation_step = 0 :=
  (on_off_idempotent sample_config
    { sample_world 1 0 with
      state := { (sample_world 1 0).state with animation_step := 7, is_on := false } }
    0 0 rfl).2.2.2

/-! ## Brightness scaling -/

/-- Closed form of `hsb_scale_min_max` for `BRT_MIN ≤ BRT_MAX ≤ 100` and a
brightness of at most 100. -/
theorem hsb_scale_min_max_b (cfg : Config) (hsb : zmk_led_hsb)
    (hmin : cfg.BRT_MIN ≤ cfg.BRT_MAX) (hmax : cfg.BRT_MAX ≤ 100) (hb : hsb.b ≤ 100) :
    (hsb_scale_min_max cfg hsb).b = cfg.BRT_MIN + (cfg.BRT_MAX - cfg.BRT_MIN) * hsb.b / 100 := by
  have hle : (cfg.BRT_MAX - cfg.BRT_MIN) * hsb.b / 100 ≤ cfg.BRT_MAX - cfg.BRT_MIN := by
    apply Nat.div_le_of_le_mul
    rw [Nat.mul_comm 100]
    exact Nat.mul_le_mul_left _ hb
  have hcast : ((cfg.BRT_MAX : Int) - (cfg.BRT_MIN : Int)) * (hsb.b : Int)
      = (((cfg.BRT_MAX - cfg.BRT_MIN) * hsb.b : Nat) : Int) := by
    push_cast [Nat.cast_sub hmin]; ring
  unfold hsb_scale_min_max BRT_MAX
  simp only
  rw [hcast, Int.tdiv_eq_ediv (Int.ofNat_nonneg _) (by decide)]
  have hdiv : ((((cfg.BRT_MAX - cfg.BRT_MIN) * hsb.b : Nat) : Int) / ((100 : Nat) : Int))
      = (((cfg.BRT_MAX - cfg.BRT_MIN) * hsb.b / 100 : Nat) : Int) := by
    exact_mod_cast rfl
  rw [hdiv]
  omega

/-- Closed form of `hsb_scale_zero_max` for `BRT_MAX ≤ 100` and a brightness
of at most 100. -/
theorem hsb_scale_zero_max_b (cfg : Config) (hsb : zmk_led_hsb)
    (hmax : cfg.BRT_MAX ≤ 100) (hb : hsb.b ≤ 100) :
    (hsb_scale_zero_max cfg hsb).b = hsb.b * cfg.BRT_MAX / 100 := by
  have hle : hsb.b * cfg.BRT_MAX / 100 ≤ cfg.BRT_MAX := by
    apply Nat.div_le_of_le_mul
    rw [Nat.mul_comm hsb.b]
    calc cfg.BRT_MAX * hsb.b ≤ cfg.BRT_MAX * 100 := Nat.mul_le_mul_left _ hb
      _ = 100 * cfg.BRT_MAX := Nat.mul_comm _ _
  have hcast : (hsb.b : Int) * (cfg.BRT_MAX : Int) = ((hsb.b * cfg.BRT_MAX : Nat) : Int) := by
    push_cast; ring
  unfold hsb_scale_zero_max BRT_MAX
  simp only
  rw [hcast, Int.tdiv_eq_ediv (Int.ofNat_nonneg _) (by decide)]
  have hdiv : (((hsb.b * cfg.BRT_MAX : Nat) : Int) / ((100 : Nat) : Int))
      = ((hsb.b * cfg.BRT_MAX / 100 : Nat) : Int) := by
    exact_mod_cast rfl
  rw [hdiv]
  omega

/-- C20: for limits `BRT_MIN ≤ BRT_MAX ≤ 100` and a brightness `b ≤ 100`,
`hsb_scale_min_max` returns brightness `BRT_MIN + (BRT_MAX - BRT_MIN)*b/100`,
inside `[BRT_MIN, BRT_MAX]`, equal to `BRT_MIN` at `b = 0` and to `BRT_MAX` at
`b = 100`, and non-decreasing in `b`; `hsb_scale_zero_max` returns
`b*BRT_MAX/100`, inside `[0, BRT_MAX]`, equal to 0 at `b = 0` and to `BRT_MAX`
at `b = 100`; both leave hue and saturation unchanged. -/
theorem hsb_scale_range (cfg : Config) (hsb : zmk_led_hsb)
    (hmin : cfg.BRT_MIN ≤ cfg.BRT_MAX) (hmax : cfg.BRT_MAX ≤ 100) (hb : hsb.b ≤ 100) :
    ((hsb_scale_min_max cfg hsb).b = cfg.BRT_MIN + (cfg.BRT_MAX - cfg.BRT_MIN) * hsb.b / 100 ∧
      cfg.BRT_MIN ≤ (hsb_scale_min_max cfg hsb).b ∧
      (hsb_scale_min_max cfg hsb).b ≤ cfg.BRT_MAX ∧
      (hsb_scale_min_max cfg { hsb with b := 0 }).b = cfg.BRT_MIN ∧
      (hsb_scale_min_max cfg { hsb with b := 100 }).b = cfg.BRT_MAX ∧
      (∀ b' : Nat, hsb.b ≤ b' → b' ≤ 100 →
        (hsb_scale_min_max cfg hsb).b ≤ (hsb_scale_min_max cfg { hsb with b := b' }).b) ∧
      (hsb_scale_min_max cfg hsb).h = hsb.h ∧ (hsb_scale_min_max cfg hsb).s = hsb.s) ∧
    ((hsb_scale_zero_max cfg hsb).b = hsb.b * cfg.BRT_MAX / 100 ∧
      (hsb_scale_zero_max cfg hsb).b ≤ cfg.BRT_MAX ∧
      (hsb_scale_zero_max cfg { hsb with b := 0 }).b = 0 ∧
      (hsb_scale_zero_max cfg { hsb with b := 100 }).b = cfg.BRT_MAX ∧
      (hsb_scale_zero_max cfg hsb).h = hsb.h ∧ (hsb_scale_zero_max cfg hsb).s = hsb.s) := by
  have hle : (cfg.BRT_MAX - cfg.BRT_MIN) * hsb.b / 100 ≤ cfg.BRT_MAX - cfg.BRT_MIN := by
    apply Nat.div_le_of_le_mul
    rw [Nat.mul_comm 100]
    exact Nat.mul_le_mul_left _ hb
  have hle0 : hsb.b * cfg.BRT_MAX / 100 ≤ cfg.BRT_MAX := by
    apply Nat.div_le_of_le_mul
    rw [Nat.mul_comm hsb.b]
    calc cfg.BRT_MAX * hsb.b ≤ cfg.BRT_MAX * 100 := Nat.mul_le_mul_left _ hb
      _ = 100 * cfg.BRT_MAX := Nat.mul_comm _ _
  refine ⟨⟨hsb_scale_min_max_b cfg hsb hmin hmax hb, ?_, ?_, ?_, ?_, ?_, rfl, rfl⟩,
    ⟨hsb_scale_zero_max_b cfg hsb hmax hb, ?_, ?_, ?_, rfl, rfl⟩⟩
  · rw [hsb_scale_min_max_b cfg hsb hmin hmax hb]; omega
  · rw [hsb_scale_min_max_b cfg hsb hmin hmax hb]; omega
  · rw [hsb_scale_min_max_b cfg _ hmin hmax (by simp)]; simp
  · rw [hsb_scale_min_max_b cfg _ hmin hmax (by simp)]
    simp only
    rw [Nat.mul_div_cancel _ (by decide : 0 < 100)]
    omega
  · intro b' hbb hb'
    rw [hsb_scale_min_max_b cfg hsb hmin hmax hb, hsb_scale_min_max_b cfg _ hmin hmax hb']
    simp only
    apply Nat.add_le_add_left
    apply Nat.div_le_div_right
    exact Nat.mul_le_mul_left _ hbb
  · rw [hsb_scale_zero_max_b cfg hsb hmax hb]; exact hle0
  · rw [hsb_scale_zero_max_b cfg _ hmax (by simp)]; simp
  · rw [hsb_scale_zero_max_b cfg _ hmax (by simp)]
    simp only
    rw [Nat.mul_comm, Nat.mul_div_cancel _ (by decide : 0 < 100)]

/-- C20, instance: limits 20 and 80, brightness 50 is mapped to 50 by the
range scaling and to 40 by the zero-based scaling. -/
theorem hsb_scale_range_witness :
    (hsb_scale_min_max { sample_config with BRT_MIN := 20, BRT_MAX := 80 } ⟨0, 0, 50⟩).b = 50 ∧
    (hsb_scale_zero_max { sample_config with BRT_MIN := 20, BRT_MAX := 80 } ⟨0, 0, 50⟩).b = 40 := by
  have h := hsb_scale_range { sample_config with BRT_MIN := 20, BRT_MAX := 80 } ⟨0, 0, 50⟩
    (by decide) (by decide) (by decide)
  rw [h.1.1, h.2.1]
  decide

/-! ## Effect selection -/

/-- C19: with the strip bound, for every effect index in `{0,...,6}`,
`select_effect` sets `current_effect` to it and `animation_step` to 0 and
leaves colour, speed, power flag, pixel buffer and everything else as they
were; it returns the result of the save request. -/
theorem select_effect_sets (w : World) (effect ret : Int)
    (hstrip : w.led_strip = true) (h0 : 0 ≤ effect) (h7 : effect < 7) :
    zmk_rgb_underglow_select_effect w effect ret =
      (zmk_rgb_underglow_save_state ret,
        { w with state := { w.state with
            current_effect := effect.toNat
            animation_step := 0 } }) := by
  have hguard : ¬ (effect < 0 ∨ effect ≥ (UNDERGLOW_EFFECT_NUMBER : Int)) := by
    unfold UNDERGLOW_EFFECT_NUMBER; push_cast; omega
  have hmod : effect % 256 = effect := by omega
  simp only [zmk_rgb_underglow_select_effect, hstrip, hguard, hmod, Bool.not_true,
    Bool.false_eq_true, if_false]

/-- C19, instance: selecting Battery (5) from Solid at step 0 on a lit world. -/
theorem select_effect_sets_witness :
    zmk_rgb_underglow_select_effect (sample_world 0 0) 5 0 = (0, sample_world 5 0) := by
  rw [select_effect_sets (sample_world 0 0) 5 0 rfl (by decide) (by decide)]
  decide

/-! ## Breathe -/

/-- The triangle `|n - 1200| / 12` without absolute value. -/
theorem triangle_nat (n : Nat) :
    (|(n : Int) - 1200| / 12).toNat = (if 1200 ≤ n then n - 1200 else 1200 - n) / 12 := by
  by_cases h : 1200 ≤ n
  · rw [abs_of_nonneg (by omega)]
    simp only [h, if_true]
    omega
  · rw [abs_of_nonpos (by omega)]
    simp only [h, if_false]
    omega

/-- The breathe brightness: for a step of at most 4271 the `uint8_t` store
loses nothing. -/
theorem breathe_hsb_b (st : rgb_underglow_state) (hstep : st.animation_step ≤ 4271) :
    (breathe_hsb st).b = (|(st.animation_step : Int) - 1200| / 12).toNat := by
  have hnn : (0 : Int) ≤ |(st.animation_step : Int) - 1200| / 12 :=
    Int.ediv_nonneg (abs_nonneg _) (by decide)
  have hlt : |(st.animation_step : Int) - 1200| / 12 < 256 := by
    have h := triangle_nat st.animation_step
    have h2 : (if 1200 ≤ st.animation_step then st.animation_step - 1200
        else 1200 - st.animation_step) / 12 < 256 := by
      split_ifs <;> omega
    omega
  unfold breathe_hsb
  simp only
  rw [Int.tdiv_eq_ediv (abs_nonneg _) (by decide), Int.emod_eq_of_lt hnn hlt]

/-- When every conversion yields the same defined colour, the pixel loop of
an effect is the fill loop. -/
theorem foldlM_set_some (c : led_rgb) (l : List Nat) :
    ∀ px : List led_rgb,
      l.foldlM (fun px i => (some (px.set i c) : Option (List led_rgb))) px
        = some (l.foldl (fun px i => px.set i c) px) := by
  induction l with
  | nil => intro px; rfl
  | cons i l ih =>
    intro px
    simp only [List.foldlM_cons, Option.bind_eq_bind, Option.some_bind, List.foldl_cons]
    exact ih _

/-- C16, refutation: at a state of charge of exactly 80 every pixel of a
three-pixel strip is red `(255,0,0)`, not orange `(255,140,0)`. -/
theorem battery_80_is_red :
    (zmk_rgb_underglow_effect_battery sample_config 80 (sample_world 5 0)).pixels
      = [battery_red, battery_red, battery_red] ∧
    battery_red ≠ battery_orange := by
  decide

/-- C16, amended: on a strip of `STRIP_NUM_PIXELS` pixels, a state of charge
of exactly 80 yields red `(255,0,0)` on every pixel (not green, yellow or
orange), and a state of charge of exactly 50 yields orange `(255,140,0)` on
every pixel (not yellow). -/
theorem battery_boundaries (cfg : Config) (w : World)
    (hlen : w.pixels.length = cfg.STRIP_NUM_PIXELS) :
    (zmk_rgb_underglow_effect_battery cfg 80 w).pixels
      = List.replicate cfg.STRIP_NUM_PIXELS battery_red ∧
    (zmk_rgb_underglow_effect_battery cfg 50 w).pixels
      = List.replicate cfg.STRIP_NUM_PIXELS battery_orange ∧
    battery_red ≠ battery_green ∧ battery_red ≠ battery_yellow ∧
    battery_red ≠ battery_orange ∧ battery_orange ≠ battery_yellow := by
  refine ⟨?_, ?_, by decide, by decide, by decide, by decide⟩
  · simp only [zmk_rgb_underglow_effect_battery, fill_pixels_full _ _ _ hlen]
    rfl
  · simp only [zmk_rgb_underglow_effect_battery, fill_pixels_full _ _ _ hlen]
    rfl

/-- C16, instance: three pixels at a state of charge of 50. -/
theorem battery_boundaries_witness :
    (zmk_rgb_underglow_effect_battery sample_config 50 (sample_world 5 0)).pixels
      = [battery_orange, battery_orange, battery_orange] :=
  (battery_boundaries sample_config (sample_world 5 0) rfl).2.1

/-- C17: for every state of charge, on a strip of `STRIP_NUM_PIXELS` pixels
the Battery effect sets every pixel to one flat colour: green if `soc > 80`,
yellow if `51 ≤ soc < 80`, orange if `21 ≤ soc ≤ 50`, red if `soc ≤ 20` and
also for `soc = 80`; it changes nothing but the pixel buffer, so
`animation_step` keeps its value. -/
theorem battery_tiers (cfg : Config) (soc : Nat) (w : World)
    (hlen : w.pixels.length = cfg.STRIP_NUM_PIXELS) :
    (soc > 80 → (zmk_rgb_underglow_effect_battery cfg soc w).pixels
      = List.replicate cfg.STRIP_NUM_PIXELS battery_green) ∧
    (51 ≤ soc ∧ soc < 80 → (zmk_rgb_underglow_effect_battery cfg soc w).pixels
      = List.replicate cfg.STRIP_NUM_PIXELS battery_yellow) ∧
    (21 ≤ soc ∧ soc ≤ 50 → (zmk_rgb_underglow_effect_battery cfg soc w).pixels
      = List.replicate cfg.STRIP_NUM_PIXELS battery_orange) ∧
    (soc ≤ 20 ∨ soc = 80 → (zmk_rgb_underglow_effect_battery cfg soc w).pixels
      = List.replicate cfg.STRIP_NUM_PIXELS battery_red) ∧
    (zmk_rgb_underglow_effect_battery cfg soc w).state = w.state ∧
    (zmk_rgb_underglow_effect_battery cfg soc w).state.animation_step
      = w.state.animation_step := by
  have hpx : (zmk_rgb_underglow_effect_battery cfg soc w).pixels
      = List.replicate cfg.STRIP_NUM_PIXELS (battery_rgb soc) := by
    simp only [zmk_rgb_underglow_effect_battery, fill_pixels_full _ _ _ hlen]
  refine ⟨?_, ?_, ?_, ?_, rfl, rfl⟩
  · intro h
    rw [hpx]
    congr 1
    simp only [battery_rgb, h, if_true, battery_green]
  · intro h
    rw [hpx]
    congr 1
    have h1 : ¬ soc > 80 := by omega
    have h2 : soc > 50 ∧ soc < 80 := by omega
    simp only [battery_rgb, h1, h2, and_self, if_true, if_false, battery_yellow]
  · intro h
    rw [hpx]
    congr 1
    have h1 : ¬ soc > 80 := by omega
    have h2 : ¬ (soc > 50 ∧ soc < 80) := by omega
    have h3 : soc > 20 ∧ soc < 51 := by omega
    simp only [battery_rgb, h1, h2, h3, and_self, if_true, if_false, battery_orange]
  · intro h
    rw [hpx]
    congr 1
    have h1 : ¬ soc > 80 := by omega
    have h2 : ¬ (soc > 50 ∧ soc < 80) := by omega
    have h3 : ¬ (soc > 20 ∧ soc < 51) := by omega
    simp only [battery_rgb, h1, h2, h3, if_false, battery_red]

/-- C17, instance: three pixels at a state of charge of 65 are yellow. -/
theorem battery_tiers_witness :
    (zmk_rgb_underglow_effect_battery sample_config 65 (sample_world 5 0)).pixels
      = [battery_yellow, battery_yellow, battery_yellow] :=
  (battery_tiers sample_config 65 (sample_world 5 0) rfl).2.1 (by decide)

/-! ## Settings load -/

/-- C18: when the name is the key `state` (the match succeeds with a null
`next`) and the record length differs from `sizeof(state)`,
`rgb_settings_set` returns `-EINVAL`, never invokes the read callback and
leaves the world unchanged; when the name is not exactly that key it returns
`-ENOENT`, again without invoking the callback and with the world unchanged. -/
theorem settings_set_rejects (steq : String → String → Bool × Option String)
    (state_size : Nat) (read_cb : rgb_underglow_state → Nat → Int × rgb_underglow_state)
    (w : World) (name : String) (len : Nat) :
    ((steq name "state").1 = true ∧ (steq name "state").2 = none → len ≠ state_size →
      rgb_settings_set steq state_size read_cb w name len = ⟨-EINVAL, w, 0⟩) ∧
    (¬ ((steq name "state").1 = true ∧ (steq name "state").2 = none) →
      rgb_settings_set steq state_size read_cb w name len = ⟨-ENOENT, w, 0⟩) := by
  constructor
  · intro hkey hlen
    simp only [rgb_settings_set, hkey, and_self, if_true, hlen, ne_eq, not_false_eq_true]
  · intro hkey
    simp only [rgb_settings_set, hkey, if_false]

/-- C18, instance: key `state` with a 3-byte record against a 10-byte
`state`, and the key `speed`. -/
theorem settings_set_rejects_witness :
    rgb_settings_set steq_plain 10 (read_fixed (sample_world 6 0).state) (sample_world 0 0)
        "state" 3 = ⟨-EINVAL, sample_world 0 0, 0⟩ ∧
    rgb_settings_set steq_plain 10 (read_fixed (sample_world 6 0).state) (sample_world 0 0)
        "speed" 10 = ⟨-ENOENT, sample_world 0 0, 0⟩ :=
  ⟨(settings_set_rejects steq_plain 10 (read_fixed (sample_world 6 0).state) (sample_world 0 0)
      "state" 3).1 (by decide) (by decide),
    (settings_set_rejects steq_plain 10 (read_fixed (sample_world 6 0).state) (sample_world 0 0)
      "speed" 10).2 (by decide)⟩

/-! ## Breathe phase -/

/-- The phase update of Breathe never leaves a step above 2400. -/
theorem breathe_next_step_le (st : rgb_underglow_state) : breathe_next_step st ≤ 2400 := by
  unfold breathe_next_step
  simp only
  split_ifs <;> omega

/-- For a step of at most 2400 and a `uint8_t` speed the phase update is
`step + 10*speed`, or 0 when that exceeds 2400. -/
theorem breathe_next_step_eq (st : rgb_underglow_state)
    (hstep : st.animation_step ≤ 2400) (hspd : st.animation_speed < 256) :
    breathe_next_step st =
      if st.animation_step + 10 * st.animation_speed > 2400 then 0
      else st.animation_step + 10 * st.animation_speed := by
  unfold breathe_next_step
  simp only
  have hmod : (st.animation_step + st.animation_speed * 10) % 65536
      = st.animation_step + st.animation_speed * 10 := by omega
  rw [hmod]
  split_ifs <;> omega

/-- A Breathe tick on a valid colour with a step in `[0,2400]` is defined and
only changes the pixel buffer and the step. -/
theorem breathe_tick_some (cfg : Config) (w : World)
    (hcol : color_inv w.state.color) (hmax : cfg.BRT_MAX ≤ 100)
    (hstep : w.state.animation_step ≤ 2400) :
    ∃ px : List led_rgb, zmk_rgb_underglow_effect_breathe cfg w = some
      { w with pixels := px,
               state := { w.state with animation_step := breathe_next_step w.state } } := by
  have hb := breathe_hsb_b w.state (by omega)
  have hb100 : (breathe_hsb w.state).b ≤ 100 := by
    rw [hb, triangle_nat]
    split_ifs <;> omega
  have hscaled : (hsb_scale_zero_max cfg (breathe_hsb w.state)).b ≤ 100 := by
    rw [hsb_scale_zero_max_b cfg _ hmax hb100]
    apply Nat.div_le_of_le_mul
    exact Nat.mul_le_mul hb100 hmax
  have hdef := hsb_to_rgb_eq_floor (hsb_scale_zero_max cfg (breathe_hsb w.state))
    hcol.1 hcol.2.1 hscaled
  unfold zmk_rgb_underglow_effect_breathe
  simp only [hdef, Option.map_some', foldlM_set_some]
  exact ⟨_, rfl⟩

/-- Any number of Breathe ticks from a step in `[0,2400]` is defined, keeps
colour and speed, and leaves a step in `[0,2400]`. -/
theorem breathe_run_some (cfg : Config) (w : World)
    (hcol : color_inv w.state.color) (hmax : cfg.BRT_MAX ≤ 100)
    (hstep : w.state.animation_step ≤ 2400) (n : Nat) :
    ∃ wn : World, breathe_run cfg n w = some wn ∧
      wn.state.color = w.state.color ∧
      wn.state.animation_speed = w.state.animation_speed ∧
      wn.state.animation_step ≤ 2400 := by
  induction n with
  | zero => exact ⟨w, rfl, rfl, rfl, hstep⟩
  | succ n ih =>
    obtain ⟨wn, hrun, hc, hs, hst⟩ := ih
    obtain ⟨px, htick⟩ := breathe_tick_some cfg wn (by rw [hc]; exact hcol) hmax hst
    have hnext : breathe_run cfg (n + 1) w = some
        { wn with pixels := px,
                  state := { wn.state with animation_step := breathe_next_step wn.state } } := by
      show (breathe_run cfg n w).bind (zmk_rgb_underglow_effect_breathe cfg) = _
      rw [hrun, Option.some_bind, htick]
    exact ⟨_, hnext, hc, hs, breathe_next_step_le wn.state⟩

/-- C25: a Breathe tick sets the step to `step + 10*speed`, or to 0 when that
sum exceeds 2400; so starting from step 0 with a valid colour,
`BRT_MAX ≤ 100` and a speed in `[1,5]`, any number of Breathe ticks is
defined and leaves a step in `[0,2400]`, for which the brightness handed to
the colour conversion is `|step - 1200| / 12`, in `[0,100]`, and the next
tick again follows the same rule. -/
theorem breathe_phase_invariant (cfg : Config) (w : World) (n : Nat)
    (hcol : color_inv w.state.color) (hmax : cfg.BRT_MAX ≤ 100)
    (hstep : w.state.animation_step = 0)
    (hspd1 : 1 ≤ w.state.animation_speed) (hspd5 : w.state.animation_speed ≤ 5) :
    ∃ wn : World, breathe_run cfg n w = some wn ∧
      wn.state.animation_step ≤ 2400 ∧
      (breathe_hsb wn.state).b = (|(wn.state.animation_step : Int) - 1200| / 12).toNat ∧
      (breathe_hsb wn.state).b ≤ 100 ∧
      ∃ wn1 : World, zmk_rgb_underglow_effect_breathe cfg wn = some wn1 ∧
        wn1.state.animation_step =
          (if wn.state.animation_step + 10 * wn.state.animation_speed > 2400 then 0
            else wn.state.animation_step + 10 * wn.state.animation_speed) := by
  obtain ⟨wn, hrun, hc, hs, hst⟩ := breathe_run_some cfg w hcol hmax (by omega) n
  have hb := breathe_hsb_b wn.state (by omega)
  have hb100 : (breathe_hsb wn.state).b ≤ 100 := by
    rw [hb, triangle_nat]
    split_ifs <;> omega
  obtain ⟨px, htick⟩ := breathe_tick_some cfg wn (by rw [hc]; exact hcol) hmax hst
  refine ⟨wn, hrun, hst, hb, hb100, _, htick, ?_⟩
  simp only
  exact breathe_next_step_eq wn.state hst (by omega)

/-- C25, instance: speed 3 from step 0: after 81 ticks the run is defined
with a step of at most 2400. -/
theorem breathe_phase_invariant_witness :
    ∃ wn : World, breathe_run sample_config 81 (sample_world 1 0) = some wn ∧
      wn.state.animation_step ≤ 2400 := by
  obtain ⟨wn, h1, h2, _⟩ := breathe_phase_invariant sample_config (sample_world 1 0) 81
    (by decide) (by decide) rfl (by decide) (by decide)
  exact ⟨wn, h1, h2⟩

/-! ## Pixel loops with a colour per index -/

/-- When every conversion of a pixel loop is defined, with colour `g i` for
index `i`, the loop writes those colours. -/
theorem foldlM_set_some_index (g : Nat → led_rgb) (l : List Nat) :
    ∀ px : List led_rgb,
      l.foldlM (fun px i => (some (px.set i (g i)) : Option (List led_rgb))) px
        = some (l.foldl (fun px i => px.set i (g i)) px) := by
  induction l with
  | nil => intro px; rfl
  | cons i l ih =>
    intro px
    simp only [List.foldlM_cons, Option.bind_eq_bind, Option.some_bind, List.foldl_cons]
    exact ih _

/-- The loop that writes `g i` to entry `i` for `i < n` keeps the length. -/
theorem write_loop_length (g : Nat → led_rgb) (n : Nat) (px : List led_rgb) :
    ((List.range n).foldl (fun px i => px.set i (g i)) px).length = px.length := by
  induction n with
  | zero => rfl
  | succ n ih => simp [List.range_succ, List.foldl_append, ih]

/-- Entry `i` after the loop that writes `g i` to entry `i` for `i < n`. -/
theorem write_loop_getElem? (g : Nat → led_rgb) (n : Nat) (px : List led_rgb) (i : Nat) :
    ((List.range n).foldl (fun px i => px.set i (g i)) px)[i]?
      = if i < n then px[i]?.map (fun _ => g i) else px[i]? := by
  induction n with
  | zero => simp
  | succ n ih =>
    simp only [List.range_succ, List.foldl_append, List.foldl_cons, List.foldl_nil]
    rw [List.getElem?_set, write_loop_length, ih]
    by_cases hin : n = i
    · subst hin
      by_cases hlen : n < px.length
      · simp [hlen, List.getElem?_eq_getElem hlen]
      · have : px[n]? = none := List.getElem?_eq_none (Nat.le_of_not_lt hlen)
        simp [hlen, this]
    · have hne : ¬ n = i := hin
      simp only [hne, if_false]
      by_cases h1 : i < n
      · simp [h1, Nat.lt_succ_of_lt h1]
      · have h2 : ¬ i < n + 1 := by omega
        simp [h1, h2]

/-! ## Spectrum and Swirl -/

/-- Range scaling keeps a brightness of at most 100 at most 100. -/
theorem hsb_scale_min_max_le (cfg : Config) (hsb : zmk_led_hsb)
    (hmin : cfg.BRT_MIN ≤ cfg.BRT_MAX) (hmax : cfg.BRT_MAX ≤ 100) (hb : hsb.b ≤ 100) :
    (hsb_scale_min_max cfg hsb).b ≤ 100 := by
  rw [hsb_scale_min_max_b cfg hsb hmin hmax hb]
  have hle : (cfg.BRT_MAX - cfg.BRT_MIN) * hsb.b / 100 ≤ cfg.BRT_MAX - cfg.BRT_MIN := by
    apply Nat.div_le_of_le_mul
    rw [Nat.mul_comm 100]
    exact Nat.mul_le_mul_left _ hb
  omega

/-- The conversion of a range-scaled colour is defined whenever the hue is
below 360 and saturation and brightness are at most 100. -/
theorem scaled_color_defined (cfg : Config) (hsb : zmk_led_hsb)
    (hmin : cfg.BRT_MIN ≤ cfg.BRT_MAX) (hmax : cfg.BRT_MAX ≤ 100)
    (hh : hsb.h < 360) (hs : hsb.s ≤ 100) (hb : hsb.b ≤ 100) :
    ∃ c : led_rgb, hsb_to_rgb (hsb_scale_min_max cfg hsb) = some c :=
  ⟨_, hsb_to_rgb_eq_floor (hsb_scale_min_max cfg hsb) hh hs
    (hsb_scale_min_max_le cfg hsb hmin hmax hb)⟩

/-- C24: for a colour with saturation and brightness at most 100, limits
`BRT_MIN ≤ BRT_MAX ≤ 100`, a step below 360 and a speed in `[1,5]`: a
Spectrum tick is defined, converts for every pixel the base colour with hue
`step` and leaves the step at `(step + speed) mod 360`; a Swirl tick is
defined, converts for pixel `i` the base colour with hue
`((360 / STRIP_NUM_PIXELS) * i + step) mod 360` and leaves the step at
`(step + 2*speed) mod 360`.  After either tick the step is below 360, and
every hue converted is below 360. -/
theorem spectrum_swirl_tick (cfg : Config) (w : World)
    (hs : w.state.color.s ≤ 100) (hb : w.state.color.b ≤ 100)
    (hmin : cfg.BRT_MIN ≤ cfg.BRT_MAX) (hmax : cfg.BRT_MAX ≤ 100)
    (hstep : w.state.animation_step < 360)
    (hspd1 : 1 ≤ w.state.animation_speed) (hspd5 : w.state.animation_speed ≤ 5)
    (hlen : w.pixels.length = cfg.STRIP_NUM_PIXELS) :
    (∃ w' : World, zmk_rgb_underglow_effect_spectrum cfg w = some w' ∧
      (∀ i, i < cfg.STRIP_NUM_PIXELS →
        w'.pixels[i]? = hsb_to_rgb (hsb_scale_min_max cfg
          { w.state.color with h := w.state.animation_step })) ∧
      w'.state.animation_step = (w.state.animation_step + w.state.animation_speed) % 360 ∧
      w'.state.animation_step < 360 ∧
      (spectrum_hsb w.state).h < 360) ∧
    (∃ w' : World, zmk_rgb_underglow_effect_swirl cfg w = some w' ∧
      (∀ i, i < cfg.STRIP_NUM_PIXELS →
        w'.pixels[i]? = hsb_to_rgb (hsb_scale_min_max cfg
          { w.state.color with
            h := (360 / cfg.STRIP_NUM_PIXELS * i + w.state.animation_step) % 360 })) ∧
      w'.state.animation_step = (w.state.animation_step + 2 * w.state.animation_speed) % 360 ∧
      w'.state.animation_step < 360 ∧
      (∀ i, (swirl_hsb cfg w.state i).h
          = (360 / cfg.STRIP_NUM_PIXELS * i + w.state.animation_step) % 360 ∧
        (swirl_hsb cfg w.state i).h < 360)) := by
  have hswirl_h : ∀ i, (swirl_hsb cfg w.state i).h
      = (360 / cfg.STRIP_NUM_PIXELS * i + w.state.animation_step) % 360 := by
    intro i
    simp only [swirl_hsb, HUE_MAX]
    omega
  constructor
  · obtain ⟨c, hc⟩ := scaled_color_defined cfg (spectrum_hsb w.state) hmin hmax hstep hs hb
    have hres : zmk_rgb_underglow_effect_spectrum cfg w = some
        { w with
          pixels := (List.range cfg.STRIP_NUM_PIXELS).foldl (fun px i => px.set i c) w.pixels
          state := { w.state with
            animation_step :=
              ((w.state.animation_step + w.state.animation_speed) % 65536) % HUE_MAX } } := by
      simp only [zmk_rgb_underglow_effect_spectrum, hc, Option.map_some',
        foldlM_set_some_index (fun _ => c)]
    refine ⟨_, hres, ?_, ?_, ?_, hstep⟩
    · intro i hi
      simp only
      rw [write_loop_getElem? (fun _ => c)]
      have hi' : i < w.pixels.length := by omega
      simp only [hi, if_true, List.getElem?_eq_getElem hi', Option.map_some']
      exact hc.symm
    · simp only [HUE_MAX]
      omega
    · simp only [HUE_MAX]
      omega
  · have hdef : ∀ i, ∃ c : led_rgb,
        hsb_to_rgb (hsb_scale_min_max cfg (swirl_hsb cfg w.state i)) = some c := by
      intro i
      exact scaled_color_defined cfg (swirl_hsb cfg w.state i) hmin hmax
        (by rw [hswirl_h i]; omega) hs hb
    choose g hg using hdef
    have hres : zmk_rgb_underglow_effect_swirl cfg w = some
        { w with
          pixels := (List.range cfg.STRIP_NUM_PIXELS).foldl (fun px i => px.set i (g i)) w.pixels
          state := { w.state with
            animation_step :=
              ((w.state.animation_step + w.state.animation_speed * 2) % 65536) % HUE_MAX } } := by
      simp only [zmk_rgb_underglow_effect_swirl, hg, Option.map_some',
        foldlM_set_some_index g]
    refine ⟨_, hres, ?_, ?_, ?_, ?_⟩
    · intro i hi
      simp only
      rw [write_loop_getElem? g]
      have hi' : i < w.pixels.length := by omega
      simp only [hi, if_true, List.getElem?_eq_getElem hi', Option.map_some']
      rw [← hg i]
      have hhsb : swirl_hsb cfg w.state i
          = { w.state.color with
              h := (360 / cfg.STRIP_NUM_PIXELS * i + w.state.animation_step) % 360 } := by
        have := hswirl_h i
        cases hsw : swirl_hsb cfg w.state i with
        | mk h' s' b' =>
          rw [hsw] at this
          simp only at this
          have hs' : s' = w.state.color.s := by
            have : (swirl_hsb cfg w.state i).s = w.state.color.s := rfl
            rw [hsw] at this; exact this
          have hb' : b' = w.state.color.b := by
            have : (swirl_hsb cfg w.state i).b = w.state.color.b := rfl
            rw [hsw] at this; exact this
          subst hs' hb' this
          rfl
      rw [hhsb]
    · simp only [HUE_MAX]
      omega
    · simp only [HUE_MAX]
      omega
    · intro i
      exact ⟨hswirl_h i, by rw [hswirl_h i]; omega⟩

/-- C24, instance: three pixels, step 350, speed 3: a Swirl tick leaves the
step at 356 and a Spectrum tick at 353. -/
theorem spectrum_swirl_tick_witness :
    (∃ w' : World, zmk_rgb_underglow_effect_spectrum sample_config
        { sample_world 2 0 with
          state := { (sample_world 2 0).state with animation_step := 350 } } = some w' ∧
      w'.state.animation_step = 353) ∧
    (∃ w' : World, zmk_rgb_underglow_effect_swirl sample_config
        { sample_world 3 0 with
          state := { (sample_world 3 0).state with animation_step := 350 } } = some w' ∧
      w'.state.animation_step = 356) := by
  have h := spectrum_swirl_tick sample_config
    { sample_world 2 0 with state := { (sample_world 2 0).state with animation_step := 350 } }
    (by decide) (by decide) (by decide) (by decide) (by decide) (by decide) (by decide) rfl
  have h2 := spectrum_swirl_tick sample_config
    { sample_world 3 0 with state := { (sample_world 3 0).state with animation_step := 350 } }
    (by decide) (by decide) (by decide) (by decide) (by decide) (by decide) (by decide) rfl
  obtain ⟨⟨w1, hw1, _, hs1, _⟩, _⟩ := h
  obtain ⟨_, ⟨w2, hw2, _, hs2, _⟩⟩ := h2
  exact ⟨⟨w1, hw1, hs1⟩, ⟨w2, hw2, hs2⟩⟩

/-! ## Kinesis, peripheral role -/

/-- Writing entries 0, 1 and 2 of a three-pixel buffer. -/
theorem set_three (px : List led_rgb) (a b c : led_rgb) (hlen : px.length = 3) :
    ((px.set 0 a).set 1 b).set 2 c = [a, b, c] := by
  match px, hlen with
  | [_, _, _], _ => rfl

/-- One disconnected peripheral tick: the three pixels show the blink flag in
the red channel, and the blink counter advances. -/
theorem kinesis_disconnected_tick (kcfg : KinesisConfig) (ws : World × SplitState)
    (hlen : ws.1.pixels.length = 3) :
    zmk_rgb_underglow_effect_kinesis_peripheral kcfg false ws =
      ({ ws.1 with
          pixels :=
            [⟨to_u8 (kcfg.BRT_SCALE * bool_factor ws.2.last_ble_state_1), 0, 0⟩,
             ⟨to_u8 (kcfg.BRT_SCALE * bool_factor ws.2.last_ble_state_1), 0, 0⟩,
             ⟨to_u8 (kcfg.BRT_SCALE * bool_factor ws.2.last_ble_state_1), 0, 0⟩]
          state := { ws.1.state with
            animation_step :=
              (blink_step 14 ws.1.state.animation_step ws.2.last_ble_state_1).1 } },
        { ws.2 with
          last_ble_state_1 :=
            (blink_step 14 ws.1.state.animation_step ws.2.last_ble_state_1).2 }) := by
  simp only [zmk_rgb_underglow_effect_kinesis_peripheral, Bool.not_false, if_true,
    set_three _ _ _ _ hlen]

/-- Counter and flag after `n + 1` disconnected ticks from step 0: the
counter is `n mod 15 + 1`, and the flag has been toggled `n / 15` times. -/
theorem kinesis_disconnected_state (kcfg : KinesisConfig) (ws : World × SplitState)
    (hlen : ws.1.pixels.length = 3) (hstep : ws.1.state.animation_step = 0) (n : Nat) :
    (kinesis_disconnected_run kcfg (n + 1) ws).1.state.animation_step = n % 15 + 1 ∧
    (kinesis_disconnected_run kcfg (n + 1) ws).2.last_ble_state_1
      = (if (n / 15) % 2 = 0 then ws.2.last_ble_state_1 else !ws.2.last_ble_state_1) ∧
    (kinesis_disconnected_run kcfg (n + 1) ws).1.pixels.length = 3 := by
  induction n with
  | zero =>
    have h := kinesis_disconnected_tick kcfg ws hlen
    simp only [kinesis_disconnected_run, h, blink_step, hstep]
    simp
  | succ n ih =>
    obtain ⟨h1, h2, h3⟩ := ih
    have h := kinesis_disconnected_tick kcfg (kinesis_disconnected_run kcfg (n + 1) ws) h3
    have hrun : kinesis_disconnected_run kcfg (n + 1 + 1) ws
        = zmk_rgb_underglow_effect_kinesis_peripheral kcfg false
            (kinesis_disconnected_run kcfg (n + 1) ws) := rfl
    rw [hrun, h]
    simp only [blink_step, h1, h2, List.length_cons, List.length_nil]
    by_cases h14 : n % 15 = 14
    · have hgt : n % 15 + 1 > 14 := by omega
      have hmod : (n + 1) % 15 = 0 := by omega
      have hdiv : (n + 1) / 15 = n / 15 + 1 := by omega
      simp only [hgt, if_true, hmod, hdiv]
      refine ⟨trivial, ?_, trivial⟩
      by_cases hp : n / 15 % 2 = 0
      · have hp' : ¬ (n / 15 + 1) % 2 = 0 := by omega
        simp only [hp, hp', if_true, if_false]
      · have hp' : (n / 15 + 1) % 2 = 0 := by omega
        simp only [hp, hp', if_true, if_false, Bool.not_not]
    · have hgt : ¬ n % 15 + 1 > 14 := by omega
      have hmod : (n + 1) % 15 = n % 15 + 1 := by omega
      have hdiv : (n + 1) / 15 = n / 15 := by omega
      simp only [hgt, if_false, hmod, hdiv]
      refine ⟨by omega, trivial, trivial⟩

/-- C23, refutation: starting from step 0 with the flag cleared, the flag is
still clear after the 15th disconnected tick and is set by the 16th: it does
not change on tick 15, a multiple of 15, and it changes on tick 16, which is
not one. -/
theorem kinesis_blink_not_at_15 :
    (kinesis_disconnected_run sample_kinesis_config 14
        (sample_world 4 0, sample_split false)).2.last_ble_state_1 = false ∧
    (kinesis_disconnected_run sample_kinesis_config 15
        (sample_world 4 0, sample_split false)).2.last_ble_state_1 = false ∧
    (kinesis_disconnected_run sample_kinesis_config 16
        (sample_world 4 0, sample_split false)).2.last_ble_state_1 = true := by
  decide

/-- C23, amended: in the peripheral role on a three-pixel strip, while the
link stays disconnected and starting from `animation_step = 0`, with
`0 ≤ BRT_SCALE ≤ 255`, the `(n+1)`-th consecutive tick renders pixels 0..2 as
`(BRT_SCALE * flag, 0, 0)` with the value the slow-blink flag has after `n`
ticks, and the flag changes value on the `(n+1)`-th tick exactly when `n` is
a positive multiple of 15, that is on ticks 16, 31, 46, ...: every 15 ticks,
the first time after 16. -/
theorem kinesis_blink_period (kcfg : KinesisConfig) (ws : World × SplitState) (n : Nat)
    (hlen : ws.1.pixels.length = 3) (hstep : ws.1.state.animation_step = 0)
    (hscale : 0 ≤ kcfg.BRT_SCALE ∧ kcfg.BRT_SCALE ≤ 255) :
    (kinesis_disconnected_run kcfg (n + 1) ws).1.pixels =
      List.replicate 3
        ⟨if (kinesis_disconnected_run kcfg n ws).2.last_ble_state_1
          then kcfg.BRT_SCALE.toNat else 0, 0, 0⟩ ∧
    ((kinesis_disconnected_run kcfg (n + 1) ws).2.last_ble_state_1
        ≠ (kinesis_disconnected_run kcfg n ws).2.last_ble_state_1
      ↔ (0 < n ∧ n % 15 = 0)) := by
  have hprev : (kinesis_disconnected_run kcfg n ws).1.pixels.length = 3 ∧
      (kinesis_disconnected_run kcfg n ws).2.last_ble_state_1
        = (if n = 0 then ws.2.last_ble_state_1
            else if ((n - 1) / 15) % 2 = 0 then ws.2.last_ble_state_1
            else !ws.2.last_ble_state_1) := by
    cases n with
    | zero => exact ⟨hlen, by simp [kinesis_disconnected_run]⟩
    | succ m =>
      have h := kinesis_disconnected_state kcfg ws hlen hstep m
      exact ⟨h.2.2, by simpa using h.2.1⟩
  constructor
  · have hrun : kinesis_disconnected_run kcfg (n + 1) ws
        = zmk_rgb_underglow_effect_kinesis_peripheral kcfg false
            (kinesis_disconnected_run kcfg n ws) := rfl
    rw [hrun, kinesis_disconnected_tick kcfg _ hprev.1]
    simp only [List.replicate]
    cases (kinesis_disconnected_run kcfg n ws).2.last_ble_state_1
    · simp [to_u8, bool_factor]
    · have : to_u8 (kcfg.BRT_SCALE * bool_factor true) = kcfg.BRT_SCALE.toNat := by
        simp only [to_u8, bool_factor, if_true, mul_one]
        omega
      simp [this]
  · rw [(kinesis_disconnected_state kcfg ws hlen hstep n).2.1, hprev.2]
    cases n with
    | zero => simp
    | succ m =>
      simp only [Nat.succ_ne_zero, if_false, Nat.add_sub_cancel, Nat.succ_pos, true_and]
      by_cases h0 : (m + 1) % 15 = 0
      · have hdiv : (m + 1) / 15 = m / 15 + 1 := by omega
        simp only [h0, hdiv, iff_true]
        by_cases hp : m / 15 % 2 = 0
        · have hp' : ¬ (m / 15 + 1) % 2 = 0 := by omega
          simp only [hp, hp', if_true, if_false]
          cases ws.2.last_ble_state_1 <;> simp
        · have hp' : (m / 15 + 1) % 2 = 0 := by omega
          simp only [hp, hp', if_true, if_false]
          cases ws.2.last_ble_state_1 <;> simp
      · have hdiv : (m + 1) / 15 = m / 15 := by omega
        simp only [h0, hdiv, iff_false, not_not]

/-- C23, instance: scale 40, flag set at the start: the first tick renders
`(40, 0, 0)` on all three pixels. -/
theorem kinesis_blink_period_witness :
    (kinesis_disconnected_run sample_kinesis_config 1
        (sample_world 4 0, sample_split true)).1.pixels
      = [⟨40, 0, 0⟩, ⟨40, 0, 0⟩, ⟨40, 0, 0⟩] :=
  (kinesis_blink_period sample_kinesis_config (sample_world 4 0, sample_split true) 0
    rfl rfl (by decide)).1

/-! ## Automatic power-off -/

/-- C26: with the strip bound and the remembered flag `prev_state = false`,
for either initial value of `on`, an inactive event (`new_state = false`)
followed by an active event (`new_state = true`) leaves `on` equal to its
initial value and `prev_state = false`; after the inactive event `on` is
false. -/
theorem auto_off_round_trip (cfg : Config) (w : World) (ret1 ret2 : Int)
    (hstrip : w.led_strip = true) :
    let idle := rgb_underglow_auto_state cfg w false false ret1
    let woken := rgb_underglow_auto_state cfg idle.2.1 idle.2.2 true ret2
    idle.2.1.state.is_on = false ∧
    woken.2.1.state.is_on = w.state.is_on ∧
    woken.2.2 = false := by
  obtain ⟨strip, px, ⟨col, spd, cur, stp, o⟩, tmr, fl⟩ := w
  simp only at hstrip
  subst hstrip
  cases o <;>
    simp [rgb_underglow_auto_state, zmk_rgb_underglow_on, zmk_rgb_underglow_off]

/-- C26, instance: lights that were on go dark when idle and come back on
wake. -/
theorem auto_off_round_trip_witness :
    (rgb_underglow_auto_state sample_config (sample_world 0 0) false false 0).2.1.state.is_on
      = false ∧
    (rgb_underglow_auto_state sample_config
      (rgb_underglow_auto_state sample_config (sample_world 0 0) false false 0).2.1
      (rgb_underglow_auto_state sample_config (sample_world 0 0) false false 0).2.2
      true 0).2.1.state.is_on = true :=
  ⟨(auto_off_round_trip sample_config (sample_world 0 0) 0 0 rfl).1,
    (auto_off_round_trip sample_config (sample_world 0 0) 0 0 rfl).2.1⟩

/-! ## Kinesis, central role -/

/-- C22: one central Kinesis tick stores the provider values as the new
snapshot and keeps the previous one in `old_led_data`; it calls
`zmk_split_bt_update_led` exactly once, with the new snapshot, if the layer
or the indicators differ from the previous snapshot, and not at all if both
are equal; the result of that call is only recorded: whatever it is, the
world, the snapshots and the blink flags after the tick are the same. -/
theorem kinesis_central_send (kcfg : KinesisConfig) (inp : CentralInputs)
    (ws : World × SplitState) :
    (zmk_rgb_underglow_effect_kinesis_central kcfg inp ws).2.led_data
      = ⟨inp.layer, inp.flags⟩ ∧
    (zmk_rgb_underglow_effect_kinesis_central kcfg inp ws).2.old_led_data = ws.2.led_data ∧
    ((ws.2.led_data.layer ≠ inp.layer ∨ ws.2.led_data.indicators ≠ inp.flags) →
      (zmk_rgb_underglow_effect_kinesis_central kcfg inp ws).2.sent
        = (⟨inp.layer, inp.flags⟩, inp.send_err) :: ws.2.sent) ∧
    ((ws.2.led_data.layer = inp.layer ∧ ws.2.led_data.indicators = inp.flags) →
      (zmk_rgb_underglow_effect_kinesis_central kcfg inp ws).2.sent = ws.2.sent) ∧
    (∀ err : Int,
      (zmk_rgb_underglow_effect_kinesis_central kcfg { inp with send_err := err } ws).1
        = (zmk_rgb_underglow_effect_kinesis_central kcfg inp ws).1 ∧
      (zmk_rgb_underglow_effect_kinesis_central kcfg { inp with send_err := err } ws).2.led_data
        = (zmk_rgb_underglow_effect_kinesis_central kcfg inp ws).2.led_data ∧
      (zmk_rgb_underglow_effect_kinesis_central kcfg { inp with send_err := err } ws).2.old_led_data
        = (zmk_rgb_underglow_effect_kinesis_central kcfg inp ws).2.old_led_data ∧
      (zmk_rgb_underglow_effect_kinesis_central kcfg { inp with send_err := err } ws).2.last_ble_state_0
        = (zmk_rgb_underglow_effect_kinesis_central kcfg inp ws).2.last_ble_state_0 ∧
      (zmk_rgb_underglow_effect_kinesis_central kcfg { inp with send_err := err } ws).2.last_ble_state_1
        = (zmk_rgb_underglow_effect_kinesis_central kcfg inp ws).2.last_ble_state_1 ∧
      ((zmk_rgb_underglow_effect_kinesis_central kcfg { inp with send_err := err } ws).2.sent).map
          Prod.fst
        = ((zmk_rgb_underglow_effect_kinesis_central kcfg inp ws).2.sent).map Prod.fst) := by
  refine ⟨rfl, rfl, ?_, ?_, ?_⟩
  · intro h
    simp only [zmk_rgb_underglow_effect_kinesis_central, h, ne_eq, if_true]
  · intro h
    have h' : ¬ (ws.2.led_data.layer ≠ inp.layer ∨ ws.2.led_data.indicators ≠ inp.flags) := by
      simp [h.1, h.2]
    simp only [zmk_rgb_underglow_effect_kinesis_central, h', ne_eq, if_false]
  · intro err
    refine ⟨rfl, rfl, rfl, rfl, rfl, ?_⟩
    simp only [zmk_rgb_underglow_effect_kinesis_central]
    split_ifs <;> simp

/-- C22, instance: from the sample split state (layer 0, no indicators), a
tick that reads layer 1 and a failing send records exactly one call, with the
new snapshot; a tick that reads layer 0 and no indicators records none. -/
theorem kinesis_central_send_witness :
    (zmk_rgb_underglow_effect_kinesis_central sample_kinesis_config
        { flags := 0, layer := 1, profile_index := 0, profile_is_open := false,
          profile_is_connected := true, send_err := -5 }
        (sample_world 5 0, sample_split false)).2.sent = [(⟨1, 0⟩, -5)] ∧
    (zmk_rgb_underglow_effect_kinesis_central sample_kinesis_config
        { flags := 0, layer := 0, profile_index := 0, profile_is_open := false,
          profile_is_connected := true, send_err := -5 }
        (sample_world 5 0, sample_split false)).2.sent = [] :=
  ⟨(kinesis_central_send sample_kinesis_config
      { flags := 0, layer := 1, profile_index := 0, profile_is_open := false,
        profile_is_connected := true, send_err := -5 }
      (sample_world 5 0, sample_split false)).2.2.1 (by decide),
    (kinesis_central_send sample_kinesis_config
      { flags := 0, layer := 0, profile_index := 0, profile_is_open := false,
        profile_is_connected := true, send_err := -5 }
      (sample_world 5 0, sample_split false)).2.2.2.1 (by decide)⟩

/-! ## Test effect -/

/-! ### Conversions beyond the first hue turn -/

/-- The conversion is defined whenever saturation and brightness are at most
100 and the fraction `f` it computes lies in `[0,1]`, whatever the hue. -/
theorem hsb_to_rgb_defined_of_fraction (hsb : zmk_led_hsb)
    (hs : hsb.s ≤ 100) (hb : hsb.b ≤ 100)
    (hf0 : 0 ≤ f32_sub (f32_mul (f32_div (hsb.h : ℚ) (HUE_MAX : ℚ)) 6)
      ((hsb.h / 60 % 256 : Nat) : ℚ))
    (hf1 : f32_sub (f32_mul (f32_div (hsb.h : ℚ) (HUE_MAX : ℚ)) 6)
      ((hsb.h / 60 % 256 : Nat) : ℚ) ≤ 1) :
    ∃ c : led_rgb, hsb_to_rgb hsb = some c := by
  have nv := near_percent hsb.b hb
  have ns := near_percent hsb.s hs
  have nf : near 0 (f32_sub (f32_mul (f32_div (hsb.h : ℚ) (HUE_MAX : ℚ)) 6)
      ((hsb.h / 60 % 256 : Nat) : ℚ)) (f32_sub (f32_mul (f32_div (hsb.h : ℚ) (HUE_MAX : ℚ)) 6)
      ((hsb.h / 60 % 256 : Nat) : ℚ)) := ⟨hf0, hf1, hf0, hf1, by simp⟩
  have n1s := near_one_sub _ _ _ ns
  have np := near_mul _ _ _ _ _ _ nv n1s
  have nfs := near_mul _ _ _ _ _ _ nf ns
  have nq := near_mul _ _ _ _ _ _ nv (near_one_sub _ _ _ nfs)
  have n1f := near_one_sub _ _ _ nf
  have nt := near_mul _ _ _ _ _ _ nv (near_one_sub _ _ _ (near_mul _ _ _ _ _ _ n1f ns))
  have cv := chan_rel_of_near _ _ _ nv (by norm_num)
  have cp := chan_rel_of_near _ _ _ np (by norm_num)
  have cq := chan_rel_of_near _ _ _ nq (by norm_num)
  have ct := chan_rel_of_near _ _ _ nt (by norm_num)
  have uv := f32_to_u8_of_range _ cv.1 cv.2.1
  have up := f32_to_u8_of_range _ cp.1 cp.2.1
  have uq := f32_to_u8_of_range _ cq.1 cq.2.1
  have ut := f32_to_u8_of_range _ ct.1 ct.2.1
  have hj : hsb.h / 60 % 256 % 6 < 6 := Nat.mod_lt _ (by decide)
  unfold hsb_to_rgb hsb_to_rgb_float
  simp only [BRT_MAX, SAT_MAX, Nat.cast_ofNat] at uv up uq ut ⊢
  generalize hsb.h / 60 % 256 % 6 = j at hj ⊢
  interval_cases j <;> simp only [uv.1, up.1, uq.1, ut.1] <;> exact ⟨_, rfl⟩

set_option maxRecDepth 100000 in
/-- The fraction `f` computed in single precision lies in `[0,1]` for every
hue of the second and third turn, 360 to 1079 (by evaluation). -/
theorem hue_fraction_unit_upper : ∀ h : Nat, h < 720 →
    0 ≤ f32_sub (f32_mul (f32_div (((h + 360 : Nat)) : ℚ) (HUE_MAX : ℚ)) 6)
        ((((h + 360) / 60 % 256 : Nat)) : ℚ) ∧
    f32_sub (f32_mul (f32_div (((h + 360 : Nat)) : ℚ) (HUE_MAX : ℚ)) 6)
        ((((h + 360) / 60 % 256 : Nat)) : ℚ) ≤ 1 := by
  decide!

/-- Rounding zero gives zero. -/
theorem f32_round_zero : f32_round 0 = 0 := by decide!

/-- Rounding one gives one. -/
theorem f32_round_one : f32_round 1 = 1 := by decide!

/-- With saturation 0 the conversion is defined for every hue: all three
channels are the brightness. -/
theorem hsb_to_rgb_defined_of_grey (hsb : zmk_led_hsb) (hs : hsb.s = 0) (hb : hsb.b ≤ 100) :
    ∃ c : led_rgb, hsb_to_rgb hsb = some c := by
  have nv := near_percent hsb.b hb
  have n1 : near (0 + 1 / 2 ^ 24) (f32_round ((1 : ℚ))) 1 := by
    rw [f32_round_one]
    exact ⟨by norm_num, by norm_num, by norm_num, by norm_num, by norm_num⟩
  have np := near_mul _ _ _ _ _ _ nv n1
  have cv := chan_rel_of_near _ _ _ nv (by norm_num)
  have cp := chan_rel_of_near _ _ _ np (by norm_num)
  have uv := f32_to_u8_of_range _ cv.1 cv.2.1
  have up := f32_to_u8_of_range _ cp.1 cp.2.1
  have hj : hsb.h / 60 % 256 % 6 < 6 := Nat.mod_lt _ (by decide)
  unfold hsb_to_rgb hsb_to_rgb_float
  simp only [BRT_MAX, SAT_MAX, Nat.cast_ofNat, hs, Nat.cast_zero, zero_div, f32_div, f32_mul,
    f32_sub, f32_round_zero, mul_zero, sub_zero] at uv up ⊢
  generalize hsb.h / 60 % 256 % 6 = j at hj ⊢
  interval_cases j <;> simp only [uv.1, up.1] <;> exact ⟨_, rfl⟩

/-! ### Test ticks -/

/-- Where `hsb_to_rgb` is defined, the always-defined conversion gives the
same pixel, whatever `oob` is. -/
theorem hsb_to_rgb_any_of_some (oob : ℚ → Nat) (hsb : zmk_led_hsb) (c : led_rgb)
    (h : hsb_to_rgb hsb = some c) : hsb_to_rgb_any oob hsb = c := by
  unfold hsb_to_rgb at h
  unfold hsb_to_rgb_any f32_to_u8_any
  cases h1 : f32_to_u8 (hsb_to_rgb_float hsb).1 <;>
  cases h2 : f32_to_u8 (hsb_to_rgb_float hsb).2.1 <;>
  cases h3 : f32_to_u8 (hsb_to_rgb_float hsb).2.2 <;>
  simp only [h1, h2, h3] at h ⊢ <;>
  first
  | exact Option.some.inj h
  | exact Option.noConfusion h

/-- The hue the second block of the Test effect stores. -/
theorem test_wrapped_hue (step : Nat) (h1 : 360 ≤ step) (h2 : step < 65536) :
    (((step : Int) - (HUE_MAX : Int)) % 65536).toNat = step - 360 := by
  simp only [HUE_MAX]
  have : ((step : Int) - ((360 : Nat) : Int)) % 65536 = (step : Int) - 360 := by
    apply Int.emod_eq_of_lt <;> omega
  rw [this]; omega

/-- One Test tick on a three-pixel strip, in closed form. -/
theorem test_tick_eq (oob : ℚ → Nat) (cfg : Config) (w : World)
    (hN : cfg.STRIP_NUM_PIXELS = 3) (hlen : w.pixels.length = 3) :
    zmk_rgb_underglow_effect_test oob cfg w =
      { w with
        pixels :=
          if (w.state.animation_step + 20) % 65536 > 1080 then [white, white, white]
          else if w.state.animation_step < 360 then
            [test_color oob cfg w.state w.state.animation_step, dark, dark]
          else if w.state.animation_step < 720 then
            [dark, test_color oob cfg w.state
              ((((w.state.animation_step : Int) - (HUE_MAX : Int)) % 65536).toNat), dark]
          else if w.state.animation_step < 1080 then
            [dark, dark, test_color oob cfg w.state w.state.animation_step]
          else [test_color oob cfg w.state w.state.animation_step,
                test_color oob cfg w.state w.state.animation_step,
                test_color oob cfg w.state w.state.animation_step]
        state := { w.state with animation_step := (w.state.animation_step + 20) % 65536 } } := by
  obtain ⟨a, b, c, hpx⟩ : ∃ a b c, w.pixels = [a, b, c] := by
    match hw : w.pixels, hlen with
    | [a, b, c], _ => exact ⟨a, b, c, rfl⟩
  have hr : List.range 3 = [0, 1, 2] := by decide
  have hfill : ∀ (x : led_rgb) (p q r : led_rgb), fill_pixels 3 x [p, q, r] = [x, x, x] := by
    intro x p q r
    simp [fill_pixels, hr]
  unfold zmk_rgb_underglow_effect_test
  simp only [hN, hr, hpx, HUE_MAX, white, dark]
  by_cases k0 : w.state.animation_step < 360 <;>
  by_cases k1 : w.state.animation_step < 720 <;>
  by_cases k3 : w.state.animation_step < 1080 <;>
  by_cases k4 : (w.state.animation_step + 20) % 65536 > 1080 <;>
  first
  | (exfalso; omega)
  | (have k2 : w.state.animation_step < 360 * 2 := by omega
     have k5 : w.state.animation_step < 360 * 3 := by omega
     simp [k0, k1, k2, k3, k4, k5, hfill])
  | (have k2 : ¬ w.state.animation_step < 360 * 2 := by omega
     have k5 : w.state.animation_step < 360 * 3 := by omega
     simp [k0, k1, k2, k3, k4, k5, hfill])
  | (have k2 : ¬ w.state.animation_step < 360 * 2 := by omega
     have k5 : ¬ w.state.animation_step < 360 * 3 := by omega
     simp [k0, k1, k2, k3, k4, k5, hfill])

/-- The colour the Test effect converts is defined for every hue below 1080
when saturation and brightness are at most 100. -/
theorem test_hsb_defined (cfg : Config) (st : rgb_underglow_state) (h : Nat)
    (hs : st.color.s ≤ 100) (hb : st.color.b ≤ 100)
    (hmin : cfg.BRT_MIN ≤ cfg.BRT_MAX) (hmax : cfg.BRT_MAX ≤ 100) (hh : h < 1080) :
    ∃ c : led_rgb, hsb_to_rgb (test_hsb cfg st h) = some c := by
  unfold test_hsb
  by_cases h360 : h < 360
  · exact scaled_color_defined cfg { st.color with h := h } hmin hmax h360 hs hb
  · have hu := hue_fraction_unit_upper (h - 360) (by omega)
    have he : h - 360 + 360 = h := by omega
    rw [he] at hu
    exact hsb_to_rgb_defined_of_fraction (hsb_scale_min_max cfg { st.color with h := h }) hs
      (hsb_scale_min_max_le cfg { st.color with h := h } hmin hmax hb) hu.1 hu.2

/-- Where the conversion is defined the Test effect's pixel value is its
result. -/
theorem test_color_of_some (oob : ℚ → Nat) (cfg : Config) (st : rgb_underglow_state)
    (h : Nat) (c : led_rgb) (hc : hsb_to_rgb (test_hsb cfg st h) = some c) :
    test_color oob cfg st h = c :=
  hsb_to_rgb_any_of_some oob (test_hsb cfg st h) c hc

/-- The conversion reads the base colour only. -/
theorem test_color_congr (oob : ℚ → Nat) (cfg : Config) (st st' : rgb_underglow_state)
    (h : Nat) (hc : st'.color = st.color) :
    test_color oob cfg st' h = test_color oob cfg st h := by
  unfold test_color test_hsb
  rw [hc]

/-- Along a run of Test ticks from step 0 on a three-pixel strip everything
but the pixels and the step stays, the strip keeps its length and the step is
`20 * n` modulo `2^16`. -/
theorem test_run_inv (oob : ℚ → Nat) (cfg : Config) (w : World)
    (hN : cfg.STRIP_NUM_PIXELS = 3) (hlen : w.pixels.length = 3)
    (hstep : w.state.animation_step = 0) (n : Nat) :
    test_run oob cfg n w =
        { w with
          pixels := (test_run oob cfg n w).pixels
          state := { w.state with animation_step := (20 * n) % 65536 } } ∧
      (test_run oob cfg n w).pixels.length = 3 := by
  induction n with
  | zero =>
    refine ⟨?_, hlen⟩
    simp only [test_run, Nat.mul_zero, Nat.zero_mod]
    rw [← hstep]
  | succ n ih =>
    obtain ⟨hw, hl⟩ := ih
    have htick := test_tick_eq oob cfg (test_run oob cfg n w) hN hl
    have hrun : test_run oob cfg (n + 1) w
        = zmk_rgb_underglow_effect_test oob cfg (test_run oob cfg n w) := rfl
    have hst : (test_run oob cfg n w).state
        = { w.state with animation_step := (20 * n) % 65536 } := by rw [hw]
    have hnext : ((20 * n) % 65536 + 20) % 65536 = (20 * (n + 1)) % 65536 := by omega
    refine ⟨?_, ?_⟩
    · rw [hrun, htick]
      simp only [hst, hnext]
      rw [hw]
    · rw [hrun, htick]
      simp only
      split_ifs <;> rfl

/-- The step after `n` Test ticks from step 0. -/
theorem test_run_step (oob : ℚ → Nat) (cfg : Config) (w : World)
    (hN : cfg.STRIP_NUM_PIXELS = 3) (hlen : w.pixels.length = 3)
    (hstep : w.state.animation_step = 0) (n : Nat) :
    (test_run oob cfg n w).state.animation_step = (20 * n) % 65536 := by
  rw [(test_run_inv oob cfg w hN hlen hstep n).1]

/-- The pixels after tick `n + 1` of a run from step 0, by the step the tick
was entered with. -/
theorem test_run_pixels (oob : ℚ → Nat) (cfg : Config) (w : World)
    (hN : cfg.STRIP_NUM_PIXELS = 3) (hlen : w.pixels.length = 3)
    (hstep : w.state.animation_step = 0) (n : Nat) :
    (test_run oob cfg (n + 1) w).pixels =
      if ((20 * n) % 65536 + 20) % 65536 > 1080 then [white, white, white]
      else if (20 * n) % 65536 < 360 then
        [test_color oob cfg w.state ((20 * n) % 65536), dark, dark]
      else if (20 * n) % 65536 < 720 then
        [dark, test_color oob cfg w.state
          ((((((20 * n) % 65536 : Nat)) : Int) - (HUE_MAX : Int)) % 65536).toNat, dark]
      else if (20 * n) % 65536 < 1080 then
        [dark, dark, test_color oob cfg w.state ((20 * n) % 65536)]
      else [test_color oob cfg w.state ((20 * n) % 65536),
            test_color oob cfg w.state ((20 * n) % 65536),
            test_color oob cfg w.state ((20 * n) % 65536)] := by
  obtain ⟨hw, hl⟩ := test_run_inv oob cfg w hN hlen hstep n
  have hrun : test_run oob cfg (n + 1) w
      = zmk_rgb_underglow_effect_test oob cfg (test_run oob cfg n w) := rfl
  have hs := test_run_step oob cfg w hN hlen hstep n
  have hc : (test_run oob cfg n w).state.color = w.state.color := by rw [hw]
  rw [hrun, test_tick_eq oob cfg (test_run oob cfg n w) hN hl]
  simp only [hs, test_color_congr oob cfg w.state (test_run oob cfg n w).state _ hc]

set_option maxRecDepth 100000 in
/-- With the fully saturated sample colour, the hue `65176` that the second
block of the Test effect stores at step 0 has no defined conversion: a
product leaves the range of `uint8_t`. -/
theorem test_wrapped_hue_out_of_range :
    hsb_to_rgb (test_hsb sample_config (sample_world 6 0).state 65176) = none := by
  decide!

set_option maxRecDepth 100000 in
/-- Conversions used by the instances of the Test effect below. -/
theorem test_hsb_values :
    hsb_to_rgb (test_hsb sample_config
        { (sample_world 6 0).state with color := ⟨0, 20, 100⟩, animation_step := 800 } 800)
      = some ⟨237, 255, 204⟩ ∧
    hsb_to_rgb (test_hsb sample_config
        { (sample_world 6 0).state with color := ⟨0, 20, 100⟩, animation_step := 800 }
        (800 - 2 * 360))
      = some ⟨238, 255, 204⟩ ∧
    hsb_to_rgb (test_hsb sample_config grey_test_world.state 65520) = some ⟨127, 127, 127⟩ ∧
    hsb_to_rgb (test_hsb sample_config (sample_world 6 0).state 0) = some ⟨255, 0, 0⟩ := by
  decide!

/-- On the sample configuration with base colour `(s, b) = (20, 100)`, the
Test tick entered at step 800 leaves pixels 0 and 1 dark, pixel 2 at
`(237, 255, 204)` and the step at 820, whatever byte an out-of-range
narrowing gives. -/
theorem test_tick_at_800 (oob : ℚ → Nat) :
    zmk_rgb_underglow_effect_test oob sample_config
        { sample_world 6 0 with
          state := { (sample_world 6 0).state with
                     color := ⟨0, 20, 100⟩, animation_step := 800 } }
      = { sample_world 6 0 with
          pixels := [dark, dark, ⟨237, 255, 204⟩]
          state := { (sample_world 6 0).state with
                     color := ⟨0, 20, 100⟩, animation_step := 820 } } := by
  rw [test_tick_eq oob sample_config
    { sample_world 6 0 with
      state := { (sample_world 6 0).state with
                 color := ⟨0, 20, 100⟩, animation_step := 800 } } rfl rfl]
  simp only [test_color_of_some oob sample_config _ 800 _ test_hsb_values.1]
  rfl

/-- C21, counterexample: on the sample configuration with base colour
`(s, b) = (20, 100)`, the Test tick entered at step 800 (third window,
`800 + 20 ≤ 1080`) leaves pixel 2 at `(237, 255, 204)`, whereas the
range-scaled base colour with hue `800 - 2 * 360 = 80` converts to
`(238, 255, 204)`: the third window converts the hue `step` itself.  No
narrowing is out of range in this tick; the one here gives 0 out of range,
and `test_tick_at_800` shows the same pixels for every other choice. -/
theorem test_third_window_hue_not_reduced :
    zmk_rgb_underglow_effect_test (fun _ => 0) sample_config
        { sample_world 6 0 with
          state := { (sample_world 6 0).state with
                     color := ⟨0, 20, 100⟩, animation_step := 800 } }
      = { sample_world 6 0 with
          pixels := [dark, dark, ⟨237, 255, 204⟩]
          state := { (sample_world 6 0).state with
                     color := ⟨0, 20, 100⟩, animation_step := 820 } } ∧
    hsb_to_rgb (test_hsb sample_config
        { (sample_world 6 0).state with color := ⟨0, 20, 100⟩, animation_step := 800 }
        (800 - 2 * 360))
      = some ⟨238, 255, 204⟩ :=
  ⟨test_tick_at_800 (fun _ => 0), test_hsb_values.2.1⟩

/-- C21, amended: on a three-pixel strip, with saturation and brightness at
most 100 and limits `BRT_MIN ≤ BRT_MAX ≤ 100`, a Test tick entered at `step`
changes only the pixels and the step; the step becomes
`(step + 20) mod 2^16`, and when that exceeds 1080 every pixel is white.
For `step < 360` pixel 0 is the scaled base colour with hue `step`, for
`360 ≤ step < 720` pixel 1 is the scaled base colour with hue `step - 360`,
and for `720 ≤ step`, `step + 20 ≤ 1080` pixel 2 is the scaled base colour
converted with hue `step` (not reduced by 720); in each window the conversion
shown is defined, the other two pixels are dark and the step becomes
`step + 20`.  All of this holds whatever byte an out-of-range narrowing
gives. -/
theorem test_tick_windows (oob : ℚ → Nat) (cfg : Config) (w : World)
    (hN : cfg.STRIP_NUM_PIXELS = 3) (hlen : w.pixels.length = 3)
    (hs : w.state.color.s ≤ 100) (hb : w.state.color.b ≤ 100)
    (hmin : cfg.BRT_MIN ≤ cfg.BRT_MAX) (hmax : cfg.BRT_MAX ≤ 100) :
    zmk_rgb_underglow_effect_test oob cfg w =
        { w with
          pixels := (zmk_rgb_underglow_effect_test oob cfg w).pixels
          state := { w.state with
                     animation_step := (w.state.animation_step + 20) % 65536 } } ∧
    ((w.state.animation_step + 20) % 65536 > 1080 →
        (zmk_rgb_underglow_effect_test oob cfg w).pixels = [white, white, white]) ∧
    (w.state.animation_step < 360 →
        ∃ c : led_rgb, hsb_to_rgb (test_hsb cfg w.state w.state.animation_step) = some c ∧
          zmk_rgb_underglow_effect_test oob cfg w =
            { w with
              pixels := [c, dark, dark]
              state := { w.state with animation_step := w.state.animation_step + 20 } }) ∧
    (360 ≤ w.state.animation_step → w.state.animation_step < 720 →
        ∃ c : led_rgb,
          hsb_to_rgb (test_hsb cfg w.state (w.state.animation_step - 360)) = some c ∧
          zmk_rgb_underglow_effect_test oob cfg w =
            { w with
              pixels := [dark, c, dark]
              state := { w.state with animation_step := w.state.animation_step + 20 } }) ∧
    (720 ≤ w.state.animation_step → w.state.animation_step + 20 ≤ 1080 →
        ∃ c : led_rgb, hsb_to_rgb (test_hsb cfg w.state w.state.animation_step) = some c ∧
          zmk_rgb_underglow_effect_test oob cfg w =
            { w with
              pixels := [dark, dark, c]
              state := { w.state with animation_step := w.state.animation_step + 20 } }) := by
  have htick := test_tick_eq oob cfg w hN hlen
  refine ⟨?_, ?_, ?_, ?_, ?_⟩
  · rw [htick]
  · intro k
    rw [htick]
    simp only [k, if_true]
  · intro k0
    obtain ⟨c, hc⟩ := test_hsb_defined cfg w.state w.state.animation_step hs hb hmin hmax
      (by omega)
    have hnext : (w.state.animation_step + 20) % 65536 = w.state.animation_step + 20 :=
      Nat.mod_eq_of_lt (by omega)
    have k4 : ¬ w.state.animation_step + 20 > 1080 := by omega
    refine ⟨c, hc, ?_⟩
    rw [htick, hnext, test_color_of_some oob cfg w.state _ c hc]
    simp only [k0, k4, if_true, if_false]
  · intro k0 k1
    obtain ⟨c, hc⟩ := test_hsb_defined cfg w.state (w.state.animation_step - 360) hs hb
      hmin hmax (by omega)
    have hnext : (w.state.animation_step + 20) % 65536 = w.state.animation_step + 20 :=
      Nat.mod_eq_of_lt (by omega)
    have k2 : ¬ w.state.animation_step < 360 := by omega
    have k4 : ¬ w.state.animation_step + 20 > 1080 := by omega
    refine ⟨c, hc, ?_⟩
    rw [htick, hnext, test_wrapped_hue _ k0 (by omega),
      test_color_of_some oob cfg w.state _ c hc]
    simp only [k1, k2, k4, if_true, if_false]
  · intro k0 k1
    obtain ⟨c, hc⟩ := test_hsb_defined cfg w.state w.state.animation_step hs hb hmin hmax
      (by omega)
    have hnext : (w.state.animation_step + 20) % 65536 = w.state.animation_step + 20 :=
      Nat.mod_eq_of_lt (by omega)
    have k2 : ¬ w.state.animation_step < 360 := by omega
    have k3 : ¬ w.state.animation_step < 720 := by omega
    have k4 : ¬ w.state.animation_step + 20 > 1080 := by omega
    have k5 : w.state.animation_step < 1080 := by omega
    refine ⟨c, hc, ?_⟩
    rw [htick, hnext, test_color_of_some oob cfg w.state _ c hc]
    simp only [k2, k3, k4, k5, if_true, if_false]

/-- C21, witness: the fully saturated sample world at step 0 with the sample
configuration meets the hypotheses; with out-of-range narrowings giving 0,
the tick lights pixel 0 red, leaves pixels 1 and 2 dark and the step at
20. -/
theorem test_tick_windows_witness :
    zmk_rgb_underglow_effect_test (fun _ => 0) sample_config (sample_world 6 0)
      = { sample_world 6 0 with
          pixels := [⟨255, 0, 0⟩, dark, dark]
          state := { (sample_world 6 0).state with animation_step := 20 } } := by
  obtain ⟨c, hc, ht⟩ := (test_tick_windows (fun _ => 0) sample_config (sample_world 6 0)
    rfl rfl (by decide) (by decide) (by decide) (by decide)).2.2.1 (by decide)
  have hv := test_hsb_values.2.2.2
  have hcv : c = ⟨255, 0, 0⟩ := by
    have h2 : some c = some (⟨255, 0, 0⟩ : led_rgb) := by
      rw [← hc]
      exact hv
    exact Option.some.inj h2
  rw [ht, hcv]
  rfl

/-- From step 0 with the grey base colour `(0, 0, 50)` on the sample
three-pixel configuration, whatever byte an out-of-range narrowing gives,
tick 55 leaves every pixel white at step 1100, and tick 3277 leaves step 4
and every pixel at `(127, 127, 127)`. -/
theorem test_run_grey (oob : ℚ → Nat) :
    (test_run oob sample_config 55 grey_test_world).state.animation_step = 1100 ∧
    (test_run oob sample_config 55 grey_test_world).pixels = [white, white, white] ∧
    (test_run oob sample_config 3277 grey_test_world).state.animation_step = 4 ∧
    (test_run oob sample_config 3277 grey_test_world).pixels
      = [⟨127, 127, 127⟩, ⟨127, 127, 127⟩, ⟨127, 127, 127⟩] := by
  refine ⟨?_, ?_, ?_, ?_⟩
  · rw [test_run_step oob sample_config grey_test_world rfl rfl rfl 55]
  · rw [test_run_pixels oob sample_config grey_test_world rfl rfl rfl 54]
    rfl
  · rw [test_run_step oob sample_config grey_test_world rfl rfl rfl 3277]
  · rw [test_run_pixels oob sample_config grey_test_world rfl rfl rfl 3276]
    have h1 : ¬ ((20 * 3276) % 65536 + 20) % 65536 > 1080 := by decide
    have h2 : ¬ (20 * 3276) % 65536 < 360 := by decide
    have h3 : ¬ (20 * 3276) % 65536 < 720 := by decide
    have h4 : ¬ (20 * 3276) % 65536 < 1080 := by decide
    have h5 : (20 * 3276) % 65536 = 65520 := by decide
    simp only [h1, h2, h3, h4, if_false]
    rw [h5, test_color_of_some oob sample_config grey_test_world.state 65520 _
      test_hsb_values.2.2.1]

/-- C27, counterexample: from step 0 with the grey base colour `(0, 0, 50)`
on the sample three-pixel configuration, tick 55 leaves every pixel white
(step 1100), and tick 3277 wraps the 16-bit step to 4 and leaves every pixel
at `(127, 127, 127)`: the white state has ended.  With this base colour no
narrowing is out of range; the run here gives 0 out of range, and
`test_run_grey` shows the same for every other choice. -/
theorem test_white_not_permanent :
    (test_run (fun _ => 0) sample_config 55 grey_test_world).state.animation_step = 1100 ∧
    (test_run (fun _ => 0) sample_config 55 grey_test_world).pixels
      = [white, white, white] ∧
    (test_run (fun _ => 0) sample_config 3277 grey_test_world).state.animation_step = 4 ∧
    (test_run (fun _ => 0) sample_config 3277 grey_test_world).pixels
      = [⟨127, 127, 127⟩, ⟨127, 127, 127⟩, ⟨127, 127, 127⟩] :=
  test_run_grey (fun _ => 0)

/-- C27, amended: on a three-pixel strip, for a run of Test ticks from step 0
with no other command in between, whatever the base colour and whatever byte
an out-of-range narrowing gives: after `n` ticks the step is
`20 * n mod 2^16`; every tick that leaves a step above 1080 leaves every
pixel white, in particular every tick from the 55th to the 3276th, after
which the step is `20 * n`; tick 3277 wraps the step to 4 and leaves every
pixel at the conversion of hue 65520 where that is defined; and with
saturation and brightness at most 100 and limits `BRT_MIN ≤ BRT_MAX ≤ 100`,
tick 3278 leaves pixel 0 at the scaled base colour with hue 4 and pixels 1
and 2 dark. -/
theorem test_white_span (oob : ℚ → Nat) (cfg : Config) (w : World)
    (hN : cfg.STRIP_NUM_PIXELS = 3) (hlen : w.pixels.length = 3)
    (hstep : w.state.animation_step = 0) :
    (∀ n : Nat, (test_run oob cfg n w).state.animation_step = (20 * n) % 65536) ∧
    (∀ n : Nat, 0 < n → (20 * n) % 65536 > 1080 →
      (test_run oob cfg n w).pixels = [white, white, white]) ∧
    (∀ n : Nat, 55 ≤ n → n ≤ 3276 →
      (test_run oob cfg n w).pixels = [white, white, white] ∧
      (test_run oob cfg n w).state.animation_step = 20 * n) ∧
    (test_run oob cfg 3277 w).state.animation_step = 4 ∧
    (∀ c : led_rgb, hsb_to_rgb (test_hsb cfg w.state 65520) = some c →
      (test_run oob cfg 3277 w).pixels = [c, c, c]) ∧
    (w.state.color.s ≤ 100 → w.state.color.b ≤ 100 → cfg.BRT_MIN ≤ cfg.BRT_MAX →
      cfg.BRT_MAX ≤ 100 →
      ∃ c : led_rgb, hsb_to_rgb (test_hsb cfg w.state 4) = some c ∧
        (test_run oob cfg 3278 w).pixels = [c, dark, dark]) := by
  have hwhite : ∀ n : Nat, 0 < n → (20 * n) % 65536 > 1080 →
      (test_run oob cfg n w).pixels = [white, white, white] := by
    intro n hn hgt
    obtain ⟨m, rfl⟩ : ∃ m, n = m + 1 := ⟨n - 1, by omega⟩
    rw [test_run_pixels oob cfg w hN hlen hstep m]
    have hnext : ((20 * m) % 65536 + 20) % 65536 = (20 * (m + 1)) % 65536 := by omega
    rw [hnext]
    simp only [hgt, if_true]
  refine ⟨test_run_step oob cfg w hN hlen hstep, hwhite, ?_, ?_, ?_, ?_⟩
  · intro n h55 hn
    have hmod : (20 * n) % 65536 = 20 * n := Nat.mod_eq_of_lt (by omega)
    refine ⟨hwhite n (by omega) (by rw [hmod]; omega), ?_⟩
    rw [test_run_step oob cfg w hN hlen hstep n, hmod]
  · rw [test_run_step oob cfg w hN hlen hstep 3277]
  · intro c hc
    rw [test_run_pixels oob cfg w hN hlen hstep 3276]
    have h1 : ¬ ((20 * 3276) % 65536 + 20) % 65536 > 1080 := by decide
    have h2 : ¬ (20 * 3276) % 65536 < 360 := by decide
    have h3 : ¬ (20 * 3276) % 65536 < 720 := by decide
    have h4 : ¬ (20 * 3276) % 65536 < 1080 := by decide
    have h5 : (20 * 3276) % 65536 = 65520 := by decide
    simp only [h1, h2, h3, h4, if_false]
    rw [h5, test_color_of_some oob cfg w.state 65520 c hc]
  · intro hs hb hmin hmax
    obtain ⟨c, hc⟩ := test_hsb_defined cfg w.state 4 hs hb hmin hmax (by decide)
    refine ⟨c, hc, ?_⟩
    rw [test_run_pixels oob cfg w hN hlen hstep 3277]
    have h1 : ¬ ((20 * 3277) % 65536 + 20) % 65536 > 1080 := by decide
    have h2 : (20 * 3277) % 65536 < 360 := by decide
    have h5 : (20 * 3277) % 65536 = 4 := by decide
    simp only [h1, h2, if_true, if_false]
    rw [h5, test_color_of_some oob cfg w.state 4 c hc]

/-- C27, witness: the fully saturated sample world meets the hypotheses; with
out-of-range narrowings giving 0, every pixel is white after 3276 ticks, at
step 65520. -/
theorem test_white_span_witness :
    (test_run (fun _ => 0) sample_config 3276 (sample_world 6 0)).pixels
        = [white, white, white] ∧
      (test_run (fun _ => 0) sample_config 3276 (sample_world 6 0)).state.animation_step
        = 20 * 3276 :=
  (test_white_span (fun _ => 0) sample_config (sample_world 6 0) rfl rfl rfl).2.2.1 3276
    (by decide) (by decide)

end Underglow
